import Mathlib

/-!
# Order book and matching engine (`services/orderbook`)

A shallow embedding of `order.h`, `order.cpp`, `orderbook.h` and `orderbook.cpp`.

Modelling conventions.

* `double` prices and quantities are exact rationals (`ℚ`): the book only adds,
  subtracts and compares them.
* `std::chrono::system_clock::time_point` is an integer tick count (`Int`); the book
  only compares timestamps.  The `timestamp` field of a `Trade` is the wall clock at
  the time of the trade and is left out of the model.
* A `std::shared_ptr<Order>` is an index into `OrderBook.mem`, the list of all `Order`
  objects handed to the book so far.  Every `addOrder` call of a call sequence is given
  a newly made object (`std::make_shared`, as in `main.cpp`), with any field values,
  and only the book writes to an object afterwards.  The two `std::set`s hold such indices in the
  order given by their comparator; `std::set` semantics (an element equivalent to one
  already present is not inserted, `erase(key)` removes the equivalent element) are
  kept.  The `std::map` is an association list with unique keys.
* The mutex and the console output are not modelled.
* The `while` loop of `matchOrders` is modelled with fuel; `none` means the fuel ran
  out before the loop ended.
-/

namespace hedgefund
namespace orderbook

/-! ## order.h / order.cpp -/

inductive OrderType where
  | MARKET
  | LIMIT
  | STOP
  | STOP_LIMIT
deriving DecidableEq, Repr

inductive OrderSide where
  | BUY
  | SELL
deriving DecidableEq, Repr

inductive OrderStatus where
  | PENDING
  | PARTIAL_FILLED
  | FILLED
  | CANCELLED
  | REJECTED
deriving DecidableEq, Repr

structure Order where
  id : String
  symbol : String
  type : OrderType
  side : OrderSide
  price : ℚ
  quantity : ℚ
  filled_quantity : ℚ
  status : OrderStatus
  timestamp : Int
  client_id : String
deriving DecidableEq, Repr

/-- The constructor `Order::Order`; `now` is the value of `system_clock::now()`. -/
def Order.new (id symbol : String) (type : OrderType) (side : OrderSide)
    (price quantity : ℚ) (client_id : String) (now : Int) : Order :=
  { id := id, symbol := symbol, type := type, side := side, price := price,
    quantity := quantity, filled_quantity := 0, status := OrderStatus.PENDING,
    timestamp := now, client_id := client_id }

def Order.remainingQuantity (o : Order) : ℚ :=
  o.quantity - o.filled_quantity

def Order.isComplete (o : Order) : Bool :=
  o.status = OrderStatus.FILLED || o.status = OrderStatus.CANCELLED ||
    o.status = OrderStatus.REJECTED

/-! ## orderbook.h -/

structure Trade where
  buy_order_id : String
  sell_order_id : String
  price : ℚ
  quantity : ℚ
deriving DecidableEq, Repr

/-- Price-time priority for buys: higher price first, then earlier time. -/
def BuyComparator (a b : Order) : Bool :=
  if a.price ≠ b.price then decide (a.price > b.price)
  else decide (a.timestamp < b.timestamp)

/-- Price-time priority for sells: lower price first, then earlier time. -/
def SellComparator (a b : Order) : Bool :=
  if a.price ≠ b.price then decide (a.price < b.price)
  else decide (a.timestamp < b.timestamp)

/-- The object a null or dangling pointer would read; never read on a book built
by `addOrder`, `cancelOrder` and `matchOrders` (see `WF`). -/
def nullOrder : Order :=
  Order.new "" "" OrderType.MARKET OrderSide.BUY 0 0 "" 0

/-- Read through a pointer: `*p`. -/
def deref (mem : List Order) (p : Nat) : Order :=
  mem.getD p nullOrder

/-- Write through a pointer: `*p = f(*p)`. -/
def update (f : Order → Order) : List Order → Nat → List Order
  | [], _ => []
  | o :: os, 0 => f o :: os
  | o :: os, p + 1 => o :: update f os p

/-- Insertion into a `std::set` of pointers ordered by `comp` on the pointees: no
insertion when an equivalent element is present. -/
def setInsert (comp : Order → Order → Bool) (mem : List Order) (p : Nat) :
    List Nat → List Nat
  | [] => [p]
  | q :: qs =>
    if comp (deref mem q) (deref mem p) then q :: setInsert comp mem p qs
    else if comp (deref mem p) (deref mem q) then p :: q :: qs
    else q :: qs

/-- The call `erase(key)` on a `std::set` of pointers: removes the element equivalent
to `p` under `comp`, if there is one. -/
def setErase (comp : Order → Order → Bool) (mem : List Order) (p : Nat) :
    List Nat → List Nat
  | [] => []
  | q :: qs =>
    if comp (deref mem q) (deref mem p) then q :: setErase comp mem p qs
    else if comp (deref mem p) (deref mem q) then q :: qs
    else qs

/-- The call `order_map_.find(key)`. -/
def mapFind : List (String × Nat) → String → Option Nat
  | [], _ => none
  | (k, v) :: m, key => if k = key then some v else mapFind m key

/-- The assignment `order_map_[key] = v`. -/
def mapAssign : List (String × Nat) → String → Nat → List (String × Nat)
  | [], key, v => [(key, v)]
  | (k, w) :: m, key, v =>
    if k = key then (key, v) :: m else (k, w) :: mapAssign m key v

/-- The call `order_map_.erase(key)`. -/
def mapErase (m : List (String × Nat)) (key : String) : List (String × Nat) :=
  m.filter (fun kv => kv.1 ≠ key)

/-- The members of `class OrderBook`, with the `Order` objects its pointers refer to. -/
structure OrderBook where
  mem : List Order
  buy_orders_ : List Nat
  sell_orders_ : List Nat
  order_map_ : List (String × Nat)
deriving DecidableEq, Repr

/-- The book right after `OrderBook::OrderBook`, before any order exists. -/
def OrderBook.empty : OrderBook :=
  { mem := [], buy_orders_ := [], sell_orders_ := [], order_map_ := [] }

/-! ## orderbook.cpp -/

/-- The method `OrderBook::addOrder`, on a pointer `order` to an existing object. -/
def addOrder (st : OrderBook) (order : Nat) : OrderBook :=
  let st1 := { st with order_map_ := mapAssign st.order_map_ (deref st.mem order).id order }
  if (deref st1.mem order).side = OrderSide.BUY then
    { st1 with buy_orders_ := setInsert BuyComparator st1.mem order st1.buy_orders_ }
  else
    { st1 with sell_orders_ := setInsert SellComparator st1.mem order st1.sell_orders_ }

/-- The caller side of `addOrder`: `std::make_shared<Order>` of a new object with the
fields of `o`, then `addOrder` on the pointer to it. -/
def submit (st : OrderBook) (o : Order) : OrderBook :=
  addOrder { st with mem := st.mem ++ [o] } st.mem.length

/-- The method `OrderBook::cancelOrder`. -/
def cancelOrder (st : OrderBook) (order_id : String) : Bool × OrderBook :=
  match mapFind st.order_map_ order_id with
  | none => (false, st)
  | some order =>
    let st1 := { st with
      mem := update (fun o => { o with status := OrderStatus.CANCELLED }) st.mem order }
    let st2 :=
      if (deref st1.mem order).side = OrderSide.BUY then
        { st1 with buy_orders_ := setErase BuyComparator st1.mem order st1.buy_orders_ }
      else
        { st1 with sell_orders_ := setErase SellComparator st1.mem order st1.sell_orders_ }
    (true, { st2 with order_map_ := mapErase st2.order_map_ order_id })

/-- The function `std::min`. -/
def stdMin (a b : ℚ) : ℚ :=
  if b < a then b else a

/-- The status assignment of `executeTrade`. -/
def setFillStatus (o : Order) : Order :=
  if o.remainingQuantity = 0 then { o with status := OrderStatus.FILLED }
  else { o with status := OrderStatus.PARTIAL_FILLED }

/-- The method `OrderBook::executeTrade`. -/
def executeTrade (st : OrderBook) (buy_order sell_order : Nat) (price quantity : ℚ) :
    OrderBook × List Trade :=
  let m1 := update (fun o => { o with filled_quantity := o.filled_quantity + quantity })
    st.mem buy_order
  let m2 := update (fun o => { o with filled_quantity := o.filled_quantity + quantity })
    m1 sell_order
  let m3 := update setFillStatus m2 buy_order
  let m4 := update setFillStatus m3 sell_order
  let trade : Trade :=
    { buy_order_id := (deref m4 buy_order).id, sell_order_id := (deref m4 sell_order).id,
      price := price, quantity := quantity }
  ({ st with mem := m4 }, [trade])

/-- One evaluation of the loop condition of `matchOrders` and, when it holds and the
`break` is not taken, one run of the loop body: `none` when the loop ends here, else
the book after the body and the trades of this iteration. -/
def matchStep (st : OrderBook) : Option (OrderBook × List Trade) :=
  match st.buy_orders_, st.sell_orders_ with
  | best_buy :: _, best_sell :: _ =>
    if (deref st.mem best_buy).price < (deref st.mem best_sell).price then none
    else
      let trade_price := (deref st.mem best_sell).price
      let trade_quantity := stdMin (deref st.mem best_buy).remainingQuantity
        (deref st.mem best_sell).remainingQuantity
      let r := executeTrade st best_buy best_sell trade_price trade_quantity
      let st1 := r.1
      let st2 :=
        if (deref st1.mem best_buy).isComplete then
          { st1 with buy_orders_ := st1.buy_orders_.tail,
                     order_map_ := mapErase st1.order_map_ (deref st1.mem best_buy).id }
        else st1
      let st3 :=
        if (deref st2.mem best_sell).isComplete then
          { st2 with sell_orders_ := st2.sell_orders_.tail,
                     order_map_ := mapErase st2.order_map_ (deref st2.mem best_sell).id }
        else st2
      some (st3, r.2)
  | _, _ => none

/-- The `while` loop of `matchOrders` with `fuel` iterations allowed; `trades` are the
trades emitted so far. -/
def matchLoop : Nat → OrderBook → List Trade → Option (OrderBook × List Trade)
  | 0, _, _ => none
  | fuel + 1, st, trades =>
    match matchStep st with
    | none => some (st, trades)
    | some (st1, new_trades) => matchLoop fuel st1 (trades ++ new_trades)

/-- The method `OrderBook::matchOrders`: the loop, allowed one iteration per resting
order and one more for the final test (`matchLoop_fuel_mono`: more fuel gives the
same result). -/
def matchOrders (st : OrderBook) : Option (OrderBook × List Trade) :=
  matchLoop (st.buy_orders_.length + st.sell_orders_.length + 1) st []

def getBestBid (st : OrderBook) : ℚ :=
  match st.buy_orders_ with
  | [] => 0
  | b :: _ => (deref st.mem b).price

def getBestAsk (st : OrderBook) : ℚ :=
  match st.sell_orders_ with
  | [] => 0
  | s :: _ => (deref st.mem s).price

/-- The statement `price_levels[price] += qty` on a `std::map<double, double>`, kept
as a list of (price, quantity) in ascending price order. -/
def levelAdd (price qty : ℚ) : List (ℚ × ℚ) → List (ℚ × ℚ)
  | [] => [(price, 0 + qty)]
  | (k, v) :: m =>
    if price < k then (price, 0 + qty) :: (k, v) :: m
    else if k < price then (k, v) :: levelAdd price qty m
    else (k, v + qty) :: m

/-- The first loop of `getBidLevels` / `getAskLevels` over a queue. -/
def priceLevels (mem : List Order) : List Nat → List (ℚ × ℚ) → List (ℚ × ℚ)
  | [], price_levels => price_levels
  | order :: rest, price_levels =>
    priceLevels mem rest
      (levelAdd (deref mem order).price (deref mem order).remainingQuantity price_levels)

/-- The method `OrderBook::getBidLevels`; the second loop walks the map from its
largest key and stops after `depth` entries. -/
def getBidLevels (st : OrderBook) (depth : Int) : List (ℚ × ℚ) :=
  ((priceLevels st.mem st.buy_orders_ []).reverse).take depth.toNat

def getAskLevels (st : OrderBook) (depth : Int) : List (ℚ × ℚ) :=
  (priceLevels st.mem st.sell_orders_ []).take depth.toNat

/-! ## Call sequences -/

/-- A call of one of the three mutating methods; `addOrder` is given the fields of
the new `Order` object. -/
inductive Call where
  | addOrder (order : Order)
  | cancelOrder (order_id : String)
  | matchOrders
deriving DecidableEq, Repr

/-- One call, on the book and the list of all trades emitted so far. -/
def call (s : OrderBook × List Trade) : Call → Option (OrderBook × List Trade)
  | Call.addOrder o => some (submit s.1 o, s.2)
  | Call.cancelOrder order_id => some ((cancelOrder s.1 order_id).2, s.2)
  | Call.matchOrders =>
    match matchOrders s.1 with
    | none => none
    | some r => some (r.1, s.2 ++ r.2)

/-- A sequence of calls, first to last. -/
def run : List Call → OrderBook × List Trade → Option (OrderBook × List Trade)
  | [], s => some s
  | c :: cs, s =>
    match call s c with
    | none => none
    | some s1 => run cs s1

/-! ## Worked examples -/

/-- The orders of the two worked examples. -/
def exA : Order := Order.new "A" "AAPL" OrderType.LIMIT OrderSide.BUY 150 100 "c" 1

def exB : Order := Order.new "B" "AAPL" OrderType.LIMIT OrderSide.SELL 149.5 100 "c" 2

/-! ## Invariants of the book -/

/-- The fields of an order that the book never writes: `o1` and `o2` agree on them. -/
def SameKey (o1 o2 : Order) : Prop :=
  o2.id = o1.id ∧ o2.side = o1.side ∧ o2.price = o1.price ∧ o2.quantity = o1.quantity ∧
    o2.timestamp = o1.timestamp

/-- Well-formedness of a book: the queued pointers refer to existing objects of the
queue's side, and each queue is strictly ordered by its comparator. -/
structure WF (st : OrderBook) : Prop where
  buy_valid : ∀ p ∈ st.buy_orders_, p < st.mem.length
  sell_valid : ∀ p ∈ st.sell_orders_, p < st.mem.length
  buy_side : ∀ p ∈ st.buy_orders_, (deref st.mem p).side = OrderSide.BUY
  sell_side : ∀ p ∈ st.sell_orders_, (deref st.mem p).side = OrderSide.SELL
  buy_sorted : st.buy_orders_.Pairwise
    (fun p q => BuyComparator (deref st.mem p) (deref st.mem q) = true)
  sell_sorted : st.sell_orders_.Pairwise
    (fun p q => SellComparator (deref st.mem p) (deref st.mem q) = true)
  map_valid : ∀ kv ∈ st.order_map_, kv.2 < st.mem.length

/-- No resting buy order is priced at or above a resting sell order. -/
def Uncrossed (st : OrderBook) : Prop :=
  ∀ b ∈ st.buy_orders_, ∀ s ∈ st.sell_orders_,
    (deref st.mem b).price < (deref st.mem s).price

/-- An order after a fill of `q`: the two writes of `executeTrade` to one order. -/
def Order.fill (o : Order) (q : ℚ) : Order :=
  setFillStatus { o with filled_quantity := o.filled_quantity + q }

/-- The quantity `matchOrders` trades between the orders at `b` and `s`. -/
def tradeQuantity (mem : List Order) (b s : Nat) : ℚ :=
  stdMin (deref mem b).remainingQuantity (deref mem s).remainingQuantity

/-- The book after at most `n` iterations of the loop of `matchOrders` (the book at
the end of the loop when it ends earlier). -/
def matchIter : Nat → OrderBook → OrderBook
  | 0, st => st
  | n + 1, st =>
    match matchStep st with
    | none => st
    | some r => matchIter n r.1

/-- How a book can differ from an earlier one while `matchOrders` runs: the objects
keep their frozen fields, the queues and the index only lose entries. -/
def Evolves (st st1 : OrderBook) : Prop :=
  st1.mem.length = st.mem.length ∧
  (∀ p, SameKey (deref st.mem p) (deref st1.mem p)) ∧
  st1.buy_orders_.Sublist st.buy_orders_ ∧
  st1.sell_orders_.Sublist st.sell_orders_ ∧
  (∀ kv ∈ st1.order_map_, kv ∈ st.order_map_)

/-- Sum of the remaining quantities of the queued orders priced at `k`. -/
def levelQty (mem : List Order) (queue : List Nat) (k : ℚ) : ℚ :=
  ((queue.filter (fun p => (deref mem p).price = k)).map
    (fun p => (deref mem p).remainingQuantity)).sum

/-- The prices of the queued orders, in queue order. -/
def queuePrices (mem : List Order) (queue : List Nat) : List ℚ :=
  queue.map (fun p => (deref mem p).price)

/-- The orders of the price-time example. -/
def exA2 : Order := Order.new "A" "AAPL" OrderType.LIMIT OrderSide.BUY 150 100 "c" 1

def exB2 : Order := Order.new "B" "AAPL" OrderType.LIMIT OrderSide.BUY 150 100 "c" 2

def exC2 : Order := Order.new "C" "AAPL" OrderType.LIMIT OrderSide.SELL 150 150 "c" 3

/-- A second buy order with the price and the timestamp of `exA`. -/
def exD : Order := Order.new "D" "AAPL" OrderType.LIMIT OrderSide.BUY 150 50 "c" 1

/-- The book of the price-time example before matching: buys `A` then `B` at 150,
then sell `C`. -/
def exBook3 : OrderBook :=
  submit (submit (submit OrderBook.empty exA2) exB2) exC2

/-- The fields of an order that the book never writes. -/
def Order.key (o : Order) : String × OrderSide × ℚ × ℚ × Int :=
  (o.id, o.side, o.price, o.quantity, o.timestamp)

/-- The quantity a price-level map holds for the price `k` (0 when `k` is no key). -/
def levelGet (m : List (ℚ × ℚ)) (k : ℚ) : ℚ :=
  ((m.filter (fun kv => kv.1 = k)).map Prod.snd).sum

/-- A second buy order with the id of `exA`. -/
def exE : Order := Order.new "A" "AAPL" OrderType.LIMIT OrderSide.BUY 151 10 "c" 5

end orderbook

namespace options

/-!
# Options analytics (`services/options`)

A shallow embedding of `black_scholes.h`, `black_scholes.cpp`, `brownian_motion.h` and
`brownian_motion.cpp`.

Modelling conventions.

* `double` is any linear ordered field `α` with exact arithmetic: `ℚ` for evaluation,
  `ℝ` for statements about the real-valued formulas.
* The functions of `<cmath>` the code calls (`std::exp`, `std::log`, `std::sqrt`,
  `std::erf`) are not code of the repository; they are the parameter `Libm α`.
  `realLibm` is their reading over the reals.
* `int` is `Int`; an `int` used as a `double` is cast.
* The random generator of `BrownianMotion` is the stream `draws : Nat → α` of the
  values `generateNormalRandom()` returns, in call order.
-/

/-- The `<cmath>` functions used by the options and risk code. -/
structure Libm (α : Type) where
  exp : α → α
  log : α → α
  sqrt : α → α
  erf : α → α

variable {α : Type} [LinearOrderedField α]

/-- The function `std::max` on `double`. -/
def stdMax (a b : α) : α :=
  if a < b then b else a

/-! ## black_scholes.h / black_scholes.cpp -/

structure OptionParams (α : Type) where
  spot_price : α
  strike_price : α
  time_to_expiry : α
  risk_free_rate : α
  volatility : α
  is_call : Bool

structure Greeks (α : Type) where
  delta : α
  gamma : α
  theta : α
  vega : α
  rho : α

/-- The macro `M_PI` as `black_scholes.cpp` defines it. -/
def M_PI : α := 3.14159265358979323846

def normalCDF (m : Libm α) (x : α) : α :=
  0.5 * (1.0 + m.erf (x / m.sqrt 2.0))

def normalPDF (m : Libm α) (x : α) : α :=
  m.exp (-0.5 * x * x) / m.sqrt (2.0 * M_PI)

def d1 (m : Libm α) (params : OptionParams α) : α :=
  (m.log (params.spot_price / params.strike_price) +
      (params.risk_free_rate + 0.5 * params.volatility * params.volatility) *
        params.time_to_expiry) /
    (params.volatility * m.sqrt params.time_to_expiry)

def d2 (m : Libm α) (params : OptionParams α) : α :=
  d1 m params - params.volatility * m.sqrt params.time_to_expiry

def calculatePrice (m : Libm α) (params : OptionParams α) : α :=
  if params.time_to_expiry ≤ 0 then
    if params.is_call then stdMax 0.0 (params.spot_price - params.strike_price)
    else stdMax 0.0 (params.strike_price - params.spot_price)
  else
    let d1_val := d1 m params
    let d2_val := d2 m params
    let nd1 := normalCDF m d1_val
    let nd2 := normalCDF m d2_val
    if params.is_call then
      params.spot_price * nd1 -
        params.strike_price * m.exp (-params.risk_free_rate * params.time_to_expiry) * nd2
    else
      params.strike_price * m.exp (-params.risk_free_rate * params.time_to_expiry) *
          normalCDF m (-d2_val) -
        params.spot_price * normalCDF m (-d1_val)

def calculateGreeks (m : Libm α) (params : OptionParams α) : Greeks α :=
  if params.time_to_expiry ≤ 0 then
    let delta0 : α :=
      if params.is_call && decide (params.spot_price > params.strike_price) then 1.0
      else 0.0
    let delta1 : α :=
      if !params.is_call && decide (params.spot_price < params.strike_price) then -1.0
      else delta0
    { delta := delta1, gamma := 0.0, theta := 0.0, vega := 0.0, rho := 0.0 }
  else
    let d1_val := d1 m params
    let d2_val := d2 m params
    let nd1 := normalCDF m d1_val
    let nd2 := normalCDF m d2_val
    let npd1 := normalPDF m d1_val
    let delta : α := if params.is_call then nd1 else nd1 - 1.0
    let gamma : α :=
      npd1 / (params.spot_price * params.volatility * m.sqrt params.time_to_expiry)
    let theta_common : α :=
      -(params.spot_price * npd1 * params.volatility) /
        (2 * m.sqrt params.time_to_expiry)
    let theta : α :=
      if params.is_call then
        theta_common - params.risk_free_rate * params.strike_price *
          m.exp (-params.risk_free_rate * params.time_to_expiry) * nd2
      else
        theta_common + params.risk_free_rate * params.strike_price *
          m.exp (-params.risk_free_rate * params.time_to_expiry) * normalCDF m (-d2_val)
    let vega : α := params.spot_price * npd1 * m.sqrt params.time_to_expiry / 100.0
    let rho : α :=
      if params.is_call then
        params.strike_price * params.time_to_expiry *
          m.exp (-params.risk_free_rate * params.time_to_expiry) * nd2 / 100.0
      else
        -params.strike_price * params.time_to_expiry *
          m.exp (-params.risk_free_rate * params.time_to_expiry) *
            normalCDF m (-d2_val) / 100.0
    { delta := delta, gamma := gamma, theta := theta / 365.0, vega := vega, rho := rho }

/-- The price at the volatility `v`: `temp_params = params`,
`temp_params.volatility = v`, `calculatePrice(temp_params)`. -/
def priceAt (m : Libm α) (params : OptionParams α) (v : α) : α :=
  calculatePrice m { params with volatility := v }

/-- The `for` loop of `impliedVolatility` with `n` iterations left. -/
def ivLoop (m : Libm α) (market_price : α) (params : OptionParams α) (tolerance : α) :
    Nat → α → α → α → α
  | 0, _, _, vol_mid => vol_mid
  | n + 1, vol_low, vol_high, vol_mid =>
    let calculated_price := priceAt m params vol_mid
    let diff := calculated_price - market_price
    if |diff| < tolerance then vol_mid
    else if diff > 0 then ivLoop m market_price params tolerance n vol_low vol_mid
      ((vol_low + vol_mid) / 2.0)
    else ivLoop m market_price params tolerance n vol_mid vol_high
      ((vol_mid + vol_high) / 2.0)

def impliedVolatility (m : Libm α) (market_price : α) (params : OptionParams α)
    (tolerance : α) (max_iterations : Int) : α :=
  ivLoop m market_price params tolerance max_iterations.toNat 0.01 5.0 ((0.01 + 5.0) / 2.0)

/-- The default arguments of `impliedVolatility`. -/
def defaultTolerance : α := 1e-6

def defaultMaxIterations : Int := 100

/-! ## brownian_motion.h / brownian_motion.cpp -/

structure MonteCarloParams (α : Type) where
  spot_price : α
  strike_price : α
  time_to_expiry : α
  risk_free_rate : α
  volatility : α
  is_call : Bool
  num_simulations : Int
  num_steps : Int

structure SimulationResult (α : Type) where
  option_price : α
  standard_error : α
  price_paths : List α
  confidence_interval_lower : α
  confidence_interval_upper : α

def calculatePayoff (final_price strike_price : α) (is_call : Bool) : α :=
  if is_call then stdMax 0.0 (final_price - strike_price)
  else stdMax 0.0 (strike_price - final_price)

/-- The inner loop of `priceOption` with `steps` iterations left: the price after them
and the number of draws used so far; `k` draws were used before. -/
def simulatePath (m : Libm α) (draws : Nat → α) (dt drift volatility : α) :
    Nat → Nat → α → α × Nat
  | 0, k, price => (price, k)
  | steps + 1, k, price =>
    let dW := draws k * m.sqrt dt
    simulatePath m draws dt drift volatility steps (k + 1)
      (price * m.exp (drift * dt + volatility * dW))

/-- The outer loop of `priceOption` with `sims` iterations left: the vector `payoffs`
at its end. -/
def simulatePayoffs (m : Libm α) (draws : Nat → α) (params : MonteCarloParams α)
    (dt drift : α) : Nat → Nat → List α → List α
  | 0, _, payoffs => payoffs
  | sims + 1, k, payoffs =>
    let r := simulatePath m draws dt drift params.volatility params.num_steps.toNat k
      params.spot_price
    let payoff := calculatePayoff r.1 params.strike_price params.is_call
    simulatePayoffs m draws params dt drift sims r.2 (payoffs ++ [payoff])

/-- The method `BrownianMotion::priceOption`, with the values of
`generateNormalRandom()` given as `draws`. -/
def priceOption (m : Libm α) (draws : Nat → α) (params : MonteCarloParams α) :
    SimulationResult α :=
  let dt := params.time_to_expiry / (params.num_steps : α)
  let drift := params.risk_free_rate - 0.5 * params.volatility * params.volatility
  let payoffs := simulatePayoffs m draws params dt drift params.num_simulations.toNat 0 []
  let mean_payoff := payoffs.foldl (fun acc x => acc + x) 0.0 / (params.num_simulations : α)
  let option_price :=
    mean_payoff * m.exp (-params.risk_free_rate * params.time_to_expiry)
  let variance := payoffs.foldl
    (fun variance payoff => variance + (payoff - mean_payoff) * (payoff - mean_payoff)) 0.0
  let variance := variance / ((params.num_simulations - 1 : Int) : α)
  let standard_error := m.sqrt (variance / (params.num_simulations : α)) *
    m.exp (-params.risk_free_rate * params.time_to_expiry)
  let z_score : α := 1.96
  let margin_of_error := z_score * standard_error
  { option_price := option_price, standard_error := standard_error, price_paths := [],
    confidence_interval_lower := option_price - margin_of_error,
    confidence_interval_upper := option_price + margin_of_error }

/-- The conversion `static_cast<int>` of a `double`: truncation toward zero. The C++
conversion is undefined outside the range of `int`; the model is exact on every value. -/
def truncToInt [FloorRing α] (x : α) : Int :=
  if 0 ≤ x then ⌊x⌋ else ⌈x⌉

/-- The standard normal distribution function. -/
noncomputable def realPhi (x : ℝ) : ℝ :=
  (ProbabilityTheory.gaussianReal 0 1 (Set.Iic x)).toReal

/-- The function `std::erf` over the reals, through the standard normal distribution
function: `erf y = 2 Φ(√2 y) - 1`. -/
noncomputable def realErf (y : ℝ) : ℝ :=
  2 * realPhi (y * Real.sqrt 2) - 1

/-- The `<cmath>` functions over the reals. -/
noncomputable def realLibm : Libm ℝ :=
  { exp := Real.exp, log := Real.log, sqrt := Real.sqrt, erf := realErf }

/-! ## The Monte Carlo estimator in the words of the specification -/

/-- The terminal price of path `i` in the words of the specification: the spot price
times the product of the `num_steps` step factors `exp(drift dt + σ Z √dt)`, path `i`
taking the draws `i * num_steps`, ..., `i * num_steps + num_steps - 1` of the stream. -/
def specTerminalPrice (m : Libm α) (draws : Nat → α) (params : MonteCarloParams α)
    (i : Nat) : α :=
  params.spot_price *
    ((List.range params.num_steps.toNat).map (fun j =>
      m.exp ((params.risk_free_rate - 0.5 * params.volatility * params.volatility) *
          (params.time_to_expiry / (params.num_steps : α)) +
        params.volatility * (draws (i * params.num_steps.toNat + j) *
          m.sqrt (params.time_to_expiry / (params.num_steps : α)))))).prod

/-- The `num_simulations` payoffs in the words of the specification: `max(S_T - K, 0)`
for a call and `max(K - S_T, 0)` for a put, of the terminal price of each path. -/
def specPayoffs (m : Libm α) (draws : Nat → α) (params : MonteCarloParams α) : List α :=
  (List.range params.num_simulations.toNat).map (fun i =>
    if params.is_call then max (specTerminalPrice m draws params i - params.strike_price) 0
    else max (params.strike_price - specTerminalPrice m draws params i) 0)

/-- The mean of a sample. -/
def specMean (xs : List α) : α :=
  xs.sum / (xs.length : α)

/-- The sample variance, with divisor `N - 1`. -/
def specSampleVariance (xs : List α) : α :=
  (xs.map (fun x => (x - specMean xs) ^ 2)).sum / ((xs.length : α) - 1)

end options

namespace risk

/-!
# Portfolio risk (`services/risk`)

A shallow embedding of the VaR and expected-shortfall methods of `risk_manager.cpp`,
with the conventions of the options model (`double` is a linear ordered field,
`<cmath>` is the parameter `options.Libm`).
-/

variable {α : Type} [LinearOrderedField α]

structure Position (α : Type) where
  symbol : String
  quantity : α
  market_value : α
  unrealized_pnl : α
  delta : α
  gamma : α
  theta : α
  vega : α
  rho : α
  is_option : Bool
  expiration_date : String
  strike_price : α

/-- The method `RiskManager::calculateHistoricalVaR`; `std::sort` is the ascending
rearrangement. -/
def calculateHistoricalVaR [FloorRing α] (returns : List α) (confidence : α) : α :=
  if returns.isEmpty then 0.0
  else
    let sorted_returns := returns.insertionSort (fun a b => a ≤ b)
    let index : Int :=
      options.truncToInt ((1.0 - confidence) * (sorted_returns.length : α))
    let index : Int := max 0 (min index ((sorted_returns.length : Int) - 1));
    -(sorted_returns.getD index.toNat 0)

/-- The method `RiskManager::calculateParametricVaR`. -/
def calculateParametricVaR (m : options.Libm α) (positions : List (Position α))
    (confidence : α) : α :=
  if positions.isEmpty then 0.0
  else
    let portfolio_value := positions.foldl (fun acc pos => acc + pos.market_value) 0.0
    if portfolio_value = 0 then 0.0
    else
      let portfolio_volatility : α := 0.20
      let daily_volatility := portfolio_volatility / m.sqrt 252
      let z_score : α :=
        if confidence = 0.95 then 1.645 else (if confidence = 0.99 then 2.326 else 1.645)
      let var := z_score * daily_volatility * portfolio_value
      var / portfolio_value

/-- The method `RiskManager::calculateExpectedShortfall`. -/
def calculateExpectedShortfall [FloorRing α] (returns : List α) (confidence : α) : α :=
  if returns.isEmpty then 0.0
  else
    let sorted_returns := returns.insertionSort (fun a b => a ≤ b)
    let var_index : Int :=
      options.truncToInt ((1.0 - confidence) * (sorted_returns.length : α))
    let var_index : Int := max 0 (min var_index ((sorted_returns.length : Int) - 1))
    let sum := (List.range (var_index + 1).toNat).foldl
      (fun sum i => sum + sorted_returns.getD i 0) 0.0;
    -(sum / ((var_index + 1 : Int) : α))

/-! ## Stress tests and risk limits (`risk_manager.h`, `risk_manager.cpp`) -/

/-- The members of `struct RiskMetrics` that `calculatePortfolioRisk` assigns, the
time of the calculation apart (`maximum_drawdown` is never assigned). -/
structure RiskMetrics (α : Type) where
  portfolio_value : α
  total_exposure : α
  net_exposure : α
  gross_exposure : α
  leverage : α
  var_1day_95 : α
  var_1day_99 : α
  cvar_1day_95 : α
  expected_shortfall : α
  beta : α
  correlation_spy : α
  volatility : α
  sharpe_ratio : α

structure RiskLimit (α : Type) where
  limit_type : String
  symbol : String
  limit_value : α
  current_value : α
  utilization_pct : α
  is_breached : Bool
  description : String

/-- A `std::unordered_map<std::string, double>` is a list of entries with distinct
keys; `umapFind` is `find`. -/
def umapFind : List (String × α) → String → Option α
  | [], _ => none
  | (k, v) :: m, key => if k = key then some v else umapFind m key

/-- The assignment `map[key] = v`. -/
def umapAssign : List (String × α) → String → α → List (String × α)
  | [], key, v => [(key, v)]
  | (k, w) :: m, key, v =>
    if k = key then (key, v) :: m else (k, w) :: umapAssign m key v

structure StressTestScenario (α : Type) where
  name : String
  description : String
  price_shocks : List (String × α)
  interest_rate_shock : α
  volatility_shock : α
  correlation_shock : α

structure StressTestResult (α : Type) where
  scenario_name : String
  portfolio_pnl : α
  portfolio_return : α
  position_pnl : List (String × α)
  breached_limits : List (RiskLimit α)
  worst_position_loss : α
  worst_position_symbol : String

/-- The members of `class RiskManager` that the constructor sets, the randomly
generated historical returns apart. -/
structure RiskManager (α : Type) where
  risk_limits_ : List (RiskLimit α)
  risk_alerts_ : List (String × α)
  real_time_monitoring_ : Bool

/-- The limits that the constructor `RiskManager::RiskManager` pushes. It leaves
`current_value`, `utilization_pct` and `is_breached` indeterminate; they are 0 and
`false` here, and `checkRiskLimits` assigns them before any use. -/
def defaultRiskLimits : List (RiskLimit α) :=
  [{ limit_type := "PORTFOLIO_VAR", symbol := "", limit_value := 0.02, current_value := 0,
     utilization_pct := 0, is_breached := false,
     description := "Daily Portfolio VaR 95% confidence" },
   { limit_type := "LEVERAGE", symbol := "", limit_value := 3.0, current_value := 0,
     utilization_pct := 0, is_breached := false,
     description := "Maximum portfolio leverage" },
   { limit_type := "CONCENTRATION", symbol := "", limit_value := 0.10, current_value := 0,
     utilization_pct := 0, is_breached := false,
     description := "Maximum single position concentration" }]

/-- The constructor `RiskManager::RiskManager`. -/
def RiskManager.init : RiskManager α :=
  { risk_limits_ := defaultRiskLimits,
    risk_alerts_ :=
      umapAssign (umapAssign (umapAssign [] "VAR_BREACH" 0.015) "DRAWDOWN" 0.05)
        "LEVERAGE" 2.5,
    real_time_monitoring_ := false }

/-- The double loop of `calculatePortfolioRisk` that accumulates
`portfolio_variance`. -/
def portfolioVariance (positions : List (Position α)) (portfolio_value : α) : α :=
  positions.enum.foldl
    (fun acc pi =>
      positions.enum.foldl
        (fun portfolio_variance pj =>
          let weight_i := pi.2.market_value / portfolio_value
          let weight_j := pj.2.market_value / portfolio_value
          let vol_i : α := 0.20
          let vol_j : α := 0.20
          let correlation : α := if pi.1 = pj.1 then 1.0 else 0.3
          portfolio_variance + weight_i * weight_j * vol_i * vol_j * correlation)
        acc)
    0.0

/-- The method `RiskManager::calculatePortfolioRisk`; the result of
`generateRandomReturns(positions)` is given as `simulated_returns`. -/
def calculatePortfolioRisk [FloorRing α] (m : options.Libm α) (simulated_returns : List α)
    (positions : List (Position α)) : RiskMetrics α :=
  let portfolio_value := positions.foldl (fun acc position => acc + position.market_value) 0.0
  let gross_exposure := positions.foldl (fun acc position => acc + |position.market_value|) 0.0
  let net_exposure := positions.foldl (fun acc position => acc + position.market_value) 0.0
  let leverage := if portfolio_value ≠ 0 then gross_exposure / portfolio_value else 0.0
  let cvar_1day_95 := calculateExpectedShortfall simulated_returns 0.95
  let volatility := m.sqrt (portfolioVariance positions portfolio_value)
  let risk_free_rate : α := 0.02
  let expected_return : α := 0.08
  { portfolio_value := portfolio_value, total_exposure := 0.0, net_exposure := net_exposure,
    gross_exposure := gross_exposure, leverage := leverage,
    var_1day_95 := calculateParametricVaR m positions 0.95,
    var_1day_99 := calculateParametricVaR m positions 0.99,
    cvar_1day_95 := cvar_1day_95, expected_shortfall := cvar_1day_95,
    beta := 1.0, correlation_spy := 0.7, volatility := volatility,
    sharpe_ratio := (expected_return - risk_free_rate) / volatility }

/-- The body of the loop of `checkRiskLimits`: the limit after the update. -/
def checkLimit (metrics : RiskMetrics α) (positions : List (Position α))
    (limit : RiskLimit α) : RiskLimit α :=
  if limit.limit_type = "PORTFOLIO_VAR" then
    let current_value := metrics.var_1day_95
    { limit with
      current_value := current_value,
      utilization_pct := (current_value / limit.limit_value) * 100,
      is_breached := decide (current_value > limit.limit_value) }
  else if limit.limit_type = "LEVERAGE" then
    let current_value := metrics.leverage
    { limit with
      current_value := current_value,
      utilization_pct := (current_value / limit.limit_value) * 100,
      is_breached := decide (current_value > limit.limit_value) }
  else if limit.limit_type = "CONCENTRATION" then
    let max_concentration := positions.foldl
      (fun max_concentration pos =>
        let concentration := |pos.market_value| / metrics.portfolio_value
        options.stdMax max_concentration concentration)
      0.0
    { limit with
      current_value := max_concentration,
      utilization_pct := (max_concentration / limit.limit_value) * 100,
      is_breached := decide (max_concentration > limit.limit_value) }
  else { limit with is_breached := false }

/-- The loop of `checkRiskLimits` over `risk_limits_`: the vector `breached_limits` at
its end and the updated limits. -/
def checkRiskLimitsLoop (metrics : RiskMetrics α) (positions : List (Position α)) :
    List (RiskLimit α) → List (RiskLimit α) → List (RiskLimit α) × List (RiskLimit α)
  | [], breached_limits => (breached_limits, [])
  | limit :: rest, breached_limits =>
    let limit := checkLimit metrics positions limit
    let r := checkRiskLimitsLoop metrics positions rest
      (if limit.is_breached then breached_limits ++ [limit] else breached_limits)
    (r.1, limit :: r.2)

/-- The method `RiskManager::checkRiskLimits`: the returned vector and the manager
after the call. -/
def checkRiskLimits [FloorRing α] (m : options.Libm α) (simulated_returns : List α)
    (self : RiskManager α) (positions : List (Position α)) :
    List (RiskLimit α) × RiskManager α :=
  let metrics := calculatePortfolioRisk m simulated_returns positions
  let r := checkRiskLimitsLoop metrics positions self.risk_limits_ []
  (r.1, { self with risk_limits_ := r.2 })

/-- The value of `position_pnl` that the body of the loop of `runCustomStressTest`
computes for a position. -/
def positionPnl (scenario : StressTestScenario α) (position : Position α) : α :=
  let position_pnl : α :=
    match umapFind scenario.price_shocks position.symbol with
    | some shock => position.market_value * shock
    | none => position.market_value * -0.05
  if position.is_option then
    position_pnl + position.vega * scenario.volatility_shock +
      position.rho * scenario.interest_rate_shock
  else position_pnl

/-- The body of the loop of `runCustomStressTest` over the positions. -/
def stressPosition (scenario : StressTestScenario α) (result : StressTestResult α)
    (position : Position α) : StressTestResult α :=
  let position_pnl : α := positionPnl scenario position
  let result := { result with
    position_pnl := umapAssign result.position_pnl position.symbol position_pnl,
    portfolio_pnl := result.portfolio_pnl + position_pnl }
  if position_pnl < result.worst_position_loss then
    { result with worst_position_loss := position_pnl,
                  worst_position_symbol := position.symbol }
  else result

/-- The method `RiskManager::runCustomStressTest`: the result and the manager after the
call. -/
def runCustomStressTest [FloorRing α] (m : options.Libm α) (simulated_returns : List α)
    (self : RiskManager α) (positions : List (Position α))
    (scenario : StressTestScenario α) : StressTestResult α × RiskManager α :=
  let result : StressTestResult α :=
    { scenario_name := scenario.name, portfolio_pnl := 0.0, portfolio_return := 0,
      position_pnl := [], breached_limits := [], worst_position_loss := 0.0,
      worst_position_symbol := "" }
  let total_portfolio_value := positions.foldl (fun acc pos => acc + pos.market_value) 0.0
  let result := positions.foldl (stressPosition scenario) result
  let result := { result with
    portfolio_return :=
      if total_portfolio_value ≠ 0 then result.portfolio_pnl / total_portfolio_value
      else 0.0 }
  let r := checkRiskLimits m simulated_returns self positions
  ({ result with breached_limits := r.1 }, r.2)

/-- The methods `calculatePortfolioDelta`, `Gamma`, `Theta` and `Vega`. -/
def calculatePortfolioDelta (positions : List (Position α)) : α :=
  positions.foldl
    (fun total_delta pos =>
      if pos.is_option then total_delta + pos.delta * pos.quantity
      else total_delta + pos.quantity)
    0.0

def calculatePortfolioGamma (positions : List (Position α)) : α :=
  positions.foldl
    (fun total_gamma pos =>
      if pos.is_option then total_gamma + pos.gamma * pos.quantity else total_gamma)
    0.0

def calculatePortfolioTheta (positions : List (Position α)) : α :=
  positions.foldl
    (fun total_theta pos =>
      if pos.is_option then total_theta + pos.theta * pos.quantity else total_theta)
    0.0

def calculatePortfolioVega (positions : List (Position α)) : α :=
  positions.foldl
    (fun total_vega pos =>
      if pos.is_option then total_vega + pos.vega * pos.quantity else total_vega)
    0.0

/-! ## The stress test and the limits in the words of the specification -/

/-- The shock of a symbol: the scenario's price shock if present, `-0.05` otherwise. -/
def specShock (scenario : StressTestScenario α) (symbol : String) : α :=
  (umapFind scenario.price_shocks symbol).getD (-0.05)

/-- The stressed P&L of a position: `market_value * shock(symbol)`, plus
`vega * volatility_shock + rho * interest_rate_shock` for an option. -/
def specPositionPnl (scenario : StressTestScenario α) (position : Position α) : α :=
  position.market_value * specShock scenario position.symbol +
    (if position.is_option then
      position.vega * scenario.volatility_shock + position.rho * scenario.interest_rate_shock
    else 0)

/-- The stressed portfolio: each `market_value` replaced by `market_value` plus the
stressed P&L of the position. -/
def specStressedPositions (scenario : StressTestScenario α)
    (positions : List (Position α)) : List (Position α) :=
  positions.map (fun position =>
    { position with
      market_value := position.market_value + specPositionPnl scenario position })

/-- The sum of the market values. -/
def specTotalValue (positions : List (Position α)) : α :=
  (positions.map (fun pos => pos.market_value)).sum

/-- The concentration of a position: `|market_value|` over the sum of the market
values. -/
def specConcentration (positions : List (Position α)) (pos : Position α) : α :=
  |pos.market_value| / specTotalValue positions

/-- The built-in limits, whatever their current values: PORTFOLIO_VAR at 0.02, LEVERAGE
at 3.0 and CONCENTRATION at 0.10, in this order. -/
def HasBuiltinLimits (limits : List (RiskLimit α)) : Prop :=
  limits.map (fun l => (l.limit_type, l.limit_value)) =
    [("PORTFOLIO_VAR", 0.02), ("LEVERAGE", 3.0), ("CONCENTRATION", 0.10)]

/-- The leverage: the sum of `|market_value|` over the sum of the market values. -/
def specLeverage (positions : List (Position α)) : α :=
  (positions.map (fun pos => |pos.market_value|)).sum / specTotalValue positions

/-- The expression `map[key]` on a `std::unordered_map<std::string, double>`: the value
of the key, and the map after it (a missing key is entered with the value 0). -/
def umapIndex (mp : List (String × α)) (key : String) : α × List (String × α) :=
  match umapFind mp key with
  | some v => (v, mp)
  | none => (0, umapAssign mp key 0)

/-- The method `RiskManager::checkRiskAlerts`: the returned vector and the manager
after the call. `to_string` is `std::to_string` on a `double`; the member
`maximum_drawdown` of the metrics, which `calculatePortfolioRisk` does not assign, is
given apart. -/
def checkRiskAlerts (to_string : α → String) (self : RiskManager α)
    (metrics : RiskMetrics α) (maximum_drawdown : α) : List String × RiskManager α :=
  let alerts : List String := []
  let r1 := umapIndex self.risk_alerts_ "VAR_BREACH"
  let alerts :=
    if metrics.var_1day_95 > r1.1 then
      alerts ++ ["VaR breach detected: " ++ to_string (metrics.var_1day_95 * 100) ++ "%"]
    else alerts
  let r2 := umapIndex r1.2 "LEVERAGE"
  let alerts :=
    if metrics.leverage > r2.1 then
      alerts ++ ["High leverage detected: " ++ to_string metrics.leverage ++ "x"]
    else alerts
  let r3 := umapIndex r2.2 "DRAWDOWN"
  let alerts :=
    if maximum_drawdown > r3.1 then
      alerts ++ ["Drawdown alert: " ++ to_string (maximum_drawdown * 100) ++ "%"]
    else alerts
  (alerts, { self with risk_alerts_ := r3.2 })

end risk

namespace backtesting

/-!
# Backtesting (`services/backtesting`)

The risk statistics of `backtesting_engine.cpp`, with the conventions of the options
model.
-/

variable {α : Type} [LinearOrderedField α]

end backtesting

namespace algo

/-!
# Algorithmic trading (`services/algo-trading`)

A shallow embedding of the signal handling of `algo_engine.cpp` and of the momentum
strategy of `momentum_strategy.cpp`, with the conventions of the options model
(`double` is a linear ordered field, `<cmath>` is the parameter `options.Libm`). A
`time_point` is an integer; console output is left out.
-/

variable {α : Type} [LinearOrderedField α]

/-! ## algo_engine.h -/

inductive SignalType where
  | BUY
  | SELL
  | HOLD
  | BUY_CALL
  | SELL_CALL
  | BUY_PUT
  | SELL_PUT
  | CLOSE_POSITION
deriving DecidableEq, Repr

structure MarketData (α : Type) where
  symbol : String
  price : α
  volume : α
  bid : α
  ask : α
  timestamp : Int
  sma_20 : α
  sma_50 : α
  rsi : α
  bollinger_upper : α
  bollinger_lower : α
  macd : α
  macd_signal : α

structure TradingSignal (α : Type) where
  strategy_id : String
  symbol : String
  signal_type : SignalType
  price : α
  quantity : α
  confidence : α
  reason : String
  timestamp : Int
  strike_price : α
  expiration_date : String
  is_call : Bool

structure Position (α : Type) where
  symbol : String
  quantity : α
  average_price : α
  current_price : α
  unrealized_pnl : α
  entry_time : Int
  strike_price : α
  expiration_date : String
  is_call : Bool
  is_option : Bool

inductive StrategyType where
  | MOMENTUM
  | MEAN_REVERSION
  | PAIRS_TRADING
  | OPTIONS_STRADDLE
  | OPTIONS_STRANGLE
  | COVERED_CALL
  | PROTECTIVE_PUT
  | IRON_CONDOR
  | BUTTERFLY_SPREAD
deriving DecidableEq, Repr

/-- The members of `struct StrategyConfig`; `parameters` is a list of entries with
distinct keys. -/
structure StrategyConfig (α : Type) where
  type : StrategyType
  name : String
  parameters : List (String × α)
  symbols : List String
  enabled : Bool
  max_position_size : α
  stop_loss_pct : α
  take_profit_pct : α

/-- The members of `class AlgorithmicEngine`, the strategy objects apart. -/
structure AlgorithmicEngine (α : Type) where
  latest_market_data_ : List (String × MarketData α)
  positions_ : List (Position α)
  running_ : Bool
  max_portfolio_risk_ : α
  current_portfolio_value_ : α

/-! ## algo_engine.cpp -/

/-- The constructor `AlgorithmicEngine::AlgorithmicEngine`. -/
def AlgorithmicEngine.init : AlgorithmicEngine α :=
  { latest_market_data_ := [], positions_ := [], running_ := false,
    max_portfolio_risk_ := 0.02, current_portfolio_value_ := 1000000.0 }

/-- The method `AlgorithmicEngine::validateSignal`. -/
def validateSignal (self : AlgorithmicEngine α) (signal : TradingSignal α) : Bool :=
  let position_value := signal.price * signal.quantity
  let portfolio_risk := position_value / self.current_portfolio_value_
  if portfolio_risk > self.max_portfolio_risk_ then false
  else if signal.confidence < 0.6 then false
  else true

/-- The loop of `executeSignal` for `CLOSE_POSITION`: erase the first position with the
symbol and return. -/
def closePosition (symbol : String) : List (Position α) → List (Position α)
  | [] => []
  | it :: rest => if it.symbol = symbol then rest else it :: closePosition symbol rest

/-- The method `AlgorithmicEngine::executeSignal`. The local `Position position` is
default-initialised: `unrealized_pnl` is never assigned and is given here as
`indeterminate`. -/
def executeSignal (indeterminate : α) (self : AlgorithmicEngine α)
    (signal : TradingSignal α) : AlgorithmicEngine α :=
  let is_option : Bool := decide (signal.expiration_date ≠ "")
  let position : Position α :=
    { symbol := signal.symbol, quantity := indeterminate, average_price := indeterminate,
      current_price := signal.price, unrealized_pnl := indeterminate,
      entry_time := signal.timestamp,
      strike_price := if is_option then signal.strike_price else 0.0,
      expiration_date := if is_option then signal.expiration_date else "",
      is_call := if is_option then signal.is_call else true,
      is_option := is_option }
  match signal.signal_type with
  | SignalType.BUY | SignalType.BUY_CALL | SignalType.BUY_PUT =>
    { self with positions_ := self.positions_ ++
        [{ position with quantity := signal.quantity, average_price := signal.price }] }
  | SignalType.SELL | SignalType.SELL_CALL | SignalType.SELL_PUT =>
    { self with positions_ := self.positions_ ++
        [{ position with quantity := -signal.quantity, average_price := signal.price }] }
  | SignalType.CLOSE_POSITION =>
    { self with positions_ := closePosition signal.symbol self.positions_ }
  | SignalType.HOLD => self

/-- The method `AlgorithmicEngine::processSignal`. -/
def processSignal (indeterminate : α) (self : AlgorithmicEngine α)
    (signal : TradingSignal α) : AlgorithmicEngine α :=
  if !validateSignal self signal then self
  else executeSignal indeterminate self signal

/-! ## The positions in the words of the specification -/

/-- The key of a position: (symbol, strike, expiration, is_call) for an option, the
symbol alone otherwise. -/
def specKey (p : Position α) : String × Option (α × String × Bool) :=
  if p.is_option then (p.symbol, some (p.strike_price, p.expiration_date, p.is_call))
  else (p.symbol, none)

/-- The key of the position that a signal is about. -/
def specSignalKey (s : TradingSignal α) : String × Option (α × String × Bool) :=
  if s.expiration_date ≠ "" then (s.symbol, some (s.strike_price, s.expiration_date, s.is_call))
  else (s.symbol, none)

structure PriceHistory (α : Type) where
  prices : List α
  timestamps : List Int

def MAX_HISTORY : Nat := 50

/-- A `std::unordered_map` with `std::string` keys is a list of entries with distinct
keys; `umapFind` is `find` (and `at`, which throws when it gives `none`). -/
def umapFind {β : Type} : List (String × β) → String → Option β
  | [], _ => none
  | (k, v) :: m, key => if k = key then some v else umapFind m key

/-- The assignment `map[key] = v`. -/
def umapAssign {β : Type} : List (String × β) → String → β → List (String × β)
  | [], key, v => [(key, v)]
  | (k, w) :: m, key, v =>
    if k = key then (key, v) :: m else (k, w) :: umapAssign m key v

/-- The members of `class MomentumStrategy`. -/
structure MomentumStrategy (α : Type) where
  config_ : StrategyConfig α
  positions_ : List (Position α)
  price_history_ : List (String × PriceHistory α)

/-- The function `std::min`. -/
def stdMin (a b : α) : α :=
  if b < a then b else a

/-- The method `MomentumStrategy::calculateMomentum`; `lookback_periods` is 5 or 20 at
its calls, so the conversion of `lookback_periods + 1` to `size_t` is exact. -/
def calculateMomentum (self : MomentumStrategy α) (symbol : String)
    (lookback_periods : Nat) : α :=
  match umapFind self.price_history_ symbol with
  | none => 0.0
  | some it =>
    if it.prices.length < lookback_periods + 1 then 0.0
    else
      let prices := it.prices
      let current_price := prices.getD (prices.length - 1) 0
      let past_price := prices.getD (prices.length - lookback_periods - 1) 0
      (current_price - past_price) / past_price

/-- The method `MomentumStrategy::calculateVolatility`; the loop runs over the indices
from `size - lookback_periods` to `size - 2`. -/
def calculateVolatility (m : options.Libm α) (self : MomentumStrategy α) (symbol : String)
    (lookback_periods : Nat) : α :=
  match umapFind self.price_history_ symbol with
  | none => 0.0
  | some it =>
    if it.prices.length < lookback_periods then 0.0
    else
      let prices := it.prices
      let returns := (List.range' (prices.length - lookback_periods)
        (prices.length - 1 - (prices.length - lookback_periods))).map
        (fun i => (prices.getD (i + 1) 0 - prices.getD i 0) / prices.getD i 0)
      if returns.isEmpty then 0.0
      else
        let mean_return := returns.foldl (fun acc x => acc + x) 0.0 / (returns.length : α)
        let variance := returns.foldl
          (fun variance ret => variance + (ret - mean_return) * (ret - mean_return)) 0.0
        let variance := variance / (returns.length : α)
        m.sqrt variance

/-- The method `MomentumStrategy::isBreakout`. -/
def isBreakout (data : MarketData α) : Bool :=
  let band_width := data.bollinger_upper - data.bollinger_lower
  let price_position := (data.price - data.bollinger_lower) / band_width
  (decide (price_position > 1.0) || decide (price_position < 0.0)) &&
    decide (data.volume > 1000)

/-- The method `MomentumStrategy::createSignal`; `now` is the value of
`system_clock::now()`. -/
def createSignal (now : Int) (self : MomentumStrategy α) (symbol : String)
    (type : SignalType) (price confidence : α) (reason : String) : TradingSignal α :=
  { strategy_id := self.config_.name, symbol := symbol, signal_type := type, price := price,
    quantity := self.config_.max_position_size, confidence := confidence, reason := reason,
    timestamp := now, strike_price := 0.0, expiration_date := "", is_call := true }

/-- The first part of the loop body of `generateSignals`: the strategy after the update
of the price history of `data.symbol`. -/
def updateHistory (self : MomentumStrategy α) (data : MarketData α) : MomentumStrategy α :=
  let history : PriceHistory α := (umapFind self.price_history_ data.symbol).getD ⟨[], []⟩
  let history : PriceHistory α :=
    { prices := history.prices ++ [data.price],
      timestamps := history.timestamps ++ [data.timestamp] }
  let history : PriceHistory α :=
    if history.prices.length > MAX_HISTORY then
      { prices := history.prices.tail, timestamps := history.timestamps.tail }
    else history
  { self with price_history_ := umapAssign self.price_history_ data.symbol history }

/-- The prices of a symbol in the price history. -/
def historyPrices (self : MomentumStrategy α) (symbol : String) : List α :=
  match umapFind self.price_history_ symbol with
  | none => []
  | some it => it.prices

/-- The loop body of `generateSignals` for one `data`: the strategy and the vector
`signals` after it, or `none` when `parameters.at` throws. -/
def generateSignalsStep (m : options.Libm α) (now : Int) (self : MomentumStrategy α)
    (signals : List (TradingSignal α)) (data : MarketData α) :
    Option (MomentumStrategy α × List (TradingSignal α)) :=
  let self := updateHistory self data
  if (historyPrices self data.symbol).length < 20 then some (self, signals)
  else
    let short_momentum := calculateMomentum self data.symbol 5
    let long_momentum := calculateMomentum self data.symbol 20
    let volatility := calculateVolatility m self data.symbol 20
    match umapFind self.config_.parameters "momentum_threshold" with
    | none => none
    | some momentum_threshold =>
      match umapFind self.config_.parameters "volatility_threshold" with
      | none => none
      | some volatility_threshold =>
        if short_momentum > momentum_threshold ∧ long_momentum > 0 ∧
            volatility < volatility_threshold then
          if data.rsi < 70 then
            let confidence := stdMin 0.95 (0.5 + (short_momentum * 10))
            some (self, signals ++ [createSignal now self data.symbol SignalType.BUY
              data.price confidence "Strong upward momentum detected"])
          else some (self, signals)
        else if short_momentum < -momentum_threshold ∧ long_momentum < 0 ∧
            volatility < volatility_threshold then
          if data.rsi > 30 then
            let confidence := stdMin 0.95 (0.5 + (|short_momentum| * 10))
            some (self, signals ++ [createSignal now self data.symbol SignalType.SELL
              data.price confidence "Strong downward momentum detected"])
          else some (self, signals)
        else if isBreakout data then
          let breakout_confidence : α := 0.75
          if data.price > data.bollinger_upper then
            some (self, signals ++ [createSignal now self data.symbol SignalType.BUY
              data.price breakout_confidence "Bollinger Band breakout (upper)"])
          else if data.price < data.bollinger_lower then
            some (self, signals ++ [createSignal now self data.symbol SignalType.SELL
              data.price breakout_confidence "Bollinger Band breakout (lower)"])
          else some (self, signals)
        else if |short_momentum| > momentum_threshold * 2 ∧
            volatility > volatility_threshold then
          let reversion_confidence : α := 0.65
          if short_momentum > 0 ∧ data.rsi > 80 then
            some (self, signals ++ [createSignal now self data.symbol SignalType.SELL
              data.price reversion_confidence
              "Mean reversion after extreme upward momentum"])
          else if short_momentum < 0 ∧ data.rsi < 20 then
            some (self, signals ++ [createSignal now self data.symbol SignalType.BUY
              data.price reversion_confidence
              "Mean reversion after extreme downward momentum"])
          else some (self, signals)
        else some (self, signals)

/-- The loop of `generateSignals` over the rest of `market_data`. -/
def generateSignalsLoop (m : options.Libm α) (now : Int) :
    MomentumStrategy α → List (TradingSignal α) → List (MarketData α) →
      Option (MomentumStrategy α × List (TradingSignal α))
  | self, signals, [] => some (self, signals)
  | self, signals, data :: rest =>
    match generateSignalsStep m now self signals data with
    | none => none
    | some r => generateSignalsLoop m now r.1 r.2 rest

/-- The method `MomentumStrategy::generateSignals`: the strategy after the call and the
returned signals, or `none` when `parameters.at` throws. -/
def generateSignals (m : options.Libm α) (now : Int) (self : MomentumStrategy α)
    (market_data : List (MarketData α)) :
    Option (MomentumStrategy α × List (TradingSignal α)) :=
  generateSignalsLoop m now self [] market_data

/-! ## The volatility in the words of the specification -/

/-- The arithmetic returns `(p_{i+1} - p_i) / p_i` of a price series. -/
def specReturns (prices : List α) : List α :=
  (List.range (prices.length - 1)).map
    (fun i => (prices.getD (i + 1) 0 - prices.getD i 0) / prices.getD i 0)

/-- The last `n` elements of a list. -/
def specLast {β : Type} (n : Nat) (xs : List β) : List β :=
  xs.drop (xs.length - n)

/-- The population variance of a sample: the mean of the squared deviations from the
mean. -/
def specPopVariance (xs : List α) : α :=
  (xs.map (fun x => (x - xs.sum / (xs.length : α)) ^ 2)).sum / (xs.length : α)

/-! ## options_strategy.h / options_strategy.cpp -/

/-- The members of `struct OptionsChain`; a `std::unordered_map<double, double>` is a
list of entries with distinct keys. -/
structure OptionsChain (α : Type) where
  underlying_symbol : String
  strike_prices : List α
  expiration_date : String
  call_prices : List (α × α)
  put_prices : List (α × α)
  implied_vols : List (α × α)

/-- The assignment `map[key] = v` on a `std::unordered_map<double, double>`. -/
def dmapAssign : List (α × α) → α → α → List (α × α)
  | [], key, v => [(key, v)]
  | (k, w) :: mp, key, v =>
    if k = key then (key, v) :: mp else (k, w) :: dmapAssign mp key v

/-- The members of `class OptionsStrategy`. -/
structure OptionsStrategy (α : Type) where
  config_ : StrategyConfig α
  positions_ : List (Position α)
  options_chains_ : List (String × OptionsChain α)

/-- The inner loop of the constructor `OptionsStrategy::OptionsStrategy` over the
remaining values of `i`. -/
def chainLoop (base_price : α) : List Int → OptionsChain α → OptionsChain α
  | [], chain => chain
  | i :: rest, chain =>
    let strike := base_price + ((i : α) * 5.0)
    chainLoop base_price rest
      { chain with
        strike_prices := chain.strike_prices ++ [strike],
        call_prices := dmapAssign chain.call_prices strike
          (options.stdMax 0.1 (base_price - strike + 5.0)),
        put_prices := dmapAssign chain.put_prices strike
          (options.stdMax 0.1 (strike - base_price + 5.0)),
        implied_vols := dmapAssign chain.implied_vols strike
          (0.20 + (|strike - base_price| / base_price) * 0.1) }

/-- The chain that the constructor builds for a symbol: `i` runs from -10 to 10. -/
def sampleChain (symbol : String) : OptionsChain α :=
  chainLoop 150.0 ((List.range 21).map (fun (k : Nat) => (k : Int) - 10))
    { underlying_symbol := symbol, strike_prices := [], expiration_date := "2024-03-15",
      call_prices := [], put_prices := [], implied_vols := [] }

/-- The constructor `OptionsStrategy::OptionsStrategy`. -/
def OptionsStrategy.init (config : StrategyConfig α) : OptionsStrategy α :=
  { config_ := config, positions_ := [],
    options_chains_ := config.symbols.foldl
      (fun chains symbol => umapAssign chains symbol (sampleChain symbol)) [] }

/-- The method `OptionsStrategy::isHighVolatility`; the sum over the map does not
depend on the order of its entries. -/
def isHighVolatility (self : OptionsStrategy α) (symbol : String) : Bool :=
  match umapFind self.options_chains_ symbol with
  | some it =>
    let avg_iv := it.implied_vols.foldl (fun avg_iv kv => avg_iv + kv.2) 0.0
    let avg_iv := avg_iv / (it.implied_vols.length : α)
    decide (avg_iv > 0.25)
  | none => false

/-- The method `OptionsStrategy::isLowVolatility`. -/
def isLowVolatility (self : OptionsStrategy α) (symbol : String) : Bool :=
  !isHighVolatility self symbol

/-- The method `OptionsStrategy::getTimeToExpiration`. -/
def getTimeToExpiration (_expiration_date : String) : α :=
  30.0 / 365.0

/-- The algorithm `std::min_element`: the first element that no other is below. -/
def minElement (comp : α → α → Bool) : List α → Option α
  | [] => none
  | first :: rest =>
    some (rest.foldl (fun smallest x => if comp x smallest then x else smallest) first)

/-- The method `OptionsStrategy::getATMStrikes`. -/
def getATMStrikes (self : OptionsStrategy α) (symbol : String) (spot_price : α) : List α :=
  match umapFind self.options_chains_ symbol with
  | some it =>
    match minElement (fun a b => decide (|a - spot_price| < |b - spot_price|))
        it.strike_prices with
    | some closest => [closest]
    | none => []
  | none => []

/-- The method `OptionsStrategy::calculateOptionPrice`. -/
def calculateOptionPrice (m : options.Libm α) (_symbol : String) (strike : α)
    (is_call : Bool) (expiration : String) : α :=
  options.calculatePrice m
    { spot_price := 150.0, strike_price := strike,
      time_to_expiry := getTimeToExpiration expiration, risk_free_rate := 0.05,
      volatility := 0.20, is_call := is_call }

/-- The method `OptionsStrategy::createOptionsSignal`; `now` is the value of
`system_clock::now()`. -/
def createOptionsSignal (now : Int) (self : OptionsStrategy α) (symbol : String)
    (type : SignalType) (strike : α) (is_call : Bool) (expiration : String)
    (price confidence : α) (reason : String) : TradingSignal α :=
  { strategy_id := self.config_.name, symbol := symbol, signal_type := type, price := price,
    quantity := 1, confidence := confidence, reason := reason, timestamp := now,
    strike_price := strike, expiration_date := expiration, is_call := is_call }

/-- The loop of the covered-call and protective-put generators over `positions_`. -/
def hasStockPosition (self : OptionsStrategy α) (symbol : String) : Bool :=
  self.positions_.any
    (fun pos => decide (pos.symbol = symbol) && !pos.is_option && decide (pos.quantity > 0))

def generateStraddleSignals (m : options.Libm α) (now : Int) (self : OptionsStrategy α)
    (data : MarketData α) : List (TradingSignal α) :=
  if isLowVolatility self data.symbol then
    match getATMStrikes self data.symbol data.price with
    | [] => []
    | atm_strike :: _ =>
      let call_price := calculateOptionPrice m data.symbol atm_strike true "2024-03-15"
      let put_price := calculateOptionPrice m data.symbol atm_strike false "2024-03-15"
      [createOptionsSignal now self data.symbol SignalType.BUY_CALL atm_strike true
          "2024-03-15" call_price 0.75 "Long straddle - expecting volatility increase",
        createOptionsSignal now self data.symbol SignalType.BUY_PUT atm_strike false
          "2024-03-15" put_price 0.75 "Long straddle - expecting volatility increase"]
  else []

def generateStrangleSignals (m : options.Libm α) (now : Int) (self : OptionsStrategy α)
    (data : MarketData α) : List (TradingSignal α) :=
  if isLowVolatility self data.symbol then
    let otm_call_strike := data.price + (data.price * 0.05)
    let otm_put_strike := data.price - (data.price * 0.05)
    let call_price := calculateOptionPrice m data.symbol otm_call_strike true "2024-03-15"
    let put_price := calculateOptionPrice m data.symbol otm_put_strike false "2024-03-15"
    [createOptionsSignal now self data.symbol SignalType.BUY_CALL otm_call_strike true
        "2024-03-15" call_price 0.70 "Long strangle - expecting large price movement",
      createOptionsSignal now self data.symbol SignalType.BUY_PUT otm_put_strike false
        "2024-03-15" put_price 0.70 "Long strangle - expecting large price movement"]
  else []

def generateCoveredCallSignals (m : options.Libm α) (now : Int) (self : OptionsStrategy α)
    (data : MarketData α) : List (TradingSignal α) :=
  let has_stock_position := hasStockPosition self data.symbol
  if has_stock_position = true ∧ data.rsi > 60 then
    let otm_call_strike := data.price + (data.price * 0.03)
    let call_price := calculateOptionPrice m data.symbol otm_call_strike true "2024-03-15"
    [createOptionsSignal now self data.symbol SignalType.SELL_CALL otm_call_strike true
      "2024-03-15" call_price 0.80 "Covered call - generate income from stock position"]
  else []

def generateProtectivePutSignals (m : options.Libm α) (now : Int)
    (self : OptionsStrategy α) (data : MarketData α) : List (TradingSignal α) :=
  let has_stock_position := hasStockPosition self data.symbol
  if has_stock_position = true ∧ isHighVolatility self data.symbol = true then
    let otm_put_strike := data.price - (data.price * 0.05)
    let put_price := calculateOptionPrice m data.symbol otm_put_strike false "2024-03-15"
    [createOptionsSignal now self data.symbol SignalType.BUY_PUT otm_put_strike false
      "2024-03-15" put_price 0.85 "Protective put - hedge stock position"]
  else []

def generateIronCondorSignals (m : options.Libm α) (now : Int) (self : OptionsStrategy α)
    (data : MarketData α) : List (TradingSignal α) :=
  if isHighVolatility self data.symbol = true ∧ data.rsi > 40 ∧ data.rsi < 60 then
    let atm_call_strike := data.price + (data.price * 0.01)
    let atm_put_strike := data.price - (data.price * 0.01)
    let otm_call_strike := data.price + (data.price * 0.05)
    let otm_put_strike := data.price - (data.price * 0.05)
    [createOptionsSignal now self data.symbol SignalType.SELL_CALL atm_call_strike true
        "2024-03-15"
        (calculateOptionPrice m data.symbol atm_call_strike true "2024-03-15") 0.75
        "Iron condor - sell ATM call",
      createOptionsSignal now self data.symbol SignalType.SELL_PUT atm_put_strike false
        "2024-03-15"
        (calculateOptionPrice m data.symbol atm_put_strike false "2024-03-15") 0.75
        "Iron condor - sell ATM put",
      createOptionsSignal now self data.symbol SignalType.BUY_CALL otm_call_strike true
        "2024-03-15"
        (calculateOptionPrice m data.symbol otm_call_strike true "2024-03-15") 0.75
        "Iron condor - buy OTM call protection",
      createOptionsSignal now self data.symbol SignalType.BUY_PUT otm_put_strike false
        "2024-03-15"
        (calculateOptionPrice m data.symbol otm_put_strike false "2024-03-15") 0.75
        "Iron condor - buy OTM put protection"]
  else []

def generateButterflySignals (m : options.Libm α) (now : Int) (self : OptionsStrategy α)
    (data : MarketData α) : List (TradingSignal α) :=
  if data.rsi > 45 ∧ data.rsi < 55 then
    let itm_strike := data.price - (data.price * 0.03)
    let atm_strike := data.price
    let otm_strike := data.price + (data.price * 0.03)
    [createOptionsSignal now self data.symbol SignalType.BUY_CALL itm_strike true
        "2024-03-15" (calculateOptionPrice m data.symbol itm_strike true "2024-03-15") 0.70
        "Butterfly spread - buy ITM call",
      createOptionsSignal now self data.symbol SignalType.SELL_CALL atm_strike true
        "2024-03-15" (calculateOptionPrice m data.symbol atm_strike true "2024-03-15") 0.70
        "Butterfly spread - sell ATM calls",
      createOptionsSignal now self data.symbol SignalType.BUY_CALL otm_strike true
        "2024-03-15" (calculateOptionPrice m data.symbol otm_strike true "2024-03-15") 0.70
        "Butterfly spread - buy OTM call"]
  else []

/-- The body of the loop of `OptionsStrategy::generateSignals`: the signals of one
`data`. -/
def optionsSignalsFor (m : options.Libm α) (now : Int) (self : OptionsStrategy α)
    (data : MarketData α) : List (TradingSignal α) :=
  match self.config_.type with
  | StrategyType.OPTIONS_STRADDLE => generateStraddleSignals m now self data
  | StrategyType.OPTIONS_STRANGLE => generateStrangleSignals m now self data
  | StrategyType.COVERED_CALL => generateCoveredCallSignals m now self data
  | StrategyType.PROTECTIVE_PUT => generateProtectivePutSignals m now self data
  | StrategyType.IRON_CONDOR => generateIronCondorSignals m now self data
  | StrategyType.BUTTERFLY_SPREAD => generateButterflySignals m now self data
  | _ => []

/-- The method `OptionsStrategy::generateSignals`. -/
def OptionsStrategy.generateSignals (m : options.Libm α) (now : Int)
    (self : OptionsStrategy α) (market_data : List (MarketData α)) :
    List (TradingSignal α) :=
  market_data.foldl (fun signals data => signals ++ optionsSignalsFor m now self data) []

end algo

namespace orderbook

/-! ## Memory lemmas -/

theorem length_update (f : Order → Order) (mem : List Order) (p : Nat) :
    (update f mem p).length = mem.length := by
  induction mem generalizing p with
  | nil => rfl
  | cons o os ih => cases p <;> simp [update, ih]

theorem deref_update_same (f : Order → Order) (mem : List Order) (p : Nat)
    (h : p < mem.length) : deref (update f mem p) p = f (deref mem p) := by
  induction mem generalizing p with
  | nil => simp at h
  | cons o os ih =>
    cases p with
    | zero => simp [update, deref]
    | succ p =>
      have h1 : p < os.length := by simpa using h
      simpa [update, deref] using ih p h1

theorem deref_update_ne (f : Order → Order) (mem : List Order) (p q : Nat)
    (h : q ≠ p) : deref (update f mem p) q = deref mem q := by
  induction mem generalizing p q with
  | nil => rfl
  | cons o os ih =>
    cases p with
    | zero =>
      cases q with
      | zero => exact absurd rfl h
      | succ q => simp [update, deref]
    | succ p =>
      cases q with
      | zero => simp [update, deref]
      | succ q =>
        have h1 : q ≠ p := fun e => h (by rw [e])
        simpa [update, deref] using ih p q h1

theorem deref_update_invalid (f : Order → Order) (mem : List Order) (p : Nat)
    (h : mem.length ≤ p) : update f mem p = mem := by
  induction mem generalizing p with
  | nil => rfl
  | cons o os ih =>
    cases p with
    | zero => simp at h
    | succ p =>
      have h1 : os.length ≤ p := by simpa using h
      simp [update, ih p h1]

theorem deref_append_lt (mem : List Order) (o : Order) (p : Nat) (h : p < mem.length) :
    deref (mem ++ [o]) p = deref mem p := by
  simp [deref, List.getD_eq_getElem?_getD, List.getElem?_append_left h]

theorem BuyComparator_iff (a b : Order) :
    BuyComparator a b = true ↔
      b.price < a.price ∨ (a.price = b.price ∧ a.timestamp < b.timestamp) := by
  unfold BuyComparator
  by_cases h : a.price = b.price
  · simp [h]
  · simp [h]

theorem SellComparator_iff (a b : Order) :
    SellComparator a b = true ↔
      a.price < b.price ∨ (a.price = b.price ∧ a.timestamp < b.timestamp) := by
  unfold SellComparator
  by_cases h : a.price = b.price
  · simp [h]
  · simp [h]

theorem BuyComparator_trans {a b c : Order} (h1 : BuyComparator a b = true)
    (h2 : BuyComparator b c = true) : BuyComparator a c = true := by
  rw [BuyComparator_iff] at *
  rcases h1 with h1 | ⟨h1, t1⟩ <;> rcases h2 with h2 | ⟨h2, t2⟩
  · exact Or.inl (lt_trans h2 h1)
  · exact Or.inl (h2 ▸ h1)
  · exact Or.inl (h1 ▸ h2)
  · exact Or.inr ⟨h1.trans h2, lt_trans t1 t2⟩

theorem SellComparator_trans {a b c : Order} (h1 : SellComparator a b = true)
    (h2 : SellComparator b c = true) : SellComparator a c = true := by
  rw [SellComparator_iff] at *
  rcases h1 with h1 | ⟨h1, t1⟩ <;> rcases h2 with h2 | ⟨h2, t2⟩
  · exact Or.inl (lt_trans h1 h2)
  · exact Or.inl (h2 ▸ h1)
  · exact Or.inl (h1 ▸ h2)
  · exact Or.inr ⟨h1.trans h2, lt_trans t1 t2⟩

theorem BuyComparator_irrefl (a : Order) : BuyComparator a a = false := by
  simp [BuyComparator]

theorem SellComparator_irrefl (a : Order) : SellComparator a a = false := by
  simp [SellComparator]

theorem SameKey.refl (o : Order) : SameKey o o := ⟨rfl, rfl, rfl, rfl, rfl⟩

theorem SameKey.trans {a b c : Order} (h1 : SameKey a b) (h2 : SameKey b c) :
    SameKey a c :=
  ⟨h2.1.trans h1.1, h2.2.1.trans h1.2.1, h2.2.2.1.trans h1.2.2.1,
    h2.2.2.2.1.trans h1.2.2.2.1, h2.2.2.2.2.trans h1.2.2.2.2⟩

theorem BuyComparator_sameKey {a a1 b b1 : Order} (ha : SameKey a a1) (hb : SameKey b b1) :
    BuyComparator a1 b1 = BuyComparator a b := by
  simp [BuyComparator, ha.2.2.1, hb.2.2.1, ha.2.2.2.2, hb.2.2.2.2]

theorem SellComparator_sameKey {a a1 b b1 : Order} (ha : SameKey a a1)
    (hb : SameKey b b1) : SellComparator a1 b1 = SellComparator a b := by
  simp [SellComparator, ha.2.2.1, hb.2.2.1, ha.2.2.2.2, hb.2.2.2.2]

theorem sameKey_update (f : Order → Order) (hf : ∀ o, SameKey o (f o))
    (mem : List Order) (p q : Nat) : SameKey (deref mem q) (deref (update f mem p) q) := by
  by_cases hq : q = p
  · subst hq
    by_cases hv : q < mem.length
    · rw [deref_update_same f mem q hv]
      exact hf _
    · rw [deref_update_invalid f mem q (Nat.le_of_not_lt hv)]
      exact SameKey.refl _
  · rw [deref_update_ne f mem p q hq]
    exact SameKey.refl _

theorem mem_setInsert (comp : Order → Order → Bool) (mem : List Order) (p x : Nat)
    (qs : List Nat) (h : x ∈ setInsert comp mem p qs) : x = p ∨ x ∈ qs := by
  induction qs with
  | nil => simpa [setInsert] using h
  | cons q qs ih =>
    simp only [setInsert] at h
    split at h
    · rcases List.mem_cons.1 h with h | h
      · exact Or.inr (h ▸ List.mem_cons_self _ _)
      · rcases ih h with h | h
        · exact Or.inl h
        · exact Or.inr (List.mem_cons_of_mem _ h)
    · split at h
      · rcases List.mem_cons.1 h with h | h
        · exact Or.inl h
        · exact Or.inr h
      · exact Or.inr h

theorem setInsert_pairwise (comp : Order → Order → Bool) (mem : List Order)
    (htrans : ∀ a b c : Order, comp a b = true → comp b c = true → comp a c = true)
    (p : Nat) (qs : List Nat)
    (h : qs.Pairwise (fun x y => comp (deref mem x) (deref mem y) = true)) :
    (setInsert comp mem p qs).Pairwise
      (fun x y => comp (deref mem x) (deref mem y) = true) := by
  induction qs with
  | nil => simp [setInsert]
  | cons q qs ih =>
    rw [List.pairwise_cons] at h
    simp only [setInsert]
    split
    · rename_i hqp
      rw [List.pairwise_cons]
      refine ⟨?_, ih h.2⟩
      intro x hx
      rcases mem_setInsert comp mem p x qs hx with hx | hx
      · rw [hx]; exact hqp
      · exact h.1 x hx
    · split
      · rename_i hpq
        rw [List.pairwise_cons]
        refine ⟨?_, List.pairwise_cons.2 h⟩
        intro x hx
        rcases List.mem_cons.1 hx with hx | hx
        · rw [hx]; exact hpq
        · exact htrans _ _ _ hpq (h.1 x hx)
      · exact List.pairwise_cons.2 h

theorem setErase_sublist (comp : Order → Order → Bool) (mem : List Order) (p : Nat)
    (qs : List Nat) : (setErase comp mem p qs).Sublist qs := by
  induction qs with
  | nil => simp [setErase]
  | cons q qs ih =>
    simp only [setErase]
    split
    · exact ih.cons₂ q
    · split
      · exact List.Sublist.refl _
      · exact List.sublist_cons_self q qs

theorem mapErase_cons_eq (m : List (String × Nat)) (key : String) (v : Nat) :
    mapErase ((key, v) :: m) key = mapErase m key := by
  simp [mapErase]

theorem mapErase_cons_ne (m : List (String × Nat)) (key k : String) (v : Nat)
    (h : k ≠ key) : mapErase ((k, v) :: m) key = (k, v) :: mapErase m key := by
  simp [mapErase, h]

theorem mapFind_mapErase_self (m : List (String × Nat)) (key : String) :
    mapFind (mapErase m key) key = none := by
  induction m with
  | nil => rfl
  | cons kv m ih =>
    obtain ⟨k, v⟩ := kv
    by_cases h : k = key
    · subst h
      rw [mapErase_cons_eq, ih]
    · rw [mapErase_cons_ne m key k v h]
      simp only [mapFind, if_neg h]
      exact ih

theorem mapFind_mapErase_ne (m : List (String × Nat)) (key k : String) (h : k ≠ key) :
    mapFind (mapErase m key) k = mapFind m k := by
  induction m with
  | nil => rfl
  | cons kv m ih =>
    obtain ⟨k1, v⟩ := kv
    by_cases h1 : k1 = key
    · subst h1
      rw [mapErase_cons_eq, ih]
      simp [mapFind, Ne.symm h]
    · rw [mapErase_cons_ne m key k1 v h1]
      simp only [mapFind]
      rw [ih]

theorem mem_mapErase {m : List (String × Nat)} {key : String} {kv : String × Nat}
    (h : kv ∈ mapErase m key) : kv ∈ m :=
  (List.mem_filter.1 h).1

theorem mem_mapAssign {m : List (String × Nat)} {key : String} {v : Nat}
    {kv : String × Nat} (h : kv ∈ mapAssign m key v) : kv = (key, v) ∨ kv ∈ m := by
  induction m with
  | nil => simpa [mapAssign] using h
  | cons e m ih =>
    obtain ⟨k, w⟩ := e
    simp only [mapAssign] at h
    split at h
    · rcases List.mem_cons.1 h with h | h
      · exact Or.inl h
      · exact Or.inr (List.mem_cons_of_mem _ h)
    · rcases List.mem_cons.1 h with h | h
      · exact Or.inr (h ▸ List.mem_cons_self _ _)
      · rcases ih h with h | h
        · exact Or.inl h
        · exact Or.inr (List.mem_cons_of_mem _ h)

theorem mem_of_mapFind {m : List (String × Nat)} {key : String} {v : Nat}
    (h : mapFind m key = some v) : (key, v) ∈ m := by
  induction m with
  | nil => simp [mapFind] at h
  | cons e m ih =>
    obtain ⟨k, w⟩ := e
    simp only [mapFind] at h
    split at h
    · rename_i hk
      cases h
      rw [hk]
      exact List.mem_cons_self _ _
    · exact List.mem_cons_of_mem _ (ih h)

/-! ## Preservation of well-formedness -/

theorem WF.transfer {st st1 : OrderBook} (h : WF st)
    (hlen : st.mem.length ≤ st1.mem.length)
    (hkey : ∀ p, p < st.mem.length → SameKey (deref st.mem p) (deref st1.mem p))
    (hb : st1.buy_orders_.Sublist st.buy_orders_)
    (hs : st1.sell_orders_.Sublist st.sell_orders_)
    (hm : ∀ kv ∈ st1.order_map_, kv ∈ st.order_map_) : WF st1 where
  buy_valid := fun p hp => lt_of_lt_of_le (h.buy_valid p (hb.subset hp)) hlen
  sell_valid := fun p hp => lt_of_lt_of_le (h.sell_valid p (hs.subset hp)) hlen
  buy_side := fun p hp => by
    have hp1 := hb.subset hp
    rw [(hkey p (h.buy_valid p hp1)).2.1]
    exact h.buy_side p hp1
  sell_side := fun p hp => by
    have hp1 := hs.subset hp
    rw [(hkey p (h.sell_valid p hp1)).2.1]
    exact h.sell_side p hp1
  buy_sorted := by
    refine (h.buy_sorted.sublist hb).imp_of_mem ?_
    intro a b ha hb1 hab
    rw [BuyComparator_sameKey (hkey a (h.buy_valid a (hb.subset ha)))
      (hkey b (h.buy_valid b (hb.subset hb1)))]
    exact hab
  sell_sorted := by
    refine (h.sell_sorted.sublist hs).imp_of_mem ?_
    intro a b ha hb1 hab
    rw [SellComparator_sameKey (hkey a (h.sell_valid a (hs.subset ha)))
      (hkey b (h.sell_valid b (hs.subset hb1)))]
    exact hab
  map_valid := fun kv hkv => lt_of_lt_of_le (h.map_valid kv (hm kv hkv)) hlen

theorem WF_empty : WF OrderBook.empty where
  buy_valid := fun p hp => by simp [OrderBook.empty] at hp
  sell_valid := fun p hp => by simp [OrderBook.empty] at hp
  buy_side := fun p hp => by simp [OrderBook.empty] at hp
  sell_side := fun p hp => by simp [OrderBook.empty] at hp
  buy_sorted := by simp [OrderBook.empty]
  sell_sorted := by simp [OrderBook.empty]
  map_valid := fun kv hkv => by simp [OrderBook.empty] at hkv

theorem addOrder_mem (st : OrderBook) (p : Nat) : (addOrder st p).mem = st.mem := by
  unfold addOrder
  dsimp only
  split <;> rfl

theorem addOrder_WF {st : OrderBook} (h : WF st) (p : Nat) (hp : p < st.mem.length) :
    WF (addOrder st p) := by
  unfold addOrder
  dsimp only
  have hmap : ∀ kv ∈ mapAssign st.order_map_ (deref st.mem p).id p,
      kv.2 < st.mem.length := by
    intro kv hkv
    rcases mem_mapAssign hkv with e | e
    · rw [e]; exact hp
    · exact h.map_valid kv e
  split
  · rename_i hside
    refine ⟨?_, h.sell_valid, ?_, h.sell_side, ?_, h.sell_sorted, hmap⟩
    · intro x hx
      rcases mem_setInsert _ _ _ _ _ hx with e | e
      · rw [e]; exact hp
      · exact h.buy_valid x e
    · intro x hx
      rcases mem_setInsert _ _ _ _ _ hx with e | e
      · rw [e]; exact hside
      · exact h.buy_side x e
    · exact setInsert_pairwise BuyComparator st.mem
        (fun a b c => BuyComparator_trans) p _ h.buy_sorted
  · rename_i hside
    have hsell : (deref st.mem p).side = OrderSide.SELL := by
      cases hs : (deref st.mem p).side
      · exact absurd hs hside
      · rfl
    refine ⟨h.buy_valid, ?_, h.buy_side, ?_, h.buy_sorted, ?_, hmap⟩
    · intro x hx
      rcases mem_setInsert _ _ _ _ _ hx with e | e
      · rw [e]; exact hp
      · exact h.sell_valid x e
    · intro x hx
      rcases mem_setInsert _ _ _ _ _ hx with e | e
      · rw [e]; exact hsell
      · exact h.sell_side x e
    · exact setInsert_pairwise SellComparator st.mem
        (fun a b c => SellComparator_trans) p _ h.sell_sorted

theorem submit_WF {st : OrderBook} (h : WF st) (o : Order) : WF (submit st o) := by
  unfold submit
  apply addOrder_WF
  · refine @WF.transfer st { st with mem := st.mem ++ [o] } h ?_ ?_
      (List.Sublist.refl _) (List.Sublist.refl _) (fun kv hkv => hkv)
    · simp
    · intro p hp
      show SameKey (deref st.mem p) (deref (st.mem ++ [o]) p)
      rw [deref_append_lt st.mem o p hp]
      exact SameKey.refl _
  · simp

theorem cancelOrder_WF {st : OrderBook} (h : WF st) (order_id : String) :
    WF (cancelOrder st order_id).2 := by
  unfold cancelOrder
  split
  · exact h
  · rename_i order hfind
    dsimp only
    refine h.transfer ?_ ?_ ?_ ?_ ?_
    · split <;> simp [length_update]
    · intro p _
      have hk := sameKey_update (fun o => { o with status := OrderStatus.CANCELLED })
        (fun o => SameKey.refl _) st.mem order p
      split <;> exact hk
    · split
      · exact setErase_sublist _ _ _ _
      · exact List.Sublist.refl _
    · split
      · exact List.Sublist.refl _
      · exact setErase_sublist _ _ _ _
    · intro kv hkv
      have := mem_mapErase hkv
      split at this <;> exact this

theorem executeTrade_mem_length (st : OrderBook) (b s : Nat) (price quantity : ℚ) :
    (executeTrade st b s price quantity).1.mem.length = st.mem.length := by
  simp [executeTrade, length_update]

theorem sameKey_setFillStatus (o : Order) : SameKey o (setFillStatus o) := by
  unfold setFillStatus
  split <;> exact SameKey.refl _

theorem executeTrade_sameKey (st : OrderBook) (b s : Nat) (price quantity : ℚ) (p : Nat) :
    SameKey (deref st.mem p) (deref (executeTrade st b s price quantity).1.mem p) := by
  simp only [executeTrade]
  have hfill : ∀ o : Order,
      SameKey o { o with filled_quantity := o.filled_quantity + quantity } :=
    fun o => SameKey.refl _
  exact ((sameKey_update _ hfill st.mem b p).trans (sameKey_update _ hfill _ s p)).trans
    ((sameKey_update _ sameKey_setFillStatus _ b p).trans
      (sameKey_update _ sameKey_setFillStatus _ s p))

theorem executeTrade_queues (st : OrderBook) (b s : Nat) (price quantity : ℚ) :
    (executeTrade st b s price quantity).1.buy_orders_ = st.buy_orders_ ∧
    (executeTrade st b s price quantity).1.sell_orders_ = st.sell_orders_ ∧
    (executeTrade st b s price quantity).1.order_map_ = st.order_map_ := by
  simp [executeTrade]

/-- What one loop iteration does to the containers and to the frozen fields. -/
theorem matchStep_frame {st st1 : OrderBook} {new_trades : List Trade}
    (h : matchStep st = some (st1, new_trades)) :
    st1.mem.length = st.mem.length ∧
    (∀ p, SameKey (deref st.mem p) (deref st1.mem p)) ∧
    st1.buy_orders_.Sublist st.buy_orders_ ∧
    st1.sell_orders_.Sublist st.sell_orders_ ∧
    (∀ kv ∈ st1.order_map_, kv ∈ st.order_map_) := by
  unfold matchStep at h
  split at h
  · rename_i best_buy bs best_sell ss hbq hsq
    split at h
    · cases h
    · simp only [Option.some.injEq, Prod.mk.injEq] at h
      obtain ⟨h1, _⟩ := h
      subst h1
      obtain ⟨eb, es, em⟩ := executeTrade_queues st best_buy best_sell
        (deref st.mem best_sell).price
        (stdMin (deref st.mem best_buy).remainingQuantity
          (deref st.mem best_sell).remainingQuantity)
      have hlen := executeTrade_mem_length st best_buy best_sell
        (deref st.mem best_sell).price
        (stdMin (deref st.mem best_buy).remainingQuantity
          (deref st.mem best_sell).remainingQuantity)
      have hkey := executeTrade_sameKey st best_buy best_sell
        (deref st.mem best_sell).price
        (stdMin (deref st.mem best_buy).remainingQuantity
          (deref st.mem best_sell).remainingQuantity)
      refine ⟨?_, ?_, ?_, ?_, ?_⟩
      · split <;> split <;> exact hlen
      · intro p
        split <;> split <;> exact hkey p
      · split <;> split <;> simp [eb, List.tail_sublist]
      · split <;> split <;> simp [es, List.tail_sublist]
      · intro kv hkv
        rw [← em]
        split at hkv <;> split at hkv
        · exact mem_mapErase (mem_mapErase hkv)
        · exact mem_mapErase hkv
        · exact mem_mapErase hkv
        · exact hkv
  · cases h

theorem matchStep_WF {st st1 : OrderBook} {new_trades : List Trade} (hwf : WF st)
    (h : matchStep st = some (st1, new_trades)) : WF st1 := by
  obtain ⟨hlen, hkey, hb, hs, hm⟩ := matchStep_frame h
  exact hwf.transfer (le_of_eq hlen.symm) (fun p _ => hkey p) hb hs hm

/-! ## One trade, one loop iteration -/

theorem executeTrade_deref_buy (st : OrderBook) (b s : Nat) (price q : ℚ) (hne : b ≠ s)
    (hb : b < st.mem.length) :
    deref (executeTrade st b s price q).1.mem b = (deref st.mem b).fill q := by
  simp only [executeTrade]
  rw [deref_update_ne _ _ s b hne, deref_update_same _ _ b (by simpa [length_update] using hb),
    deref_update_ne _ _ s b hne, deref_update_same _ _ b hb]
  rfl

theorem executeTrade_deref_sell (st : OrderBook) (b s : Nat) (price q : ℚ) (hne : b ≠ s)
    (hs : s < st.mem.length) :
    deref (executeTrade st b s price q).1.mem s = (deref st.mem s).fill q := by
  simp only [executeTrade]
  rw [deref_update_same _ _ s (by simpa [length_update] using hs),
    deref_update_ne _ _ b s (Ne.symm hne),
    deref_update_same _ _ s (by simpa [length_update] using hs),
    deref_update_ne _ _ b s (Ne.symm hne)]
  rfl

theorem executeTrade_deref_other (st : OrderBook) (b s : Nat) (price q : ℚ) (p : Nat)
    (hb : p ≠ b) (hs : p ≠ s) :
    deref (executeTrade st b s price q).1.mem p = deref st.mem p := by
  simp only [executeTrade]
  rw [deref_update_ne _ _ s p hs, deref_update_ne _ _ b p hb, deref_update_ne _ _ s p hs,
    deref_update_ne _ _ b p hb]

theorem executeTrade_trades (st : OrderBook) (b s : Nat) (price q : ℚ) :
    (executeTrade st b s price q).2 =
      [{ buy_order_id := (deref st.mem b).id, sell_order_id := (deref st.mem s).id,
         price := price, quantity := q }] := by
  have h1 := (executeTrade_sameKey st b s price q b).1
  have h2 := (executeTrade_sameKey st b s price q s).1
  simp only [executeTrade] at h1 h2 ⊢
  rw [h1, h2]

theorem fill_remainingQuantity (o : Order) (q : ℚ) :
    (o.fill q).remainingQuantity = o.remainingQuantity - q := by
  unfold Order.fill setFillStatus
  split <;> simp [Order.remainingQuantity] <;> ring

theorem fill_status (o : Order) (q : ℚ) :
    (o.fill q).status =
      if (o.fill q).remainingQuantity = 0 then OrderStatus.FILLED
      else OrderStatus.PARTIAL_FILLED := by
  rw [fill_remainingQuantity]
  unfold Order.fill setFillStatus
  have e : ({ o with filled_quantity := o.filled_quantity + q } : Order).remainingQuantity
      = o.remainingQuantity - q := by
    simp [Order.remainingQuantity]; ring
  rw [e]
  split <;> rfl

theorem fill_isComplete (o : Order) (q : ℚ) :
    (o.fill q).isComplete = decide (o.remainingQuantity = q) := by
  unfold Order.isComplete
  rw [fill_status, fill_remainingQuantity]
  by_cases h : o.remainingQuantity = q
  · simp [h]
  · have h1 : ¬ o.remainingQuantity - q = 0 := fun e => h (sub_eq_zero.1 e)
    simp [h, h1]

theorem sameKey_fill (o : Order) (q : ℚ) : SameKey o (o.fill q) := by
  unfold Order.fill
  exact (SameKey.refl o).trans (sameKey_setFillStatus _)

theorem WF.head_ne {st : OrderBook} (hwf : WF st) {b s : Nat} {bs ss : List Nat}
    (hb : st.buy_orders_ = b :: bs) (hs : st.sell_orders_ = s :: ss) : b ≠ s := by
  intro e
  have h1 := hwf.buy_side b (by rw [hb]; exact List.mem_cons_self _ _)
  have h2 := hwf.sell_side s (by rw [hs]; exact List.mem_cons_self _ _)
  rw [e, h2] at h1
  cases h1

/-- The loop ends exactly when a side is empty or the best buy is priced below the
best sell. -/
theorem matchStep_eq_none_iff (st : OrderBook) :
    matchStep st = none ↔
      st.buy_orders_ = [] ∨ st.sell_orders_ = [] ∨
        ∃ b bs s ss, st.buy_orders_ = b :: bs ∧ st.sell_orders_ = s :: ss ∧
          (deref st.mem b).price < (deref st.mem s).price := by
  unfold matchStep
  split
  · rename_i b bs s ss hb hs
    split
    · rename_i hlt
      simp only [true_iff]
      exact Or.inr (Or.inr ⟨b, bs, s, ss, hb, hs, hlt⟩)
    · rename_i hlt
      constructor
      · intro h
        cases h
      · rintro (h | h | ⟨b1, bs1, s1, ss1, e1, e2, h⟩)
        · rw [hb] at h
          cases h
        · rw [hs] at h
          cases h
        · rw [hb] at e1
          rw [hs] at e2
          cases e1
          cases e2
          exact absurd h hlt
  · rename_i hne
    simp only [true_iff]
    cases hb : st.buy_orders_ with
    | nil => exact Or.inl rfl
    | cons b bs =>
      cases hs : st.sell_orders_ with
      | nil => exact Or.inr (Or.inl rfl)
      | cons s ss => exact absurd hs (hne b bs s ss hb)

/-- One loop iteration on a well-formed book whose best orders cross. -/
theorem matchStep_eq {st : OrderBook} (hwf : WF st) {b s : Nat} {bs ss : List Nat}
    (hb : st.buy_orders_ = b :: bs) (hs : st.sell_orders_ = s :: ss)
    (hx : ¬ (deref st.mem b).price < (deref st.mem s).price) :
    ∃ st1, matchStep st = some (st1,
        [{ buy_order_id := (deref st.mem b).id, sell_order_id := (deref st.mem s).id,
           price := (deref st.mem s).price, quantity := tradeQuantity st.mem b s }]) ∧
      st1.mem = (executeTrade st b s (deref st.mem s).price (tradeQuantity st.mem b s)).1.mem ∧
      st1.buy_orders_ =
        (if (deref st.mem b).remainingQuantity = tradeQuantity st.mem b s then bs
         else b :: bs) ∧
      st1.sell_orders_ =
        (if (deref st.mem s).remainingQuantity = tradeQuantity st.mem b s then ss
         else s :: ss) ∧
      st1.order_map_ =
        (let m1 := if (deref st.mem b).remainingQuantity = tradeQuantity st.mem b s
            then mapErase st.order_map_ (deref st.mem b).id else st.order_map_
         if (deref st.mem s).remainingQuantity = tradeQuantity st.mem b s
            then mapErase m1 (deref st.mem s).id else m1) ∧
      deref st1.mem b = (deref st.mem b).fill (tradeQuantity st.mem b s) ∧
      deref st1.mem s = (deref st.mem s).fill (tradeQuantity st.mem b s) ∧
      ∀ p, p ≠ b → p ≠ s → deref st1.mem p = deref st.mem p := by
  have hne := hwf.head_ne hb hs
  have hbv := hwf.buy_valid b (by rw [hb]; exact List.mem_cons_self _ _)
  have hsv := hwf.sell_valid s (by rw [hs]; exact List.mem_cons_self _ _)
  have eB := executeTrade_deref_buy st b s (deref st.mem s).price (tradeQuantity st.mem b s)
    hne hbv
  have eS := executeTrade_deref_sell st b s (deref st.mem s).price
    (tradeQuantity st.mem b s) hne hsv
  have eO := executeTrade_deref_other st b s (deref st.mem s).price
    (tradeQuantity st.mem b s)
  have eT := executeTrade_trades st b s (deref st.mem s).price (tradeQuantity st.mem b s)
  obtain ⟨qb, qs, qm⟩ := executeTrade_queues st b s (deref st.mem s).price
    (tradeQuantity st.mem b s)
  have hq : stdMin (deref st.mem b).remainingQuantity (deref st.mem s).remainingQuantity
      = tradeQuantity st.mem b s := rfl
  unfold matchStep
  rw [hb, hs]
  dsimp only
  rw [if_neg hx, hq, eT]
  refine ⟨_, rfl, ?_⟩
  by_cases c1 : (deref st.mem b).remainingQuantity = tradeQuantity st.mem b s <;>
  by_cases c2 : (deref st.mem s).remainingQuantity = tradeQuantity st.mem b s <;>
  simp [eB, eS, fill_isComplete, c1, c2, qb, qs, qm, hb, hs, (sameKey_fill _ _).1] <;>
  exact eO

/-! ## The matching loop -/

/-- A completed loop iteration, read backwards: the queues were non-empty, the best
orders crossed, and the iteration did what `matchStep_eq` says. -/
theorem matchStep_some {st st1 : OrderBook} {new_trades : List Trade} (hwf : WF st)
    (h : matchStep st = some (st1, new_trades)) :
    ∃ b bs s ss, st.buy_orders_ = b :: bs ∧ st.sell_orders_ = s :: ss ∧
      ¬ (deref st.mem b).price < (deref st.mem s).price ∧
      new_trades =
        [{ buy_order_id := (deref st.mem b).id, sell_order_id := (deref st.mem s).id,
           price := (deref st.mem s).price, quantity := tradeQuantity st.mem b s }] ∧
      st1.buy_orders_ =
        (if (deref st.mem b).remainingQuantity = tradeQuantity st.mem b s then bs
         else b :: bs) ∧
      st1.sell_orders_ =
        (if (deref st.mem s).remainingQuantity = tradeQuantity st.mem b s then ss
         else s :: ss) ∧
      deref st1.mem b = (deref st.mem b).fill (tradeQuantity st.mem b s) ∧
      deref st1.mem s = (deref st.mem s).fill (tradeQuantity st.mem b s) ∧
      ∀ p, p ≠ b → p ≠ s → deref st1.mem p = deref st.mem p := by
  cases hb : st.buy_orders_ with
  | nil =>
    have := (matchStep_eq_none_iff st).2 (Or.inl hb)
    rw [this] at h
    cases h
  | cons b bs =>
    cases hs : st.sell_orders_ with
    | nil =>
      have := (matchStep_eq_none_iff st).2 (Or.inr (Or.inl hs))
      rw [this] at h
      cases h
    | cons s ss =>
      by_cases hx : (deref st.mem b).price < (deref st.mem s).price
      · have := (matchStep_eq_none_iff st).2 (Or.inr (Or.inr ⟨b, bs, s, ss, hb, hs, hx⟩))
        rw [this] at h
        cases h
      · obtain ⟨st2, e, _, e2, e3, _, e5, e6, e7⟩ := matchStep_eq hwf hb hs hx
        rw [e] at h
        simp only [Option.some.injEq, Prod.mk.injEq] at h
        obtain ⟨h1, h2⟩ := h
        subst h1
        exact ⟨b, bs, s, ss, rfl, rfl, hx, h2.symm, e2, e3, e5, e6, e7⟩

theorem tradeQuantity_cases (mem : List Order) (b s : Nat) :
    (deref mem b).remainingQuantity = tradeQuantity mem b s ∨
      (deref mem s).remainingQuantity = tradeQuantity mem b s := by
  unfold tradeQuantity stdMin
  split
  · exact Or.inr rfl
  · exact Or.inl rfl

/-- Every loop iteration removes at least one resting order. -/
theorem matchStep_length {st st1 : OrderBook} {new_trades : List Trade} (hwf : WF st)
    (h : matchStep st = some (st1, new_trades)) :
    st1.buy_orders_.length + st1.sell_orders_.length + 1 ≤
      st.buy_orders_.length + st.sell_orders_.length ∧ new_trades.length = 1 := by
  obtain ⟨b, bs, s, ss, hb, hs, _, ht, e2, e3, _⟩ := matchStep_some hwf h
  refine ⟨?_, by rw [ht]; rfl⟩
  rw [e2, e3, hb, hs]
  rcases tradeQuantity_cases st.mem b s with c | c
  · rw [if_pos c]
    split <;> simp <;> omega
  · rw [if_pos c]
    split <;> simp <;> omega

theorem matchLoop_total (fuel : Nat) (st : OrderBook) (trades : List Trade) (hwf : WF st)
    (hfuel : st.buy_orders_.length + st.sell_orders_.length < fuel) :
    ∃ r, matchLoop fuel st trades = some r := by
  induction fuel generalizing st trades with
  | zero => omega
  | succ n ih =>
    simp only [matchLoop]
    cases hm : matchStep st with
    | none => exact ⟨_, rfl⟩
    | some x =>
      obtain ⟨st1, new_trades⟩ := x
      have hl := (matchStep_length hwf hm).1
      exact ih st1 _ (matchStep_WF hwf hm) (by omega)

/-- Invariant rule for the loop: a property kept by every iteration holds when the
loop ends, and then the loop condition fails or the `break` is taken. -/
theorem matchLoop_rule (P : OrderBook → List Trade → Prop)
    (hstep : ∀ st trades st1 new_trades, P st trades →
      matchStep st = some (st1, new_trades) → P st1 (trades ++ new_trades))
    (fuel : Nat) (st : OrderBook) (trades : List Trade) (r : OrderBook × List Trade)
    (h0 : P st trades) (h : matchLoop fuel st trades = some r) :
    P r.1 r.2 ∧ matchStep r.1 = none := by
  induction fuel generalizing st trades with
  | zero => simp [matchLoop] at h
  | succ n ih =>
    simp only [matchLoop] at h
    cases hm : matchStep st with
    | none =>
      rw [hm] at h
      cases h
      exact ⟨h0, hm⟩
    | some x =>
      obtain ⟨st1, new_trades⟩ := x
      rw [hm] at h
      exact ih st1 _ (hstep st trades st1 new_trades h0 hm) h

theorem matchOrders_total {st : OrderBook} (hwf : WF st) : ∃ r, matchOrders st = some r :=
  matchLoop_total _ st [] hwf (Nat.lt_succ_self _)

theorem matchOrders_WF {st : OrderBook} {r : OrderBook × List Trade} (hwf : WF st)
    (h : matchOrders st = some r) : WF r.1 ∧ matchStep r.1 = none :=
  matchLoop_rule (fun st _ => WF st) (fun _ _ _ _ h0 hm => matchStep_WF h0 hm) _ st [] r
    hwf h

theorem call_WF {s s1 : OrderBook × List Trade} (c : Call) (hwf : WF s.1)
    (h : call s c = some s1) : WF s1.1 := by
  cases c with
  | addOrder o =>
    simp only [call, Option.some.injEq] at h
    rw [← h]
    exact submit_WF hwf o
  | cancelOrder order_id =>
    simp only [call, Option.some.injEq] at h
    rw [← h]
    exact cancelOrder_WF hwf order_id
  | matchOrders =>
    simp only [call] at h
    cases hm : matchOrders s.1 with
    | none => rw [hm] at h; cases h
    | some r =>
      rw [hm] at h
      simp only [Option.some.injEq] at h
      rw [← h]
      exact (matchOrders_WF hwf hm).1

theorem call_total (s : OrderBook × List Trade) (c : Call) (hwf : WF s.1) :
    ∃ s1, call s c = some s1 := by
  cases c with
  | addOrder o => exact ⟨_, rfl⟩
  | cancelOrder order_id => exact ⟨_, rfl⟩
  | matchOrders =>
    obtain ⟨r, hr⟩ := matchOrders_total hwf
    exact ⟨(r.1, s.2 ++ r.2), by simp only [call, hr]⟩

/-- Invariant rule for call sequences whose calls all satisfy `Q`. -/
theorem run_rule (Q : Call → Prop) (P : OrderBook × List Trade → Prop)
    (hstep : ∀ s c s1, Q c → WF s.1 → P s → call s c = some s1 → P s1)
    (cs : List Call) (hcs : ∀ c ∈ cs, Q c) (s s1 : OrderBook × List Trade) (hwf : WF s.1)
    (h0 : P s) (h : run cs s = some s1) : P s1 := by
  induction cs generalizing s with
  | nil =>
    simp only [run, Option.some.injEq] at h
    rw [← h]
    exact h0
  | cons c cs ih =>
    simp only [run] at h
    cases hc : call s c with
    | none => rw [hc] at h; cases h
    | some s2 =>
      rw [hc] at h
      exact ih (fun c1 h1 => hcs c1 (List.mem_cons_of_mem _ h1)) s2 (call_WF c hwf hc)
        (hstep s c s2 (hcs c (List.mem_cons_self _ _)) hwf h0 hc) h

theorem run_WF (cs : List Call) (s s1 : OrderBook × List Trade) (hwf : WF s.1)
    (h : run cs s = some s1) : WF s1.1 :=
  run_rule (fun _ => True) (fun s => WF s.1) (fun _ c _ _ hwf _ hc => call_WF c hwf hc) cs
    (fun _ _ => trivial) s s1 hwf hwf h

/-- Every call sequence on a well-formed book runs to its end: each `matchOrders`
in it returns. -/
theorem run_total (cs : List Call) (s : OrderBook × List Trade) (hwf : WF s.1) :
    ∃ s1, run cs s = some s1 := by
  induction cs generalizing s with
  | nil => exact ⟨s, rfl⟩
  | cons c cs ih =>
    obtain ⟨s2, hc⟩ := call_total s c hwf
    obtain ⟨s3, h3⟩ := ih s2 (call_WF c hwf hc)
    exact ⟨s3, by simp only [run, hc, h3]⟩

/-! ## C1: the book is uncrossed when `matchOrders` returns -/

theorem WF.buy_head_max {st : OrderBook} (hwf : WF st) {b : Nat} {bs : List Nat}
    (hb : st.buy_orders_ = b :: bs) :
    ∀ x ∈ st.buy_orders_, (deref st.mem x).price ≤ (deref st.mem b).price := by
  intro x hx
  rw [hb] at hx
  rcases List.mem_cons.1 hx with e | e
  · rw [e]
  · have hs := hwf.buy_sorted
    rw [hb, List.pairwise_cons] at hs
    rcases (BuyComparator_iff _ _).1 (hs.1 x e) with h | h
    · exact h.le
    · exact h.1.ge

theorem WF.sell_head_min {st : OrderBook} (hwf : WF st) {s : Nat} {ss : List Nat}
    (hs : st.sell_orders_ = s :: ss) :
    ∀ x ∈ st.sell_orders_, (deref st.mem s).price ≤ (deref st.mem x).price := by
  intro x hx
  rw [hs] at hx
  rcases List.mem_cons.1 hx with e | e
  · rw [e]
  · have hp := hwf.sell_sorted
    rw [hs, List.pairwise_cons] at hp
    rcases (SellComparator_iff _ _).1 (hp.1 x e) with h | h
    · exact h.le
    · exact h.1.le

theorem quiescent_uncrossed {st : OrderBook} (hwf : WF st) (h : matchStep st = none) :
    Uncrossed st := by
  intro b hb s hs
  rcases (matchStep_eq_none_iff st).1 h with e | e | ⟨b0, bs, s0, ss, eb, es, hlt⟩
  · rw [e] at hb
    cases hb
  · rw [e] at hs
    cases hs
  · exact lt_of_le_of_lt (hwf.buy_head_max eb b hb)
      (lt_of_lt_of_le hlt (hwf.sell_head_min es s hs))

theorem reachable_WF {cs : List Call} {s : OrderBook × List Trade}
    (h : run cs (OrderBook.empty, []) = some s) : WF s.1 :=
  run_WF cs _ s WF_empty h

/-- Claim C1. Whatever sequence of `addOrder`, `cancelOrder` (and `matchOrders`) calls
built the book from the empty book, a following `matchOrders` returns, and when it
returns every resting buy price is strictly below every resting sell price (which
says nothing when a side is empty); `getBestBid` is the highest resting buy price and
`getBestAsk` the lowest resting sell price, so `getBestBid < getBestAsk`, and with it
`getBestBid ≤ getBestAsk`, when both sides are non-empty. -/
theorem matchOrders_uncrossed (cs : List Call) :
    ∃ st trades r, run cs (OrderBook.empty, []) = some (st, trades) ∧
      matchOrders st = some r ∧
      (∀ b ∈ r.1.buy_orders_, ∀ s ∈ r.1.sell_orders_,
        (deref r.1.mem b).price < (deref r.1.mem s).price) ∧
      (∀ b ∈ r.1.buy_orders_, (deref r.1.mem b).price ≤ getBestBid r.1) ∧
      (∀ s ∈ r.1.sell_orders_, getBestAsk r.1 ≤ (deref r.1.mem s).price) ∧
      (r.1.buy_orders_ ≠ [] → r.1.sell_orders_ ≠ [] → getBestBid r.1 < getBestAsk r.1) := by
  obtain ⟨⟨st, trades⟩, hrun⟩ := run_total cs (OrderBook.empty, []) WF_empty
  have hwf : WF st := reachable_WF hrun
  obtain ⟨r, hr⟩ := matchOrders_total hwf
  obtain ⟨hwf1, hq⟩ := matchOrders_WF hwf hr
  have hu := quiescent_uncrossed hwf1 hq
  refine ⟨st, trades, r, hrun, hr, hu, ?_, ?_, ?_⟩
  · intro b hb
    cases hbq : r.1.buy_orders_ with
    | nil => rw [hbq] at hb; cases hb
    | cons b0 bs =>
      have := hwf1.buy_head_max hbq b hb
      simpa [getBestBid, hbq] using this
  · intro s hs
    cases hsq : r.1.sell_orders_ with
    | nil => rw [hsq] at hs; cases hs
    | cons s0 ss =>
      have := hwf1.sell_head_min hsq s hs
      simpa [getBestAsk, hsq] using this
  · intro hb hs
    cases hbq : r.1.buy_orders_ with
    | nil => exact absurd hbq hb
    | cons b0 bs =>
      cases hsq : r.1.sell_orders_ with
      | nil => exact absurd hsq hs
      | cons s0 ss =>
        have := hu b0 (by rw [hbq]; exact List.mem_cons_self _ _) s0
          (by rw [hsq]; exact List.mem_cons_self _ _)
        simpa [getBestBid, getBestAsk, hbq, hsq] using this

/-! ## C2: the execution price -/

theorem evolves_refl (st : OrderBook) : Evolves st st :=
  ⟨rfl, fun _ => SameKey.refl _, List.Sublist.refl _, List.Sublist.refl _, fun _ h => h⟩

theorem evolves_trans {a b c : OrderBook} (h1 : Evolves a b) (h2 : Evolves b c) :
    Evolves a c :=
  ⟨h2.1.trans h1.1, fun p => (h1.2.1 p).trans (h2.2.1 p), h2.2.2.1.trans h1.2.2.1,
    h2.2.2.2.1.trans h1.2.2.2.1, fun kv h => h1.2.2.2.2 kv (h2.2.2.2.2 kv h)⟩

theorem matchStep_evolves {st st1 : OrderBook} {new_trades : List Trade}
    (h : matchStep st = some (st1, new_trades)) : Evolves st st1 :=
  matchStep_frame h

/-- Each trade of the loop is between a buy order and a sell order resting in `st`, at
the price of the sell order, which is at most the price of the buy order. -/
theorem matchLoop_trades {st : OrderBook} (hwf : WF st) (fuel : Nat)
    {r : OrderBook × List Trade} (h : matchLoop fuel st [] = some r) :
    WF r.1 ∧ Evolves st r.1 ∧
    ∀ t ∈ r.2, ∃ b ∈ st.buy_orders_, ∃ s ∈ st.sell_orders_,
      t.buy_order_id = (deref st.mem b).id ∧ t.sell_order_id = (deref st.mem s).id ∧
      t.price = (deref st.mem s).price ∧ (deref st.mem s).price ≤ (deref st.mem b).price := by
  have key := matchLoop_rule
    (fun st1 trades => WF st1 ∧ Evolves st st1 ∧
      ∀ t ∈ trades, ∃ b ∈ st.buy_orders_, ∃ s ∈ st.sell_orders_,
        t.buy_order_id = (deref st.mem b).id ∧ t.sell_order_id = (deref st.mem s).id ∧
        t.price = (deref st.mem s).price ∧
        (deref st.mem s).price ≤ (deref st.mem b).price)
    ?_ fuel st [] r ⟨hwf, evolves_refl st, fun t ht => by simp at ht⟩ h
  · exact key.1
  · intro st1 trades st2 new_trades ⟨hwf1, hev, htr⟩ hstep
    refine ⟨matchStep_WF hwf1 hstep, evolves_trans hev (matchStep_evolves hstep), ?_⟩
    intro t ht
    rcases List.mem_append.1 ht with ht | ht
    · exact htr t ht
    · obtain ⟨b, bs, s, ss, hb, hs, hx, hnew, _⟩ := matchStep_some hwf1 hstep
      rw [hnew] at ht
      rw [List.mem_singleton] at ht
      have kb := hev.2.1 b
      have ks := hev.2.1 s
      refine ⟨b, hev.2.2.1.subset (by rw [hb]; exact List.mem_cons_self _ _), s,
        hev.2.2.2.1.subset (by rw [hs]; exact List.mem_cons_self _ _), ?_, ?_, ?_, ?_⟩
      · rw [ht]; exact kb.1
      · rw [ht]; exact ks.1
      · rw [ht]; exact ks.2.2.1
      · rw [← ks.2.2.1, ← kb.2.2.1]
        exact not_lt.1 hx

/-- Claim C2 fails as stated. Buy `A` 100@150.00 is added first (timestamp 1), sell `B`
100@149.50 second (timestamp 2); `A` is the resting order, yet the single trade of
`matchOrders` is at 149.50, the price of the sell order, not at 150.00. -/
theorem trade_price_not_resting :
    exA.timestamp < exB.timestamp ∧
    (run [Call.addOrder exA, Call.addOrder exB, Call.matchOrders]
        (OrderBook.empty, [])).map Prod.snd = some [⟨"A", "B", 149.5, 100⟩] ∧
    (run [Call.addOrder exA, Call.addOrder exB, Call.matchOrders]
        (OrderBook.empty, [])).map Prod.snd ≠ some [⟨"A", "B", exA.price, 100⟩] := by
  decide!

/-- Claim C2, amended. Every trade produced by `matchOrders` is between a resting buy
order and a resting sell order and executes at the price of the sell order, whichever
of the two came first. On the example (buy `A` 100@150.00 first, sell `B` 100@149.50
second) `matchOrders` yields exactly one trade, at 149.50 for 100, both orders are
`FILLED` and the book is empty. -/
theorem trade_price_is_sell_price (cs : List Call) :
    (∃ st trades r, run cs (OrderBook.empty, []) = some (st, trades) ∧
      matchOrders st = some r ∧
      ∀ t ∈ r.2, ∃ b ∈ st.buy_orders_, ∃ s ∈ st.sell_orders_,
        t.buy_order_id = (deref st.mem b).id ∧ t.sell_order_id = (deref st.mem s).id ∧
        t.price = (deref st.mem s).price) ∧
    run [Call.addOrder exA, Call.addOrder exB, Call.matchOrders] (OrderBook.empty, []) =
      some ({ mem := [{ exA with filled_quantity := 100, status := OrderStatus.FILLED },
                      { exB with filled_quantity := 100, status := OrderStatus.FILLED }],
              buy_orders_ := [], sell_orders_ := [], order_map_ := [] },
            [⟨"A", "B", 149.5, 100⟩]) := by
  refine ⟨?_, by decide!⟩
  obtain ⟨⟨st, trades⟩, hrun⟩ := run_total cs (OrderBook.empty, []) WF_empty
  have hwf : WF st := reachable_WF hrun
  obtain ⟨r, hr⟩ := matchOrders_total hwf
  refine ⟨st, trades, r, hrun, hr, ?_⟩
  intro t ht
  obtain ⟨b, hb, s, hs, h1, h2, h3, _⟩ := (matchLoop_trades hwf _ hr).2.2 t ht
  exact ⟨b, hb, s, hs, h1, h2, h3⟩

/-! ## C3: price-time priority -/

theorem matchIter_rule (P : OrderBook → Prop)
    (hstep : ∀ st st1 new_trades, P st → matchStep st = some (st1, new_trades) → P st1)
    (n : Nat) (st : OrderBook) (h0 : P st) : P (matchIter n st) := by
  induction n generalizing st with
  | zero => exact h0
  | succ n ih =>
    simp only [matchIter]
    cases hm : matchStep st with
    | none => exact h0
    | some r => exact ih r.1 (hstep st r.1 r.2 h0 hm)

theorem matchLoop_eq_matchIter (fuel : Nat) (st : OrderBook) (trades : List Trade)
    (r : OrderBook × List Trade) (h : matchLoop fuel st trades = some r) :
    r.1 = matchIter fuel st := by
  induction fuel generalizing st trades with
  | zero => simp [matchLoop] at h
  | succ n ih =>
    simp only [matchLoop] at h
    simp only [matchIter]
    cases hm : matchStep st with
    | none =>
      rw [hm] at h
      cases h
      rfl
    | some x =>
      rw [hm] at h
      exact ih _ _ h

theorem fill_status_of_eq (o : Order) (q : ℚ) (h : o.remainingQuantity = q) :
    (o.fill q).status = OrderStatus.FILLED ∧ (o.fill q).remainingQuantity = 0 := by
  have h0 : (o.fill q).remainingQuantity = 0 := by
    rw [fill_remainingQuantity, h, sub_self]
  exact ⟨by rw [fill_status, if_pos h0], h0⟩

/-- In a book evolved from `st`, the later buy order `q` is not at the head of the
queue while the earlier one `p`, of the same price, is queued. -/
theorem buy_head_ne_later {st st1 : OrderBook} (hwf1 : WF st1) (hev : Evolves st st1)
    (p q : Nat) (hprice : (deref st.mem p).price = (deref st.mem q).price)
    (hts : (deref st.mem p).timestamp < (deref st.mem q).timestamp)
    (hp1 : p ∈ st1.buy_orders_) : st1.buy_orders_.head? ≠ some q := by
  intro hhead
  cases hq : st1.buy_orders_ with
  | nil => rw [hq] at hhead; cases hhead
  | cons b bs =>
    rw [hq] at hhead hp1
    simp only [List.head?_cons, Option.some.injEq] at hhead
    subst hhead
    have hcomp : BuyComparator (deref st1.mem p) (deref st1.mem b) = true := by
      rw [BuyComparator_sameKey (hev.2.1 p) (hev.2.1 b), BuyComparator_iff]
      exact Or.inr ⟨hprice, hts⟩
    rcases List.mem_cons.1 hp1 with e | e
    · rw [e, BuyComparator_irrefl] at hcomp
      cases hcomp
    · have hs := hwf1.buy_sorted
      rw [hq, List.pairwise_cons] at hs
      have := BuyComparator_trans (hs.1 p e) hcomp
      rw [BuyComparator_irrefl] at this
      cases this

/-- Loop invariant for two resting buy orders `p`, `q` of the same price, `p` the
earlier: while `p` is queued `q` is untouched; once `p` has left the queue it is
`FILLED` with nothing remaining. -/
theorem buy_priority_inv {st : OrderBook} (hwf : WF st) (p q : Nat)
    (hp : p ∈ st.buy_orders_) (hq : q ∈ st.buy_orders_)
    (hprice : (deref st.mem p).price = (deref st.mem q).price)
    (hts : (deref st.mem p).timestamp < (deref st.mem q).timestamp) (n : Nat) :
    WF (matchIter n st) ∧ Evolves st (matchIter n st) ∧
    (p ∉ (matchIter n st).buy_orders_ →
      (deref (matchIter n st).mem p).status = OrderStatus.FILLED ∧
      (deref (matchIter n st).mem p).remainingQuantity = 0) ∧
    (p ∈ (matchIter n st).buy_orders_ →
      deref (matchIter n st).mem q = deref st.mem q) := by
  refine matchIter_rule
    (fun st1 => WF st1 ∧ Evolves st st1 ∧
      (p ∉ st1.buy_orders_ → (deref st1.mem p).status = OrderStatus.FILLED ∧
        (deref st1.mem p).remainingQuantity = 0) ∧
      (p ∈ st1.buy_orders_ → deref st1.mem q = deref st.mem q))
    ?_ n st ⟨hwf, evolves_refl st, fun h => absurd hp h, fun _ => rfl⟩
  intro st1 st2 new_trades ⟨hwf1, hev, hdone, hkeep⟩ hstep
  obtain ⟨b, bs, s, ss, hb, hs, _, _, e2, e3, eb, es, eo⟩ := matchStep_some hwf1 hstep
  have hother : ∀ x, x ∈ st.buy_orders_ → x ≠ s := by
    intro x hx e
    have h1 := hwf1.sell_side s (by rw [hs]; exact List.mem_cons_self _ _)
    have h2 := hwf.buy_side x hx
    rw [← e, (hev.2.1 x).2.1, h2] at h1
    cases h1
  refine ⟨matchStep_WF hwf1 hstep, evolves_trans hev (matchStep_evolves hstep), ?_, ?_⟩
  · intro hp2
    by_cases hp1 : p ∈ st1.buy_orders_
    · rw [e2] at hp2
      rw [hb] at hp1
      by_cases c : (deref st1.mem b).remainingQuantity = tradeQuantity st1.mem b s
      · rw [if_pos c] at hp2
        have hpb : p = b := by
          rcases List.mem_cons.1 hp1 with e | e
          · exact e
          · exact absurd e hp2
        rw [hpb, eb]
        exact fill_status_of_eq _ _ c
      · rw [if_neg c] at hp2
        exact absurd hp1 hp2
    · have hpb : p ≠ b := by
        intro e
        apply hp1
        rw [hb, e]
        exact List.mem_cons_self _ _
      rw [eo p hpb (hother p hp)]
      exact hdone hp1
  · intro hp2
    have hp1 : p ∈ st1.buy_orders_ := (matchStep_evolves hstep).2.2.1.subset hp2
    have hqb : q ≠ b := by
      intro e
      apply buy_head_ne_later hwf1 hev p q hprice hts hp1
      rw [hb, e]
      rfl
    rw [eo q hqb (hother q hq)]
    exact hkeep hp1

/-- In a book evolved from `st`, the later sell order `q` is not at the head of the
queue while the earlier one `p`, of the same price, is queued. -/
theorem sell_head_ne_later {st st1 : OrderBook} (hwf1 : WF st1) (hev : Evolves st st1)
    (p q : Nat) (hprice : (deref st.mem p).price = (deref st.mem q).price)
    (hts : (deref st.mem p).timestamp < (deref st.mem q).timestamp)
    (hp1 : p ∈ st1.sell_orders_) : st1.sell_orders_.head? ≠ some q := by
  intro hhead
  cases hq : st1.sell_orders_ with
  | nil => rw [hq] at hhead; cases hhead
  | cons b bs =>
    rw [hq] at hhead hp1
    simp only [List.head?_cons, Option.some.injEq] at hhead
    subst hhead
    have hcomp : SellComparator (deref st1.mem p) (deref st1.mem b) = true := by
      rw [SellComparator_sameKey (hev.2.1 p) (hev.2.1 b), SellComparator_iff]
      exact Or.inr ⟨hprice, hts⟩
    rcases List.mem_cons.1 hp1 with e | e
    · rw [e, SellComparator_irrefl] at hcomp
      cases hcomp
    · have hs := hwf1.sell_sorted
      rw [hq, List.pairwise_cons] at hs
      have := SellComparator_trans (hs.1 p e) hcomp
      rw [SellComparator_irrefl] at this
      cases this

/-- Loop invariant for two resting sell orders `p`, `q` of the same price, `p` the
earlier: while `p` is queued `q` is untouched; once `p` has left the queue it is
`FILLED` with nothing remaining. -/
theorem sell_priority_inv {st : OrderBook} (hwf : WF st) (p q : Nat)
    (hp : p ∈ st.sell_orders_) (hq : q ∈ st.sell_orders_)
    (hprice : (deref st.mem p).price = (deref st.mem q).price)
    (hts : (deref st.mem p).timestamp < (deref st.mem q).timestamp) (n : Nat) :
    WF (matchIter n st) ∧ Evolves st (matchIter n st) ∧
    (p ∉ (matchIter n st).sell_orders_ →
      (deref (matchIter n st).mem p).status = OrderStatus.FILLED ∧
      (deref (matchIter n st).mem p).remainingQuantity = 0) ∧
    (p ∈ (matchIter n st).sell_orders_ →
      deref (matchIter n st).mem q = deref st.mem q) := by
  refine matchIter_rule
    (fun st1 => WF st1 ∧ Evolves st st1 ∧
      (p ∉ st1.sell_orders_ → (deref st1.mem p).status = OrderStatus.FILLED ∧
        (deref st1.mem p).remainingQuantity = 0) ∧
      (p ∈ st1.sell_orders_ → deref st1.mem q = deref st.mem q))
    ?_ n st ⟨hwf, evolves_refl st, fun h => absurd hp h, fun _ => rfl⟩
  intro st1 st2 new_trades ⟨hwf1, hev, hdone, hkeep⟩ hstep
  obtain ⟨s, ss, b, bs, hs, hb, _, _, e3, e2, es, eb, eo0⟩ := matchStep_some hwf1 hstep
  have eo : ∀ x, x ≠ b → x ≠ s → deref st2.mem x = deref st1.mem x :=
    fun x h1 h2 => eo0 x h2 h1
  have hother : ∀ x, x ∈ st.sell_orders_ → x ≠ s := by
    intro x hx e
    have h1 := hwf1.buy_side s (by rw [hs]; exact List.mem_cons_self _ _)
    have h2 := hwf.sell_side x hx
    rw [← e, (hev.2.1 x).2.1, h2] at h1
    cases h1
  refine ⟨matchStep_WF hwf1 hstep, evolves_trans hev (matchStep_evolves hstep), ?_, ?_⟩
  · intro hp2
    by_cases hp1 : p ∈ st1.sell_orders_
    · rw [e2] at hp2
      rw [hb] at hp1
      by_cases c : (deref st1.mem b).remainingQuantity = tradeQuantity st1.mem s b
      · rw [if_pos c] at hp2
        have hpb : p = b := by
          rcases List.mem_cons.1 hp1 with e | e
          · exact e
          · exact absurd e hp2
        rw [hpb, eb]
        exact fill_status_of_eq _ _ c
      · rw [if_neg c] at hp2
        exact absurd hp1 hp2
    · have hpb : p ≠ b := by
        intro e
        apply hp1
        rw [hb, e]
        exact List.mem_cons_self _ _
      rw [eo p hpb (hother p hp)]
      exact hdone hp1
  · intro hp2
    have hp1 : p ∈ st1.sell_orders_ := (matchStep_evolves hstep).2.2.2.1.subset hp2
    have hqb : q ≠ b := by
      intro e
      apply sell_head_ne_later hwf1 hev p q hprice hts hp1
      rw [hb, e]
      rfl
    rw [eo q hqb (hother q hq)]
    exact hkeep hp1
theorem side_exclusive {st st1 : OrderBook} (hwf : WF st) (hwf1 : WF st1)
    (hev : Evolves st st1) (q : Nat) :
    ¬ (q ∈ st.buy_orders_ ∧ q ∈ st1.sell_orders_) ∧
    ¬ (q ∈ st.sell_orders_ ∧ q ∈ st1.buy_orders_) := by
  constructor
  · rintro ⟨h1, h2⟩
    have a := hwf.buy_side q h1
    have b := hwf1.sell_side q h2
    rw [(hev.2.1 q).2.1, a] at b
    cases b
  · rintro ⟨h1, h2⟩
    have a := hwf.sell_side q h1
    have b := hwf1.buy_side q h2
    rw [(hev.2.1 q).2.1, a] at b
    cases b

/-- Claim C3. Let `p` and `q` rest on the same side of a book built by any call
sequence, with the same price and `p` the earlier timestamp. At every iteration of the
loop of `matchOrders` at which `q` is the best order of its side (the only order of
that side an iteration fills), `p` is already `FILLED` with nothing remaining; so at
every iteration, and when `matchOrders` returns, `q` is unchanged unless `p` is
`FILLED`. On the example (buys `A` then `B` 100@150, sell `C` 150@150) the trades are
(A, C, 100) then (B, C, 50); `A` and `C` end `FILLED`, `B` `PARTIAL_FILLED` with 50
remaining. -/
theorem price_time_priority (cs : List Call) (st : OrderBook) (trades : List Trade)
    (hrun : run cs (OrderBook.empty, []) = some (st, trades)) (p q : Nat)
    (hside : (p ∈ st.buy_orders_ ∧ q ∈ st.buy_orders_) ∨
      (p ∈ st.sell_orders_ ∧ q ∈ st.sell_orders_))
    (hprice : (deref st.mem p).price = (deref st.mem q).price)
    (hts : (deref st.mem p).timestamp < (deref st.mem q).timestamp) :
    (∀ n, ((matchIter n st).buy_orders_.head? = some q ∨
          (matchIter n st).sell_orders_.head? = some q) →
        (deref (matchIter n st).mem p).status = OrderStatus.FILLED ∧
        (deref (matchIter n st).mem p).remainingQuantity = 0) ∧
    (∀ n, deref (matchIter n st).mem q ≠ deref st.mem q →
        (deref (matchIter n st).mem p).status = OrderStatus.FILLED ∧
        (deref (matchIter n st).mem p).remainingQuantity = 0) ∧
    (∃ r, matchOrders st = some r ∧
      (deref r.1.mem q ≠ deref st.mem q →
        (deref r.1.mem p).status = OrderStatus.FILLED ∧
        (deref r.1.mem p).remainingQuantity = 0)) ∧
    run [Call.addOrder exA2, Call.addOrder exB2, Call.addOrder exC2, Call.matchOrders]
        (OrderBook.empty, []) =
      some ({ mem := [{ exA2 with filled_quantity := 100, status := OrderStatus.FILLED },
                      { exB2 with filled_quantity := 50,
                                  status := OrderStatus.PARTIAL_FILLED },
                      { exC2 with filled_quantity := 150, status := OrderStatus.FILLED }],
              buy_orders_ := [1], sell_orders_ := [], order_map_ := [("B", 1)] },
            [⟨"A", "C", 150, 100⟩, ⟨"B", "C", 150, 50⟩]) := by
  have hwf : WF st := reachable_WF hrun
  have hhead : ∀ n, ((matchIter n st).buy_orders_.head? = some q ∨
        (matchIter n st).sell_orders_.head? = some q) →
      (deref (matchIter n st).mem p).status = OrderStatus.FILLED ∧
      (deref (matchIter n st).mem p).remainingQuantity = 0 := by
    intro n hq
    rcases hside with ⟨hp, hq0⟩ | ⟨hp, hq0⟩
    · obtain ⟨hwf1, hev, hdone, _⟩ := buy_priority_inv hwf p q hp hq0 hprice hts n
      rcases hq with hq | hq
      · by_cases hp1 : p ∈ (matchIter n st).buy_orders_
        · exact absurd hq (buy_head_ne_later hwf1 hev p q hprice hts hp1)
        · exact hdone hp1
      · exact absurd ⟨hq0, List.mem_of_mem_head? hq⟩ (side_exclusive hwf hwf1 hev q).1
    · obtain ⟨hwf1, hev, hdone, _⟩ := sell_priority_inv hwf p q hp hq0 hprice hts n
      rcases hq with hq | hq
      · exact absurd ⟨hq0, List.mem_of_mem_head? hq⟩ (side_exclusive hwf hwf1 hev q).2
      · by_cases hp1 : p ∈ (matchIter n st).sell_orders_
        · exact absurd hq (sell_head_ne_later hwf1 hev p q hprice hts hp1)
        · exact hdone hp1
  have hchg : ∀ n, deref (matchIter n st).mem q ≠ deref st.mem q →
      (deref (matchIter n st).mem p).status = OrderStatus.FILLED ∧
      (deref (matchIter n st).mem p).remainingQuantity = 0 := by
    intro n hq
    rcases hside with ⟨hp, hq0⟩ | ⟨hp, hq0⟩
    · obtain ⟨_, _, hdone, hkeep⟩ := buy_priority_inv hwf p q hp hq0 hprice hts n
      by_cases hp1 : p ∈ (matchIter n st).buy_orders_
      · exact absurd (hkeep hp1) hq
      · exact hdone hp1
    · obtain ⟨_, _, hdone, hkeep⟩ := sell_priority_inv hwf p q hp hq0 hprice hts n
      by_cases hp1 : p ∈ (matchIter n st).sell_orders_
      · exact absurd (hkeep hp1) hq
      · exact hdone hp1
  refine ⟨hhead, hchg, ?_, by decide!⟩
  obtain ⟨r, hr⟩ := matchOrders_total hwf
  refine ⟨r, hr, ?_⟩
  rw [matchLoop_eq_matchIter _ _ _ _ hr]
  exact hchg _

/-- The example book satisfies the hypotheses of `price_time_priority` with `p` the
order `A` and `q` the order `B`: `B` is changed by `matchOrders`, and `A` is
`FILLED`. -/
theorem price_time_priority_witness :
    ((0 ∈ exBook3.buy_orders_ ∧ 1 ∈ exBook3.buy_orders_) ∧
      (deref exBook3.mem 0).price = (deref exBook3.mem 1).price ∧
      (deref exBook3.mem 0).timestamp < (deref exBook3.mem 1).timestamp) ∧
    ∃ r, matchOrders exBook3 = some r ∧
      (deref r.1.mem 1 ≠ deref exBook3.mem 1 →
        (deref r.1.mem 0).status = OrderStatus.FILLED ∧
        (deref r.1.mem 0).remainingQuantity = 0) :=
  ⟨by decide!,
    (price_time_priority [Call.addOrder exA2, Call.addOrder exB2, Call.addOrder exC2]
      exBook3 [] rfl 0 1 (Or.inl (by decide!)) (by decide!) (by decide!)).2.2.1⟩

/-! ## C4: conservation of filled quantity -/

theorem submit_mem (st : OrderBook) (o : Order) : (submit st o).mem = st.mem ++ [o] := by
  unfold submit
  rw [addOrder_mem]

/-- Claim C6 fails as stated. The book holding only the buy `A` 100@150.00 is uncrossed;
after `addOrder` of the sell `B` 100@149.50 the book is crossed (best ask 149.50 below
best bid 150.00) and no order has been filled: `addOrder` did not match. -/
theorem addOrder_leaves_crossed :
    Uncrossed (submit OrderBook.empty exA) ∧
    ¬ Uncrossed (submit (submit OrderBook.empty exA) exB) ∧
    (submit (submit OrderBook.empty exA) exB).buy_orders_ = [0] ∧
    (submit (submit OrderBook.empty exA) exB).sell_orders_ = [1] ∧
    getBestAsk (submit (submit OrderBook.empty exA) exB) <
      getBestBid (submit (submit OrderBook.empty exA) exB) ∧
    (submit (submit OrderBook.empty exA) exB).mem = [exA, exB] := by
  simp only [Uncrossed]
  decide!

/-- Claim C6, amended. `addOrder(o)` does not run matching: on every book built by a call
sequence it adds the object `o` with its fields as given, changes no field of any other
order and emits no trade. The `matchOrders` call that follows returns and leaves the
book uncrossed: every resting buy price is strictly below every resting sell price. -/
theorem addOrder_then_match_uncrossed (cs : List Call) (o : Order) :
    ∃ st trades r, run cs (OrderBook.empty, []) = some (st, trades) ∧
      call (st, trades) (Call.addOrder o) = some (submit st o, trades) ∧
      (submit st o).mem = st.mem ++ [o] ∧
      matchOrders (submit st o) = some r ∧
      ∀ b ∈ r.1.buy_orders_, ∀ s ∈ r.1.sell_orders_,
        (deref r.1.mem b).price < (deref r.1.mem s).price := by
  obtain ⟨⟨st, trades⟩, hrun⟩ := run_total cs (OrderBook.empty, []) WF_empty
  have hwf : WF (submit st o) := submit_WF (reachable_WF hrun) o
  obtain ⟨r, hr⟩ := matchOrders_total hwf
  obtain ⟨hwf1, hq⟩ := matchOrders_WF hwf hr
  exact ⟨st, trades, r, hrun, rfl, submit_mem st o, hr, quiescent_uncrossed hwf1 hq⟩

/-! ## C7: termination and quiescence of `matchOrders` -/

theorem cancelOrder_index (st : OrderBook) (order_id : String) :
    mapFind (cancelOrder st order_id).2.order_map_ order_id = none := by
  unfold cancelOrder
  split
  · rename_i h
    exact h
  · exact mapFind_mapErase_self _ _

/-- Claim C8. On any book, `cancelOrder(id)` for an id that the id-index does not hold
returns `false` and returns the book as it was: queues, index and all order fields.
After any `cancelOrder(id)` the index does not hold `id`, so a second `cancelOrder(id)`
returns `false` and changes nothing: cancelling the same id twice succeeds at most
once. -/
theorem cancelOrder_absent (st : OrderBook) (order_id : String) :
    (mapFind st.order_map_ order_id = none → cancelOrder st order_id = (false, st)) ∧
    mapFind (cancelOrder st order_id).2.order_map_ order_id = none ∧
    cancelOrder (cancelOrder st order_id).2 order_id =
      (false, (cancelOrder st order_id).2) := by
  have h : ∀ st1 : OrderBook, mapFind st1.order_map_ order_id = none →
      cancelOrder st1 order_id = (false, st1) := by
    intro st1 h1
    unfold cancelOrder
    rw [h1]
  exact ⟨h st, cancelOrder_index st order_id, h _ (cancelOrder_index st order_id)⟩

/-- On the book holding only the order `A`, the id `B` is not in the index and
cancelling it is refused with the book unchanged; `A` can be cancelled once. -/
theorem cancelOrder_absent_witness :
    mapFind (submit OrderBook.empty exA).order_map_ "B" = none ∧
    cancelOrder (submit OrderBook.empty exA) "B" = (false, submit OrderBook.empty exA) ∧
    (cancelOrder (submit OrderBook.empty exA) "A").1 = true ∧
    cancelOrder (cancelOrder (submit OrderBook.empty exA) "A").2 "A" =
      (false, (cancelOrder (submit OrderBook.empty exA) "A").2) :=
  ⟨by decide!,
    (cancelOrder_absent (submit OrderBook.empty exA) "B").1 (by decide!),
    by decide!,
    (cancelOrder_absent (submit OrderBook.empty exA) "A").2.2⟩

/-! ## C9: cancelling an id that is in the index -/

/-- Claim C9 fails on orders with equal price and timestamp. Buy `A` 100@150 and buy `D`
50@150 carry the same timestamp. `addOrder(D)` puts `D` in the index but not in the
queue, which holds the equivalent `A`. `cancelOrder("D")` then returns `true` and marks
`D` `CANCELLED`, but the queue entry it erases is `A`: `A` keeps status `PENDING` and
its index entry, is in no queue, and does not trade with the crossing sell `B` added
afterwards. -/
theorem cancelOrder_erases_equal_key :
    exA.price = exD.price ∧ exA.timestamp = exD.timestamp ∧
    (submit (submit OrderBook.empty exA) exD) =
      { mem := [exA, exD], buy_orders_ := [0], sell_orders_ := [],
        order_map_ := [("A", 0), ("D", 1)] } ∧
    cancelOrder (submit (submit OrderBook.empty exA) exD) "D" =
      (true, { mem := [exA, { exD with status := OrderStatus.CANCELLED }],
               buy_orders_ := [], sell_orders_ := [], order_map_ := [("A", 0)] }) ∧
    run [Call.addOrder exA, Call.addOrder exD, Call.cancelOrder "D", Call.addOrder exB,
        Call.matchOrders] (OrderBook.empty, []) =
      some ({ mem := [exA, { exD with status := OrderStatus.CANCELLED }, exB],
              buy_orders_ := [], sell_orders_ := [2],
              order_map_ := [("A", 0), ("B", 2)] }, []) := by
  decide!

/-! ## C10: depth views -/

theorem mem_keys_levelAdd (price qty : ℚ) (m : List (ℚ × ℚ)) (k : ℚ) :
    k ∈ (levelAdd price qty m).map Prod.fst ↔ k = price ∨ k ∈ m.map Prod.fst := by
  induction m with
  | nil => simp [levelAdd]
  | cons e m ih =>
    obtain ⟨k1, v1⟩ := e
    simp only [levelAdd]
    split
    · simp
    · split
      · simp only [List.map_cons, List.mem_cons, ih]
        tauto
      · rename_i h1 h2
        have e : k1 = price := le_antisymm (not_lt.1 h1) (not_lt.1 h2)
        simp only [List.map_cons, List.mem_cons, e]
        tauto

theorem levelAdd_sorted (price qty : ℚ) (m : List (ℚ × ℚ))
    (h : (m.map Prod.fst).Pairwise (fun a b => a < b)) :
    ((levelAdd price qty m).map Prod.fst).Pairwise (fun a b => a < b) := by
  induction m with
  | nil => simp [levelAdd]
  | cons e m ih =>
    obtain ⟨k1, v1⟩ := e
    rw [List.map_cons, List.pairwise_cons] at h
    simp only [levelAdd]
    split
    · rename_i hlt
      simp only [List.map_cons, List.pairwise_cons]
      refine ⟨?_, h.1, h.2⟩
      intro x hx
      rcases List.mem_cons.1 hx with e | e
      · rw [e]; exact hlt
      · exact lt_trans hlt (h.1 x e)
    · split
      · rename_i _ hlt
        simp only [List.map_cons, List.pairwise_cons]
        refine ⟨?_, ih h.2⟩
        intro x hx
        rcases (mem_keys_levelAdd price qty m x).1 hx with e | e
        · rw [e]; exact hlt
        · exact h.1 x e
      · simp only [List.map_cons, List.pairwise_cons]
        exact h

theorem levelGet_levelAdd (price qty : ℚ) (m : List (ℚ × ℚ)) (k : ℚ) :
    levelGet (levelAdd price qty m) k = levelGet m k + (if price = k then qty else 0) := by
  induction m with
  | nil =>
    by_cases h : price = k
    · simp [levelAdd, levelGet, h]
    · simp [levelAdd, levelGet, h]
  | cons e m ih =>
    obtain ⟨k1, v1⟩ := e
    simp only [levelAdd]
    split
    · by_cases h : price = k
      · simp [levelGet, h, List.filter_cons]
        ring
      · simp [levelGet, h, List.filter_cons]
    · split
      · rename_i _ hlt
        have ih1 : ((List.filter (fun kv => decide (kv.1 = k)) (levelAdd price qty m)).map
            Prod.snd).sum = ((List.filter (fun kv => decide (kv.1 = k)) m).map Prod.snd).sum
              + (if price = k then qty else 0) := ih
        by_cases h1 : k1 = k
        · simp only [levelGet, List.filter_cons, h1, decide_True, if_true, List.map_cons,
            List.sum_cons, ih1]
          ring
        · simp only [levelGet, List.filter_cons, h1, decide_False, Bool.false_eq_true,
            if_false, ih1]
      · rename_i h1 h2
        have e : k1 = price := le_antisymm (not_lt.1 h1) (not_lt.1 h2)
        subst e
        by_cases h : k1 = k
        · simp [levelGet, h, List.filter_cons]
          ring
        · simp [levelGet, h, List.filter_cons]

theorem levelGet_of_mem (m : List (ℚ × ℚ))
    (h : (m.map Prod.fst).Pairwise (fun a b => a < b))
    (kv : ℚ × ℚ) (hkv : kv ∈ m) : levelGet m kv.1 = kv.2 := by
  induction m with
  | nil => cases hkv
  | cons e m ih =>
    rw [List.map_cons, List.pairwise_cons] at h
    rcases List.mem_cons.1 hkv with e1 | e1
    · subst e1
      have : List.filter (fun x => decide (x.1 = kv.1)) m = [] := by
        rw [List.filter_eq_nil_iff]
        intro x hx
        have := h.1 x.1 (List.mem_map_of_mem _ hx)
        simp [ne_of_gt this]
      simp [levelGet, List.filter_cons, this]
    · have hne : e.1 ≠ kv.1 := ne_of_lt (h.1 kv.1 (List.mem_map_of_mem _ e1))
      have := ih h.2 e1
      simp only [levelGet, List.filter_cons, hne, decide_False, Bool.false_eq_true,
        if_false] at this ⊢
      exact this

theorem levelQty_cons (mem : List Order) (p : Nat) (queue : List Nat) (k : ℚ) :
    levelQty mem (p :: queue) k =
      (if (deref mem p).price = k then (deref mem p).remainingQuantity else 0) +
        levelQty mem queue k := by
  by_cases h : (deref mem p).price = k <;> simp [levelQty, List.filter_cons, h]

/-- The first loop of the depth views: keys stay strictly ascending, the keys are the
old keys and the queue prices, and each key gains the remaining quantities of the
queued orders at that price. -/
theorem priceLevels_spec (mem : List Order) (queue : List Nat) (acc : List (ℚ × ℚ))
    (h : (acc.map Prod.fst).Pairwise (fun a b => a < b)) :
    ((priceLevels mem queue acc).map Prod.fst).Pairwise (fun a b => a < b) ∧
    (∀ k, k ∈ (priceLevels mem queue acc).map Prod.fst ↔
      k ∈ acc.map Prod.fst ∨ k ∈ queuePrices mem queue) ∧
    ∀ k, levelGet (priceLevels mem queue acc) k = levelGet acc k + levelQty mem queue k := by
  induction queue generalizing acc with
  | nil => exact ⟨h, by simp [priceLevels, queuePrices], by simp [priceLevels, levelQty]⟩
  | cons p queue ih =>
    obtain ⟨h1, h2, h3⟩ := ih _ (levelAdd_sorted (deref mem p).price
      (deref mem p).remainingQuantity acc h)
    refine ⟨h1, ?_, ?_⟩
    · intro k
      simp only [priceLevels, h2, mem_keys_levelAdd, queuePrices, List.map_cons,
        List.mem_cons]
      simp only [queuePrices] at h2
      tauto
    · intro k
      simp only [priceLevels, h3, levelGet_levelAdd, levelQty_cons]
      ring
theorem levelGet_nil (k : ℚ) : levelGet [] k = 0 := by
  simp [levelGet]

/-- The map built by the first loop of a depth view from the empty map. -/
theorem priceLevels_nil_spec (mem : List Order) (queue : List Nat) :
    ((priceLevels mem queue []).map Prod.fst).Pairwise (fun a b => a < b) ∧
    (∀ k, k ∈ (priceLevels mem queue []).map Prod.fst ↔ k ∈ queuePrices mem queue) ∧
    (∀ kv ∈ priceLevels mem queue [], kv.2 = levelQty mem queue kv.1) ∧
    (priceLevels mem queue []).length = (queuePrices mem queue).dedup.length := by
  obtain ⟨h1, h2, h3⟩ := priceLevels_spec mem queue [] (by simp)
  have h2' : ∀ k, k ∈ (priceLevels mem queue []).map Prod.fst ↔
      k ∈ queuePrices mem queue := by
    intro k
    rw [h2]
    simp
  refine ⟨h1, h2', ?_, ?_⟩
  · intro kv hkv
    rw [← levelGet_of_mem _ h1 kv hkv, h3, levelGet_nil, zero_add]
  · have hnd : ((priceLevels mem queue []).map Prod.fst).Nodup :=
      h1.imp (fun h => ne_of_lt h)
    rw [← List.length_map (priceLevels mem queue []) Prod.fst,
      ← List.toFinset_card_of_nodup hnd, ← List.card_toFinset]
    congr 1
    ext k
    simp only [List.mem_toFinset]
    exact h2' k

theorem take_levels (R : ℚ → ℚ → Prop) (K : List (ℚ × ℚ))
    (hK : (K.map Prod.fst).Pairwise R) (n : Nat) :
    ((K.take n).map Prod.fst).Pairwise R ∧
    (∀ x ∈ K.map Prod.fst, x ∉ (K.take n).map Prod.fst → ∀ lv ∈ K.take n, R lv.1 x) := by
  have hsplit : K.map Prod.fst = (K.take n).map Prod.fst ++ (K.drop n).map Prod.fst := by
    rw [← List.map_append, List.take_append_drop]
  rw [hsplit, List.pairwise_append] at hK
  refine ⟨hK.1, ?_⟩
  intro x hx hnot lv hlv
  rw [hsplit, List.mem_append] at hx
  rcases hx with hx | hx
  · exact absurd hx hnot
  · exact hK.2.2 lv.1 (List.mem_map_of_mem _ hlv) x hx

theorem head_take {K : List (ℚ × ℚ)} {n : Nat} {lv : ℚ × ℚ}
    (h : (K.take n).head? = some lv) : K.head? = some lv := by
  cases n with
  | zero => simp at h
  | succ n =>
    cases K with
    | nil => simp at h
    | cons a K => simpa using h

theorem head_extreme (R : ℚ → ℚ → Prop) (K : List (ℚ × ℚ))
    (hK : (K.map Prod.fst).Pairwise R) (lv : ℚ × ℚ) (h : K.head? = some lv) :
    lv ∈ K ∧ ∀ x ∈ K.map Prod.fst, x = lv.1 ∨ R lv.1 x := by
  cases K with
  | nil => simp at h
  | cons a K =>
    simp only [List.head?_cons, Option.some.injEq] at h
    subst h
    rw [List.map_cons, List.pairwise_cons] at hK
    refine ⟨List.mem_cons_self _ _, ?_⟩
    intro x hx
    rcases List.mem_cons.1 hx with e | e
    · exact Or.inl e
    · exact Or.inr (hK.1 x e)

/-- Claim C10. On every book built by a call sequence and for every depth `n ≥ 0`,
`getBidLevels(n)` has `min(n, number of distinct resting buy prices)` entries, with
strictly descending prices; every entry is a resting buy price paired with the sum of
the remaining quantities of the resting buy orders at that price; every resting buy
price that is not listed is below all listed ones; the first entry's price is
`getBestBid`. `getAskLevels(n)` is the same over the sell orders with strictly
ascending prices, unlisted prices above the listed ones, and first price
`getBestAsk`. -/
theorem depth_levels (cs : List Call) (st : OrderBook) (trades : List Trade)
    (hrun : run cs (OrderBook.empty, []) = some (st, trades)) (n : Nat) :
    ((getBidLevels st n).length = min n (queuePrices st.mem st.buy_orders_).dedup.length ∧
      ((getBidLevels st n).map Prod.fst).Pairwise (fun a b => b < a) ∧
      (∀ lv ∈ getBidLevels st n, lv.1 ∈ queuePrices st.mem st.buy_orders_ ∧
        lv.2 = levelQty st.mem st.buy_orders_ lv.1) ∧
      (∀ x ∈ queuePrices st.mem st.buy_orders_, x ∉ (getBidLevels st n).map Prod.fst →
        ∀ lv ∈ getBidLevels st n, x < lv.1) ∧
      (∀ lv, (getBidLevels st n).head? = some lv → lv.1 = getBestBid st)) ∧
    ((getAskLevels st n).length = min n (queuePrices st.mem st.sell_orders_).dedup.length ∧
      ((getAskLevels st n).map Prod.fst).Pairwise (fun a b => a < b) ∧
      (∀ lv ∈ getAskLevels st n, lv.1 ∈ queuePrices st.mem st.sell_orders_ ∧
        lv.2 = levelQty st.mem st.sell_orders_ lv.1) ∧
      (∀ x ∈ queuePrices st.mem st.sell_orders_, x ∉ (getAskLevels st n).map Prod.fst →
        ∀ lv ∈ getAskLevels st n, lv.1 < x) ∧
      (∀ lv, (getAskLevels st n).head? = some lv → lv.1 = getBestAsk st)) := by
  have hwf : WF st := reachable_WF hrun
  constructor
  · obtain ⟨h1, h2, h3, h4⟩ := priceLevels_nil_spec st.mem st.buy_orders_
    have hrev : ((priceLevels st.mem st.buy_orders_ []).reverse.map Prod.fst).Pairwise
        (fun a b => b < a) := by
      rw [List.map_reverse, List.pairwise_reverse]
      exact h1
    obtain ⟨t1, t2⟩ := take_levels (fun a b => b < a) _ hrev n
    have hin : ∀ lv ∈ getBidLevels st n, lv ∈ priceLevels st.mem st.buy_orders_ [] :=
      fun lv hlv => List.mem_reverse.1 (List.mem_of_mem_take hlv)
    refine ⟨?_, t1, ?_, ?_, ?_⟩
    · simp [getBidLevels, h4]
    · intro lv hlv
      exact ⟨(h2 lv.1).1 (List.mem_map_of_mem _ (hin lv hlv)), h3 lv (hin lv hlv)⟩
    · intro x hx hnot lv hlv
      refine t2 x ?_ hnot lv hlv
      rw [List.map_reverse, List.mem_reverse]
      exact (h2 x).2 hx
    · intro lv hlv
      obtain ⟨hmem, hmax⟩ := head_extreme _ _ hrev lv (head_take hlv)
      have hlvq := (h2 lv.1).1 (List.mem_map_of_mem _ (List.mem_reverse.1 hmem))
      cases hq : st.buy_orders_ with
      | nil => simp [queuePrices, hq] at hlvq
      | cons b bs =>
        have hbest : getBestBid st = (deref st.mem b).price := by simp [getBestBid, hq]
        rw [hbest]
        apply le_antisymm
        · simp only [queuePrices, List.mem_map] at hlvq
          obtain ⟨x, hx, e⟩ := hlvq
          rw [← e]
          exact hwf.buy_head_max hq x hx
        · have hb : (deref st.mem b).price ∈
              (priceLevels st.mem st.buy_orders_ []).reverse.map Prod.fst := by
            rw [List.map_reverse, List.mem_reverse, h2]
            simp [queuePrices, hq]
          rcases hmax _ hb with e | e
          · exact e.le
          · exact e.le
  · obtain ⟨h1, h2, h3, h4⟩ := priceLevels_nil_spec st.mem st.sell_orders_
    obtain ⟨t1, t2⟩ := take_levels (fun a b => a < b) _ h1 n
    have hin : ∀ lv ∈ getAskLevels st n, lv ∈ priceLevels st.mem st.sell_orders_ [] :=
      fun lv hlv => List.mem_of_mem_take hlv
    refine ⟨?_, t1, ?_, ?_, ?_⟩
    · simp [getAskLevels, h4]
    · intro lv hlv
      exact ⟨(h2 lv.1).1 (List.mem_map_of_mem _ (hin lv hlv)), h3 lv (hin lv hlv)⟩
    · intro x hx hnot lv hlv
      exact t2 x ((h2 x).2 hx) hnot lv hlv
    · intro lv hlv
      obtain ⟨hmem, hmin⟩ := head_extreme _ _ h1 lv (head_take hlv)
      have hlvq := (h2 lv.1).1 (List.mem_map_of_mem _ hmem)
      cases hq : st.sell_orders_ with
      | nil => simp [queuePrices, hq] at hlvq
      | cons s ss =>
        have hbest : getBestAsk st = (deref st.mem s).price := by simp [getBestAsk, hq]
        rw [hbest]
        apply le_antisymm
        · have hs : (deref st.mem s).price ∈
              (priceLevels st.mem st.sell_orders_ []).map Prod.fst := by
            rw [h2]
            simp [queuePrices, hq]
          rcases hmin _ hs with e | e
          · exact e.ge
          · exact e.le
        · simp only [queuePrices, List.mem_map] at hlvq
          obtain ⟨x, hx, e⟩ := hlvq
          rw [← e]
          exact hwf.sell_head_min hq x hx

/-- The price-time example before matching (buys `A`, `B` 100@150, sell `C` 150@150)
is built by a call sequence; its bid view is the single level 150 with quantity 200,
its ask view the single level 150 with quantity 150. -/
theorem depth_levels_witness :
    run [Call.addOrder exA2, Call.addOrder exB2, Call.addOrder exC2]
      (OrderBook.empty, []) = some (exBook3, []) ∧
    getBidLevels exBook3 2 = [(150, 200)] ∧ getAskLevels exBook3 2 = [(150, 150)] ∧
    (getBidLevels exBook3 (2 : Nat)).length =
      min 2 (queuePrices exBook3.mem exBook3.buy_orders_).dedup.length ∧
    (∀ lv, (getBidLevels exBook3 (2 : Nat)).head? = some lv → lv.1 = getBestBid exBook3) :=
  ⟨rfl, by decide!, by decide!,
    (depth_levels [Call.addOrder exA2, Call.addOrder exB2, Call.addOrder exC2] exBook3 []
      rfl 2).1.1,
    (depth_levels [Call.addOrder exA2, Call.addOrder exB2, Call.addOrder exC2] exBook3 []
      rfl 2).1.2.2.2.2⟩

/-! ## Limit prices and trade quantities -/

/-- Claim C36, the failing inputs. After `addOrder(A)` and `addOrder(D)`, two buy orders
with the same price and timestamp, the id-index holds A and D but the buy queue holds
only A: D is indexed and in no queue. After `addOrder(A)` and `addOrder(E)`, two buy
orders with the same id, both are queued but the id-index maps the id to E only: the
queued order A is not the one the index maps its id to. -/
theorem index_queue_mismatch :
    (submit (submit OrderBook.empty exA) exD).order_map_ = [("A", 0), ("D", 1)] ∧
    (submit (submit OrderBook.empty exA) exD).buy_orders_ = [0] ∧
    (submit (submit OrderBook.empty exA) exD).sell_orders_ = [] ∧
    (submit (submit OrderBook.empty exA) exE).order_map_ = [("A", 1)] ∧
    (submit (submit OrderBook.empty exA) exE).buy_orders_ = [1, 0] ∧
    (deref (submit (submit OrderBook.empty exA) exE).mem 0).id = "A" ∧
    mapFind (submit (submit OrderBook.empty exA) exE).order_map_ "A" = some 1 := by
  decide!

end orderbook

namespace options

variable {α : Type} [LinearOrderedField α]

/-! ## C13, C16: the price and the Greeks at or after expiry -/

theorem stdMax_eq_max (a b : α) : stdMax a b = max a b := by
  unfold stdMax
  rcases lt_or_le a b with h | h
  · rw [if_pos h, max_eq_right h.le]
  · rw [if_neg (not_lt.2 h), max_eq_left h]

theorem zero_lit : (0.0 : α) = 0 := by norm_num

theorem one_lit : (1.0 : α) = 1 := by norm_num

/-- The value of `calculatePrice` on its first branch. -/
theorem calculatePrice_expired (m : Libm α) (params : OptionParams α)
    (h : params.time_to_expiry ≤ 0) :
    calculatePrice m params =
      if params.is_call then max (params.spot_price - params.strike_price) 0
      else max (params.strike_price - params.spot_price) 0 := by
  unfold calculatePrice
  rw [if_pos h]
  simp only [stdMax_eq_max, zero_lit, max_comm]

/-- The value of `calculatePrice` on its second branch. -/
theorem calculatePrice_live (m : Libm α) (params : OptionParams α)
    (h : 0 < params.time_to_expiry) :
    calculatePrice m params =
      if params.is_call then
        params.spot_price * normalCDF m (d1 m params) -
          params.strike_price * m.exp (-params.risk_free_rate * params.time_to_expiry) *
            normalCDF m (d2 m params)
      else
        params.strike_price * m.exp (-params.risk_free_rate * params.time_to_expiry) *
            normalCDF m (-d2 m params) -
          params.spot_price * normalCDF m (-d1 m params) := by
  unfold calculatePrice
  rw [if_neg (not_le.2 h)]

/-- Claim C13. For every parameter set with `time_to_expiry ≤ 0`, `calculatePrice`
returns exactly `max(S - K, 0)` for a call and `max(K - S, 0)` for a put; the result is
not negative, and it is the same for every rate, every volatility and every `<cmath>`. -/
theorem price_at_expiry (m : Libm α) (params : OptionParams α)
    (h : params.time_to_expiry ≤ 0) :
    calculatePrice m params =
      (if params.is_call then max (params.spot_price - params.strike_price) 0
       else max (params.strike_price - params.spot_price) 0) ∧
    0 ≤ calculatePrice m params ∧
    ∀ (m1 : Libm α) (rate vol : α),
      calculatePrice m1 { params with risk_free_rate := rate, volatility := vol } =
        calculatePrice m params := by
  have e := calculatePrice_expired m params h
  refine ⟨e, ?_, ?_⟩
  · rw [e]
    split <;> exact le_max_right _ _
  · intro m1 rate vol
    rw [e]
    exact calculatePrice_expired m1
      { params with risk_free_rate := rate, volatility := vol } h

/-- The value of `calculateGreeks` on its first branch. -/
theorem calculateGreeks_expired (m : Libm α) (params : OptionParams α)
    (h : params.time_to_expiry ≤ 0) :
    calculateGreeks m params =
      { delta :=
          if params.is_call then (if params.strike_price < params.spot_price then 1 else 0)
          else (if params.spot_price < params.strike_price then -1 else 0),
        gamma := 0, theta := 0, vega := 0, rho := 0 } := by
  unfold calculateGreeks
  rw [if_pos h]
  cases hc : params.is_call <;> simp [zero_lit, one_lit]

/-- The parameter set of the expiry example: a call, spot 110, strike 100, rate 0.05,
volatility 0.2, at expiry. -/
theorem price_at_expiry_witness :
    (0 : ℝ) ≤ 0 ∧
    calculatePrice realLibm ⟨110, 100, 0, 0.05, 0.2, true⟩ = max (110 - 100) 0 ∧
    0 ≤ calculatePrice realLibm ⟨110, 100, 0, 0.05, 0.2, true⟩ :=
  ⟨le_refl 0,
    (price_at_expiry realLibm ⟨110, 100, 0, 0.05, 0.2, true⟩ (le_refl (0 : ℝ))).1,
    (price_at_expiry realLibm ⟨110, 100, 0, 0.05, 0.2, true⟩ (le_refl (0 : ℝ))).2.1⟩

/-- Claim C16 fails as stated. With `time_to_expiry = -1`, and with volatility 0.2 or
-0.2, `calculatePrice` returns the intrinsic value 10 of the call (spot 110, strike 100)
and `calculateGreeks` returns delta 1 and the other Greeks 0: a price and Greeks, no
error. -/
theorem invalid_params_accepted :
    calculatePrice realLibm ⟨110, 100, -1, 0.05, 0.2, true⟩ = 10 ∧
    calculatePrice realLibm ⟨110, 100, -1, 0.05, -0.2, true⟩ = 10 ∧
    calculateGreeks realLibm ⟨110, 100, -1, 0.05, -0.2, true⟩ =
      { delta := 1, gamma := 0, theta := 0, vega := 0, rho := 0 } := by
  have h : (-1 : ℝ) ≤ 0 := by norm_num
  refine ⟨?_, ?_, ?_⟩
  · rw [calculatePrice_expired realLibm ⟨110, 100, -1, 0.05, 0.2, true⟩ h]
    norm_num
  · rw [calculatePrice_expired realLibm ⟨110, 100, -1, 0.05, -0.2, true⟩ h]
    norm_num
  · rw [calculateGreeks_expired realLibm ⟨110, 100, -1, 0.05, -0.2, true⟩ h]
    norm_num

/-- Claim C16, amended. `calculatePrice` and `calculateGreeks` do not validate their
parameters and have no error result. With `time_to_expiry ≤ 0`, so also when it is
negative, and whatever the volatility, they return the at-expiry values: the intrinsic
value, delta 1 for a call in the money, -1 for a put in the money and 0 otherwise, and
0 for gamma, theta, vega and rho. With `time_to_expiry > 0` the price is the
Black-Scholes expression in `d1` and `d2`, whatever the sign of the volatility. -/
theorem no_param_validation (m : Libm α) (params : OptionParams α) :
    (params.time_to_expiry ≤ 0 →
      calculatePrice m params =
        (if params.is_call then max (params.spot_price - params.strike_price) 0
         else max (params.strike_price - params.spot_price) 0) ∧
      calculateGreeks m params =
        { delta :=
            if params.is_call then
              (if params.strike_price < params.spot_price then 1 else 0)
            else (if params.spot_price < params.strike_price then -1 else 0),
          gamma := 0, theta := 0, vega := 0, rho := 0 }) ∧
    (0 < params.time_to_expiry →
      calculatePrice m params =
        if params.is_call then
          params.spot_price * normalCDF m (d1 m params) -
            params.strike_price *
              m.exp (-params.risk_free_rate * params.time_to_expiry) *
              normalCDF m (d2 m params)
        else
          params.strike_price * m.exp (-params.risk_free_rate * params.time_to_expiry) *
              normalCDF m (-d2 m params) -
            params.spot_price * normalCDF m (-d1 m params)) :=
  ⟨fun h => ⟨calculatePrice_expired m params h, calculateGreeks_expired m params h⟩,
    fun h => calculatePrice_live m params h⟩

/-! ## C11: put-call parity -/

theorem parity_of_symm (m : Libm α)
    (hphi : ∀ x, normalCDF m x + normalCDF m (-x) = 1) (S K T r sigma : α) (hT : 0 < T) :
    calculatePrice m ⟨S, K, T, r, sigma, true⟩ -
        calculatePrice m ⟨S, K, T, r, sigma, false⟩ =
      S - K * m.exp (-r * T) := by
  rw [calculatePrice_live m ⟨S, K, T, r, sigma, true⟩ hT,
    calculatePrice_live m ⟨S, K, T, r, sigma, false⟩ hT]
  have hd1 : d1 m ⟨S, K, T, r, sigma, false⟩ = d1 m ⟨S, K, T, r, sigma, true⟩ := rfl
  have hd2 : d2 m ⟨S, K, T, r, sigma, false⟩ = d2 m ⟨S, K, T, r, sigma, true⟩ := rfl
  simp only [if_true, Bool.false_eq_true, if_false, hd1, hd2]
  have h1 := hphi (d1 m ⟨S, K, T, r, sigma, true⟩)
  have h2 := hphi (d2 m ⟨S, K, T, r, sigma, true⟩)
  have e1 : normalCDF m (-d1 m ⟨S, K, T, r, sigma, true⟩) =
      1 - normalCDF m (d1 m ⟨S, K, T, r, sigma, true⟩) := by linarith
  have e2 : normalCDF m (-d2 m ⟨S, K, T, r, sigma, true⟩) =
      1 - normalCDF m (d2 m ⟨S, K, T, r, sigma, true⟩) := by linarith
  rw [e1, e2]
  ring

/-- Claim C11. For every `<cmath>` whose normal distribution function satisfies
`Φ(x) + Φ(-x) = 1`, every rate and every `T > 0` (whatever `S`, `K` and `σ`, so in
particular for `S, K, σ > 0`), the call price minus the put price is exactly
`S - K·exp(-r·T)`. -/
theorem put_call_parity (m : Libm α)
    (hphi : ∀ x, normalCDF m x + normalCDF m (-x) = 1) (S K T r sigma : α) (hT : 0 < T) :
    calculatePrice m ⟨S, K, T, r, sigma, true⟩ -
        calculatePrice m ⟨S, K, T, r, sigma, false⟩ =
      S - K * m.exp (-r * T) :=
  parity_of_symm m hphi S K T r sigma hT

section RealModel

/-! ## The normal distribution function over the reals -/

open MeasureTheory ProbabilityTheory

theorem realPhi_nonneg (x : ℝ) : 0 ≤ realPhi x :=
  ENNReal.toReal_nonneg

theorem realPhi_le_one (x : ℝ) : realPhi x ≤ 1 := by
  unfold realPhi
  have h : gaussianReal 0 1 (Set.Iic x) ≤ 1 := prob_le_one
  exact ENNReal.toReal_le_of_le_ofReal zero_le_one (by simpa using h)

theorem realPhi_neg (x : ℝ) : realPhi x + realPhi (-x) = 1 := by
  unfold realPhi
  have hmap : (gaussianReal 0 1).map (fun t => -1 * t) = gaussianReal 0 1 := by
    rw [gaussianReal_map_const_mul]
    congr 1
    · simp
    · ext
      simp
  have h1 : gaussianReal 0 1 (Set.Iic (-x)) = gaussianReal 0 1 (Set.Ici x) := by
    conv_lhs => rw [← hmap]
    rw [Measure.map_apply (by fun_prop) measurableSet_Iic]
    congr 1
    ext t
    simp only [Set.mem_preimage, Set.mem_Iic, Set.mem_Ici]
    constructor <;> intro h <;> linarith
  have hac : gaussianReal 0 1 ≪ volume :=
    gaussianReal_absolutelyContinuous 0 (by norm_num)
  have h2 : gaussianReal 0 1 (Set.Ici x) = gaussianReal 0 1 (Set.Ioi x) := by
    apply measure_congr
    exact hac.ae_le Ioi_ae_eq_Ici.symm
  have h3 : gaussianReal 0 1 (Set.Ioi x) = 1 - gaussianReal 0 1 (Set.Iic x) := by
    rw [← Set.compl_Iic, prob_compl_eq_one_sub measurableSet_Iic]
  rw [h1, h2, h3]
  have hle : gaussianReal 0 1 (Set.Iic x) ≤ 1 := prob_le_one
  rw [ENNReal.toReal_sub_of_le hle ENNReal.one_ne_top]
  simp

theorem normalCDF_real (x : ℝ) : normalCDF realLibm x = realPhi x := by
  have h2 : Real.sqrt 2 ≠ 0 := by positivity
  simp only [normalCDF, realLibm, realErf]
  have e : x / Real.sqrt 2.0 * Real.sqrt 2 = x := by
    norm_num
  rw [e]
  norm_num
  ring

theorem realPhi_eq_integral (y : ℝ) :
    realPhi y = ∫ t in Set.Iic y, gaussianPDFReal 0 1 t := by
  unfold realPhi
  rw [gaussianReal_apply_eq_integral 0 (by norm_num) (Set.Iic y)]
  exact ENNReal.toReal_ofReal
    (setIntegral_nonneg measurableSet_Iic (fun t _ => gaussianPDFReal_nonneg 0 1 t))

theorem gaussianPDFReal_shift (s d u : ℝ) :
    Real.exp (s * d + s ^ 2 / 2) * gaussianPDFReal 0 1 (u + s) =
      gaussianPDFReal 0 1 u * Real.exp (s * (d - u)) := by
  simp only [gaussianPDFReal_def, NNReal.coe_one, mul_one, sub_zero]
  rw [mul_left_comm, mul_assoc, ← Real.exp_add, ← Real.exp_add]
  congr 2
  ring

theorem normalCDF_real_symm (x : ℝ) :
    normalCDF realLibm x + normalCDF realLibm (-x) = 1 := by
  rw [normalCDF_real, normalCDF_real]
  exact realPhi_neg x

/-- Over the reals the hypothesis of `put_call_parity` holds, and at S = 100, K = 100,
T = 1, r = 0.05, σ = 0.2 the call price minus the put price is `100 - 100·exp(-0.05)`. -/
theorem put_call_parity_witness :
    ((∀ x, normalCDF realLibm x + normalCDF realLibm (-x) = 1) ∧ (0 : ℝ) < 1) ∧
    calculatePrice realLibm ⟨100, 100, 1, 0.05, 0.2, true⟩ -
        calculatePrice realLibm ⟨100, 100, 1, 0.05, 0.2, false⟩ =
      100 - 100 * realLibm.exp (-0.05 * 1) :=
  ⟨⟨normalCDF_real_symm, one_pos⟩,
    put_call_parity realLibm normalCDF_real_symm 100 100 1 0.05 0.2 one_pos⟩

end RealModel

/-! ## C14, C15: the bisection of `impliedVolatility` -/

theorem two_lit : (2.0 : α) = 2 := by norm_num

/-- The bracket is never left: a result of the loop lies strictly inside it. -/
theorem ivLoop_bracket (m : Libm α) (market_price : α) (params : OptionParams α)
    (tolerance : α) (n : Nat) (vol_low vol_high : α) (h : vol_low < vol_high) :
    vol_low < ivLoop m market_price params tolerance n vol_low vol_high
        ((vol_low + vol_high) / 2.0) ∧
      ivLoop m market_price params tolerance n vol_low vol_high
        ((vol_low + vol_high) / 2.0) < vol_high := by
  have hmid : vol_low < (vol_low + vol_high) / 2.0 ∧ (vol_low + vol_high) / 2.0 < vol_high := by
    rw [two_lit]
    constructor <;> linarith
  induction n generalizing vol_low vol_high with
  | zero => exact hmid
  | succ n ih =>
    simp only [ivLoop]
    split
    · exact hmid
    · split
      · have h1 := ih vol_low ((vol_low + vol_high) / 2.0) hmid.1
          (by rw [two_lit]; constructor <;> linarith [hmid.1])
        exact ⟨h1.1, lt_trans h1.2 hmid.2⟩
      · have h1 := ih ((vol_low + vol_high) / 2.0) vol_high hmid.2
          (by rw [two_lit]; constructor <;> linarith [hmid.2])
        exact ⟨lt_trans hmid.1 h1.1, h1.2⟩

theorem impliedVolatility_bounds (m : Libm α) (market_price : α) (params : OptionParams α)
    (tolerance : α) (max_iterations : Int) :
    0.01 < impliedVolatility m market_price params tolerance max_iterations ∧
      impliedVolatility m market_price params tolerance max_iterations < 5.0 :=
  ivLoop_bracket m market_price params tolerance _ 0.01 5.0 (by norm_num)

/-- With a positive tolerance and a price that does not decrease in the volatility over
the bracket, the bracket keeps a volatility `sigma` whose price is the market price,
and halves at every step taken. -/
theorem ivLoop_round_trip (m : Libm α) (params : OptionParams α) (tolerance sigma : α)
    (htol : 0 < tolerance) (lo hi : α)
    (hmono : ∀ a b, lo ≤ a → a ≤ b → b ≤ hi → priceAt m params a ≤ priceAt m params b)
    (n : Nat) (vol_low vol_high : α) (hlo : lo ≤ vol_low) (hhi : vol_high ≤ hi)
    (h1 : vol_low ≤ sigma) (h2 : sigma ≤ vol_high) (v : α)
    (hv : ivLoop m (priceAt m params sigma) params tolerance n vol_low vol_high
      ((vol_low + vol_high) / 2.0) = v) :
    |priceAt m params v - priceAt m params sigma| < tolerance ∨
      |v - sigma| ≤ (vol_high - vol_low) / 2 ^ (n + 1) := by
  induction n generalizing vol_low vol_high with
  | zero =>
    right
    simp only [ivLoop, two_lit] at hv
    rw [← hv, abs_le]
    constructor <;> norm_num <;> linarith
  | succ n ih =>
    simp only [ivLoop] at hv
    have hlm : vol_low ≤ (vol_low + vol_high) / 2.0 := by rw [two_lit]; linarith
    have hmh : (vol_low + vol_high) / 2.0 ≤ vol_high := by rw [two_lit]; linarith
    split at hv
    · rename_i hacc
      rw [← hv]
      exact Or.inl hacc
    · rename_i hacc
      have hacc1 : ¬ |priceAt m params ((vol_low + vol_high) / 2.0) -
          priceAt m params sigma| < tolerance := hacc
      split at hv
      · rename_i hpos
        have hpos1 : priceAt m params ((vol_low + vol_high) / 2.0) -
            priceAt m params sigma > 0 := hpos
        have hs : sigma ≤ (vol_low + vol_high) / 2.0 := by
          by_contra hc
          have := hmono _ _ (le_trans hlo hlm) (le_of_lt (not_le.1 hc)) (le_trans h2 hhi)
          linarith
        rcases ih vol_low ((vol_low + vol_high) / 2.0) hlo (le_trans hmh hhi) h1 hs hv
          with e | e
        · exact Or.inl e
        · right
          refine le_trans e (le_of_eq ?_)
          rw [two_lit, pow_succ]
          field_simp
          ring
      · rename_i hpos
        have hpos1 : ¬ priceAt m params ((vol_low + vol_high) / 2.0) -
            priceAt m params sigma > 0 := hpos
        have hs : (vol_low + vol_high) / 2.0 ≤ sigma := by
          by_contra hc
          have := hmono _ _ (le_trans hlo h1) (le_of_lt (not_le.1 hc)) (le_trans hmh hhi)
          have hd : priceAt m params ((vol_low + vol_high) / 2.0) -
              priceAt m params sigma = 0 := by linarith
          rw [hd, abs_zero] at hacc1
          exact hacc1 htol
        rcases ih ((vol_low + vol_high) / 2.0) vol_high (le_trans hlo hlm) hhi hs h2 hv
          with e | e
        · exact Or.inl e
        · right
          refine le_trans e (le_of_eq ?_)
          rw [two_lit, pow_succ]
          field_simp
          ring

theorem ivLoop_accept (m : Libm α) (market_price : α) (params : OptionParams α)
    (tolerance : α) (n : Nat) (vol_low vol_high vol_mid : α)
    (h : |priceAt m params vol_mid - market_price| < tolerance) :
    ivLoop m market_price params tolerance (n + 1) vol_low vol_high vol_mid = vol_mid := by
  simp only [ivLoop]
  rw [if_pos h]
section RealModel2

open MeasureTheory ProbabilityTheory

theorem continuous_gaussianPDFReal : Continuous (gaussianPDFReal 0 1) := by
  have : gaussianPDFReal 0 1 = fun x : ℝ =>
      (Real.sqrt (2 * Real.pi * (1 : NNReal)))⁻¹ * Real.exp (-(x - 0) ^ 2 / (2 * (1 : NNReal))) := by
    ext x
    rw [gaussianPDFReal_def]
  rw [this]
  fun_prop

theorem realPhi_sub (a b : ℝ) :
    realPhi b - realPhi a = ∫ t in a..b, gaussianPDFReal 0 1 t := by
  rw [realPhi_eq_integral, realPhi_eq_integral]
  exact intervalIntegral.integral_Iic_sub_Iic (integrable_gaussianPDFReal 0 1).integrableOn
    (integrable_gaussianPDFReal 0 1).integrableOn

theorem hasDerivAt_realPhi (y : ℝ) : HasDerivAt realPhi (gaussianPDFReal 0 1 y) y := by
  have h1 : HasDerivAt (fun u => ∫ t in (0 : ℝ)..u, gaussianPDFReal 0 1 t)
      (gaussianPDFReal 0 1 y) y :=
    intervalIntegral.integral_hasDerivAt_right
      (continuous_gaussianPDFReal.intervalIntegrable _ _)
      continuous_gaussianPDFReal.stronglyMeasurable.stronglyMeasurableAtFilter
      continuous_gaussianPDFReal.continuousAt
  have h2 : realPhi = fun u => realPhi 0 + ∫ t in (0 : ℝ)..u, gaussianPDFReal 0 1 t := by
    ext u
    rw [← realPhi_sub]
    ring
  rw [h2]
  exact h1.const_add _

/-- The Black-Scholes call value per unit of discounted strike, as a function of
`s = σ√T`, with `x = log(S/K) + rT`. -/
theorem hasDerivAt_unitCall (x s : ℝ) (hs : s ≠ 0) :
    HasDerivAt (fun s => Real.exp x * realPhi (x / s + s / 2) - realPhi (x / s - s / 2))
      (gaussianPDFReal 0 1 (x / s - s / 2)) s := by
  have hd1 : HasDerivAt (fun s : ℝ => x / s + s / 2) (-x / s ^ 2 + 1 / 2) s := by
    have h1 : HasDerivAt (fun s : ℝ => x / s) (-x / s ^ 2) s := by
      have := (hasDerivAt_inv hs).const_mul x
      simpa [div_eq_mul_inv, neg_div] using this
    have h2 : HasDerivAt (fun s : ℝ => s / 2) (1 / 2) s := by
      simpa using (hasDerivAt_id s).div_const 2
    exact h1.add h2
  have hd2 : HasDerivAt (fun s : ℝ => x / s - s / 2) (-x / s ^ 2 - 1 / 2) s := by
    have h1 : HasDerivAt (fun s : ℝ => x / s) (-x / s ^ 2) s := by
      have := (hasDerivAt_inv hs).const_mul x
      simpa [div_eq_mul_inv, neg_div] using this
    have h2 : HasDerivAt (fun s : ℝ => s / 2) (1 / 2) s := by
      simpa using (hasDerivAt_id s).div_const 2
    exact h1.sub h2
  have c1 := ((hasDerivAt_realPhi (x / s + s / 2)).comp s hd1).const_mul (Real.exp x)
  have c2 := (hasDerivAt_realPhi (x / s - s / 2)).comp s hd2
  have key := gaussianPDFReal_shift s (x / s - s / 2) (x / s - s / 2)
  have e1 : s * (x / s - s / 2) + s ^ 2 / 2 = x := by
    field_simp
    ring
  have e2 : x / s - s / 2 + s = x / s + s / 2 := by ring
  rw [e1, e2, sub_self, mul_zero, Real.exp_zero, mul_one] at key
  have := c1.sub c2
  convert this using 1
  rw [← mul_assoc, key]
  ring

theorem unitCall_monotoneOn (x : ℝ) :
    MonotoneOn (fun s => Real.exp x * realPhi (x / s + s / 2) - realPhi (x / s - s / 2))
      (Set.Ioi 0) := by
  apply monotoneOn_of_deriv_nonneg (convex_Ioi 0)
  · intro s hs
    exact (hasDerivAt_unitCall x s (ne_of_gt hs)).continuousAt.continuousWithinAt
  · rw [interior_Ioi]
    intro s hs
    exact (hasDerivAt_unitCall x s (ne_of_gt hs)).differentiableAt.differentiableWithinAt
  · rw [interior_Ioi]
    intro s hs
    rw [(hasDerivAt_unitCall x s (ne_of_gt hs)).deriv]
    exact gaussianPDFReal_nonneg 0 1 _

end RealModel2
section RealBisection

/-- Over the reals a call is worth at most the spot and at least minus the discounted
strike. -/
theorem call_bounds (S K T r sigma : ℝ) (hS : 0 ≤ S) (hK : 0 ≤ K) (hT : 0 < T) :
    -(K * Real.exp (-r * T)) ≤ calculatePrice realLibm ⟨S, K, T, r, sigma, true⟩ ∧
      calculatePrice realLibm ⟨S, K, T, r, sigma, true⟩ ≤ S := by
  rw [calculatePrice_live realLibm ⟨S, K, T, r, sigma, true⟩ hT]
  simp only [if_true, normalCDF_real]
  show -(K * Real.exp (-r * T)) ≤ S * _ - K * Real.exp (-r * T) * _ ∧
    S * _ - K * Real.exp (-r * T) * _ ≤ S
  have hD : 0 ≤ K * Real.exp (-r * T) := mul_nonneg hK (Real.exp_pos _).le
  have a1 := realPhi_le_one (d1 realLibm ⟨S, K, T, r, sigma, true⟩)
  have a2 := realPhi_nonneg (d1 realLibm ⟨S, K, T, r, sigma, true⟩)
  have a3 := realPhi_le_one (d2 realLibm ⟨S, K, T, r, sigma, true⟩)
  have a4 := realPhi_nonneg (d2 realLibm ⟨S, K, T, r, sigma, true⟩)
  constructor <;> nlinarith

/-- Claim C14 fails as stated. For S = K = 1e-7, T = 1, r = 0 (admissible) and
σ = 0.2 every call price lies between -1e-7 and 1e-7, so the first midpoint 2.505 is
within the tolerance 1e-6 of the market price and is returned: 2.305 away from σ. -/
theorem iv_round_trip_fails :
    impliedVolatility realLibm (calculatePrice realLibm ⟨1e-7, 1e-7, 1, 0, 0.2, true⟩)
      ⟨1e-7, 1e-7, 1, 0, 0.2, true⟩ defaultTolerance defaultMaxIterations = 2.505 ∧
    ¬ |(2.505 : ℝ) - 0.2| ≤ 1e-4 := by
  constructor
  · have hb : ∀ v : ℝ, |calculatePrice realLibm ⟨1e-7, 1e-7, 1, 0, v, true⟩| ≤ 1e-7 := by
      intro v
      have h := call_bounds 1e-7 1e-7 1 0 v (by norm_num) (by norm_num) one_pos
      have e : Real.exp (-0 * 1) = 1 := by norm_num
      rw [e, mul_one] at h
      exact abs_le.2 h
    have hacc : |priceAt realLibm ⟨1e-7, 1e-7, 1, 0, 0.2, true⟩ ((0.01 + 5.0) / 2.0) -
        calculatePrice realLibm ⟨1e-7, 1e-7, 1, 0, 0.2, true⟩| < defaultTolerance := by
      have h1 := abs_le.1 (hb ((0.01 + 5.0) / 2.0))
      have h2 := abs_le.1 (hb 0.2)
      have h1' : -1e-7 ≤ priceAt realLibm ⟨1e-7, 1e-7, 1, 0, 0.2, true⟩ ((0.01 + 5.0) / 2.0) ∧
          priceAt realLibm ⟨1e-7, 1e-7, 1, 0, 0.2, true⟩ ((0.01 + 5.0) / 2.0) ≤ 1e-7 := h1
      rw [abs_lt]
      simp only [defaultTolerance]
      constructor <;> norm_num at h1' h2 ⊢ <;> linarith [h1'.1, h1'.2, h2.1, h2.2]
    have hn : defaultMaxIterations.toNat = 99 + 1 := rfl
    unfold impliedVolatility
    rw [hn, ivLoop_accept realLibm _ _ _ 99 _ _ _ hacc]
    norm_num
  · norm_num [abs_of_pos]

end RealBisection
section RealRoundTrip

theorem call_eq_unit (S K T r sigma : ℝ) (hS : 0 < S) (hK : 0 < K) (hT : 0 < T)
    (hsigma : 0 < sigma) :
    calculatePrice realLibm ⟨S, K, T, r, sigma, true⟩ =
      K * Real.exp (-r * T) *
        (Real.exp (Real.log (S / K) + r * T) *
            realPhi ((Real.log (S / K) + r * T) / (sigma * Real.sqrt T) +
              sigma * Real.sqrt T / 2) -
          realPhi ((Real.log (S / K) + r * T) / (sigma * Real.sqrt T) -
            sigma * Real.sqrt T / 2)) := by
  have hsq : 0 < Real.sqrt T := Real.sqrt_pos.2 hT
  have hs : sigma * Real.sqrt T ≠ 0 := (mul_pos hsigma hsq).ne'
  have hTT : Real.sqrt T ^ 2 = T := Real.sq_sqrt hT.le
  have e1 : d1 realLibm ⟨S, K, T, r, sigma, true⟩ =
      (Real.log (S / K) + r * T) / (sigma * Real.sqrt T) + sigma * Real.sqrt T / 2 := by
    simp only [d1, realLibm]
    field_simp
    linear_combination (-(sigma ^ 3 * Real.sqrt T)) * hTT
  have e2 : d2 realLibm ⟨S, K, T, r, sigma, true⟩ =
      (Real.log (S / K) + r * T) / (sigma * Real.sqrt T) - sigma * Real.sqrt T / 2 := by
    have : d2 realLibm ⟨S, K, T, r, sigma, true⟩ =
        d1 realLibm ⟨S, K, T, r, sigma, true⟩ - sigma * Real.sqrt T := rfl
    rw [this, e1]
    ring
  have e3 : S = K * Real.exp (-r * T) * Real.exp (Real.log (S / K) + r * T) := by
    rw [Real.exp_add, Real.exp_log (div_pos hS hK), mul_assoc,
      mul_left_comm (Real.exp _), ← Real.exp_add]
    have : -r * T + r * T = 0 := by ring
    rw [this, Real.exp_zero]
    field_simp
  rw [calculatePrice_live realLibm ⟨S, K, T, r, sigma, true⟩ hT]
  simp only [if_true, normalCDF_real, e1, e2]
  show S * _ - K * Real.exp (-r * T) * _ = _
  nth_rewrite 1 [e3]
  ring

/-- Over the reals the price does not decrease in the volatility. -/
theorem priceAt_mono_real (S K T r sigma : ℝ) (c : Bool) (hS : 0 < S) (hK : 0 < K)
    (hT : 0 < T) (a b : ℝ) (ha : 0 < a) (hab : a ≤ b) :
    priceAt realLibm ⟨S, K, T, r, sigma, c⟩ a ≤ priceAt realLibm ⟨S, K, T, r, sigma, c⟩ b := by
  have hb : 0 < b := lt_of_lt_of_le ha hab
  have hsq : 0 < Real.sqrt T := Real.sqrt_pos.2 hT
  have hcall : calculatePrice realLibm ⟨S, K, T, r, a, true⟩ ≤
      calculatePrice realLibm ⟨S, K, T, r, b, true⟩ := by
    rw [call_eq_unit S K T r a hS hK hT ha, call_eq_unit S K T r b hS hK hT hb]
    apply mul_le_mul_of_nonneg_left _ (mul_pos hK (Real.exp_pos _)).le
    exact unitCall_monotoneOn (Real.log (S / K) + r * T) (mul_pos ha hsq) (mul_pos hb hsq)
      (mul_le_mul_of_nonneg_right hab hsq.le)
  cases c
  · have pa := parity_of_symm realLibm normalCDF_real_symm S K T r a hT
    have pb := parity_of_symm realLibm normalCDF_real_symm S K T r b hT
    show calculatePrice realLibm ⟨S, K, T, r, a, false⟩ ≤
      calculatePrice realLibm ⟨S, K, T, r, b, false⟩
    linarith
  · exact hcall

/-- Claim C14, amended. Over the reals, for S > 0, K > 0, T > 0, every rate, every σ in
[0.01, 5] and every positive tolerance, `impliedVolatility` applied to the price at σ
returns a volatility `v` strictly between 0.01 and 5 whose price is within the
tolerance of the market price, or else (no midpoint met the tolerance) `v` within
`4.99/2^(max_iterations + 1)` of σ, which for 100 iterations is far below 1e-4. The
volatility `v` itself need not be near σ when its price is within the tolerance. -/
theorem iv_round_trip (S K T r sigma tolerance : ℝ) (c : Bool) (max_iterations : Int)
    (hS : 0 < S) (hK : 0 < K) (hT : 0 < T) (h1 : 0.01 ≤ sigma) (h2 : sigma ≤ 5)
    (htol : 0 < tolerance) (v : ℝ)
    (hv : impliedVolatility realLibm (calculatePrice realLibm ⟨S, K, T, r, sigma, c⟩)
      ⟨S, K, T, r, sigma, c⟩ tolerance max_iterations = v) :
    0.01 < v ∧ v < 5 ∧
    (|calculatePrice realLibm ⟨S, K, T, r, v, c⟩ -
          calculatePrice realLibm ⟨S, K, T, r, sigma, c⟩| < tolerance ∨
      |v - sigma| ≤ 4.99 / 2 ^ (max_iterations.toNat + 1)) ∧
    (100 ≤ max_iterations →
      |calculatePrice realLibm ⟨S, K, T, r, v, c⟩ -
          calculatePrice realLibm ⟨S, K, T, r, sigma, c⟩| < tolerance ∨
      |v - sigma| ≤ 1e-4) := by
  have hb := impliedVolatility_bounds realLibm
    (calculatePrice realLibm ⟨S, K, T, r, sigma, c⟩) ⟨S, K, T, r, sigma, c⟩ tolerance
    max_iterations
  rw [hv] at hb
  have hrt := ivLoop_round_trip realLibm ⟨S, K, T, r, sigma, c⟩ tolerance sigma htol
    0.01 5.0
    (fun a b ha hab _ =>
      priceAt_mono_real S K T r sigma c hS hK hT a b (by linarith [show (0:ℝ) < 0.01 by norm_num])
        hab)
    max_iterations.toNat 0.01 5.0 (le_refl _) (le_refl _) h1 (by norm_num; exact h2) v hv
  have hrt' : |calculatePrice realLibm ⟨S, K, T, r, v, c⟩ -
        calculatePrice realLibm ⟨S, K, T, r, sigma, c⟩| < tolerance ∨
      |v - sigma| ≤ 4.99 / 2 ^ (max_iterations.toNat + 1) := by
    rcases hrt with e | e
    · exact Or.inl e
    · right
      refine le_trans e (le_of_eq ?_)
      norm_num
  refine ⟨hb.1, by have := hb.2; norm_num at this; exact this, hrt', ?_⟩
  intro hn
  rcases hrt' with e | e
  · exact Or.inl e
  · right
    refine le_trans e ?_
    have hk : 100 ≤ max_iterations.toNat := by omega
    have h2pow : (2 : ℝ) ^ (100 + 1) ≤ 2 ^ (max_iterations.toNat + 1) :=
      pow_le_pow_right₀ (by norm_num) (by omega)
    have hpos : (0 : ℝ) < 2 ^ (100 + 1) := by positivity
    calc (4.99 : ℝ) / 2 ^ (max_iterations.toNat + 1)
        ≤ 4.99 / 2 ^ (100 + 1) := by
          apply div_le_div_of_nonneg_left (by norm_num) hpos h2pow
      _ ≤ 1e-4 := by norm_num

/-- The parameters of the parity example (S = 100, K = 100, T = 1, r = 0.05, σ = 0.2)
with the default tolerance and iteration count satisfy the hypotheses of
`iv_round_trip`. -/
theorem iv_round_trip_witness :
    ((0 : ℝ) < 100 ∧ (0 : ℝ) < 1 ∧ (0.01 : ℝ) ≤ 0.2 ∧ (0.2 : ℝ) ≤ 5 ∧ (0 : ℝ) < 1e-6) ∧
    (|calculatePrice realLibm ⟨100, 100, 1, 0.05,
          impliedVolatility realLibm (calculatePrice realLibm ⟨100, 100, 1, 0.05, 0.2, true⟩)
            ⟨100, 100, 1, 0.05, 0.2, true⟩ 1e-6 100, true⟩ -
          calculatePrice realLibm ⟨100, 100, 1, 0.05, 0.2, true⟩| < 1e-6 ∨
      |impliedVolatility realLibm (calculatePrice realLibm ⟨100, 100, 1, 0.05, 0.2, true⟩)
          ⟨100, 100, 1, 0.05, 0.2, true⟩ 1e-6 100 - 0.2| ≤ 1e-4) :=
  ⟨⟨by norm_num, by norm_num, by norm_num, by norm_num, by norm_num⟩,
    (iv_round_trip 100 100 1 0.05 0.2 1e-6 true 100 (by norm_num) (by norm_num)
      (by norm_num) (by norm_num) (by norm_num) (by norm_num) _ rfl).2.2.2 (le_refl _)⟩

end RealRoundTrip

/-! ## The Monte Carlo estimator (`priceOption`) -/

theorem foldl_add_eq_sum (f : α → α) (xs : List α) (a : α) :
    xs.foldl (fun acc x => acc + f x) a = a + (xs.map f).sum := by
  induction xs generalizing a with
  | nil => simp
  | cons x xs ih => simp [List.foldl_cons, ih, add_assoc]

theorem simulatePath_eq (m : Libm α) (draws : Nat → α) (dt drift volatility : α)
    (steps k : Nat) (price : α) :
    simulatePath m draws dt drift volatility steps k price =
      (price * ((List.range steps).map (fun j =>
          m.exp (drift * dt + volatility * (draws (k + j) * m.sqrt dt)))).prod,
        k + steps) := by
  induction steps generalizing k price with
  | zero => simp [simulatePath]
  | succ n ih =>
    rw [simulatePath, ih, List.range_succ_eq_map, List.map_cons, List.prod_cons,
      List.map_map]
    have hf : ((fun j => m.exp (drift * dt + volatility * (draws (k + j) * m.sqrt dt))) ∘
        Nat.succ) = fun j => m.exp (drift * dt + volatility * (draws (k + 1 + j) * m.sqrt dt)) := by
      funext j
      simp only [Function.comp, Nat.succ_eq_add_one]
      rw [show k + (j + 1) = k + 1 + j by omega]
    rw [hf]
    refine Prod.ext ?_ ?_
    · simp only [Nat.add_zero]
      ring
    · show k + 1 + n = k + (n + 1)
      omega

theorem calculatePayoff_eq (final_price strike_price : α) (is_call : Bool) :
    calculatePayoff final_price strike_price is_call =
      if is_call then max (final_price - strike_price) 0
      else max (strike_price - final_price) 0 := by
  unfold calculatePayoff
  rw [stdMax_eq_max, stdMax_eq_max, zero_lit, max_comm 0, max_comm 0]

theorem simulatePayoffs_eq (m : Libm α) (draws : Nat → α) (params : MonteCarloParams α)
    (sims k : Nat) (payoffs : List α) :
    simulatePayoffs m draws params (params.time_to_expiry / (params.num_steps : α))
        (params.risk_free_rate - 0.5 * params.volatility * params.volatility) sims
        (k * params.num_steps.toNat) payoffs =
      payoffs ++ (List.range sims).map (fun i =>
        if params.is_call then
          max (specTerminalPrice m draws params (k + i) - params.strike_price) 0
        else max (params.strike_price - specTerminalPrice m draws params (k + i)) 0) := by
  induction sims generalizing k payoffs with
  | zero => simp [simulatePayoffs]
  | succ n ih =>
    rw [simulatePayoffs, simulatePath_eq]
    simp only []
    rw [show k * params.num_steps.toNat + params.num_steps.toNat =
      (k + 1) * params.num_steps.toNat by ring, ih (k + 1), List.range_succ_eq_map,
      List.map_cons, List.map_map, List.append_assoc, calculatePayoff_eq]
    congr 1
    simp only [List.singleton_append, Nat.add_zero]
    congr 1
    apply List.map_congr_left
    intro i _
    simp only [Function.comp, Nat.succ_eq_add_one]
    rw [show k + 1 + i = k + (i + 1) by omega]

theorem payoffs_eq_spec (m : Libm α) (draws : Nat → α) (params : MonteCarloParams α) :
    simulatePayoffs m draws params (params.time_to_expiry / (params.num_steps : α))
        (params.risk_free_rate - 0.5 * params.volatility * params.volatility)
        params.num_simulations.toNat 0 [] = specPayoffs m draws params := by
  have h := simulatePayoffs_eq m draws params params.num_simulations.toNat 0 []
  rw [Nat.zero_mul] at h
  rw [h, List.nil_append]
  unfold specPayoffs
  apply List.map_congr_left
  intro i _
  rw [Nat.zero_add]

theorem specPayoffs_length (m : Libm α) (draws : Nat → α) (params : MonteCarloParams α) :
    (specPayoffs m draws params).length = params.num_simulations.toNat := by
  simp [specPayoffs]

theorem specPayoffs_nonneg (m : Libm α) (draws : Nat → α) (params : MonteCarloParams α) :
    ∀ x ∈ specPayoffs m draws params, 0 ≤ x := by
  intro x hx
  unfold specPayoffs at hx
  rw [List.mem_map] at hx
  obtain ⟨i, _, rfl⟩ := hx
  split
  · exact le_max_right _ _
  · exact le_max_right _ _

/-- Claim C17. With the stream of normal draws given, for every `num_simulations ≥ 2`
`priceOption` returns `option_price = exp(-rT)` times the mean of the `N` payoffs,
`standard_error = exp(-rT)` times the square root of the sample variance (divisor
`N - 1`) divided by `N`, and the bounds `option_price ∓ 1.96 standard_error`; there are
`N` payoffs; and with `exp` and `sqrt` nowhere negative, `option_price ≥ 0` and
`ci_lower ≤ option_price ≤ ci_upper`. -/
theorem priceOption_estimator (m : Libm α) (draws : Nat → α) (params : MonteCarloParams α)
    (hN : 2 ≤ params.num_simulations) (hexp : ∀ x, 0 ≤ m.exp x)
    (hsqrt : ∀ x, 0 ≤ m.sqrt x) :
    (specPayoffs m draws params).length = params.num_simulations.toNat ∧
    (priceOption m draws params).option_price =
      m.exp (-params.risk_free_rate * params.time_to_expiry) *
        specMean (specPayoffs m draws params) ∧
    (priceOption m draws params).standard_error =
      m.exp (-params.risk_free_rate * params.time_to_expiry) *
        m.sqrt (specSampleVariance (specPayoffs m draws params) /
          (params.num_simulations : α)) ∧
    (priceOption m draws params).confidence_interval_lower =
      (priceOption m draws params).option_price -
        1.96 * (priceOption m draws params).standard_error ∧
    (priceOption m draws params).confidence_interval_upper =
      (priceOption m draws params).option_price +
        1.96 * (priceOption m draws params).standard_error ∧
    0 ≤ (priceOption m draws params).option_price ∧
    (priceOption m draws params).confidence_interval_lower ≤
      (priceOption m draws params).option_price ∧
    (priceOption m draws params).option_price ≤
      (priceOption m draws params).confidence_interval_upper := by
  have hlen := specPayoffs_length m draws params
  have hcast : ((specPayoffs m draws params).length : α) = (params.num_simulations : α) := by
    rw [hlen]
    have : ((params.num_simulations.toNat : Int) : α) = (params.num_simulations : α) := by
      rw [Int.toNat_of_nonneg (by omega)]
    rw [← this, Int.cast_natCast]
  have hNpos : (0 : α) < (params.num_simulations : α) := by
    have : (0 : Int) < params.num_simulations := by omega
    exact_mod_cast this
  have hmean : (specPayoffs m draws params).foldl (fun acc x => acc + x) 0.0 /
      (params.num_simulations : α) = specMean (specPayoffs m draws params) := by
    have h := foldl_add_eq_sum (fun x : α => x) (specPayoffs m draws params) 0.0
    have hid : (specPayoffs m draws params).map (fun x : α => x) =
        specPayoffs m draws params := List.map_id _
    rw [hid] at h
    rw [h, zero_lit, zero_add, specMean, hcast]
  have hprice : (priceOption m draws params).option_price =
      m.exp (-params.risk_free_rate * params.time_to_expiry) *
        specMean (specPayoffs m draws params) := by
    simp only [priceOption]
    rw [payoffs_eq_spec, hmean, mul_comm]
  have hse : (priceOption m draws params).standard_error =
      m.exp (-params.risk_free_rate * params.time_to_expiry) *
        m.sqrt (specSampleVariance (specPayoffs m draws params) /
          (params.num_simulations : α)) := by
    simp only [priceOption]
    rw [payoffs_eq_spec, hmean, mul_comm]
    congr 3
    have h := foldl_add_eq_sum
      (fun x : α => (x - specMean (specPayoffs m draws params)) *
        (x - specMean (specPayoffs m draws params))) (specPayoffs m draws params) 0.0
    rw [h, zero_lit, zero_add, specSampleVariance, hcast]
    congr 1
    · congr 1
      apply List.map_congr_left
      intro x _
      ring
    · push_cast
      ring
  have hse0 : 0 ≤ (priceOption m draws params).standard_error := by
    rw [hse]
    exact mul_nonneg (hexp _) (hsqrt _)
  have hsum : 0 ≤ (specPayoffs m draws params).sum :=
    List.sum_nonneg (specPayoffs_nonneg m draws params)
  have hp0 : 0 ≤ (priceOption m draws params).option_price := by
    rw [hprice]
    apply mul_nonneg (hexp _)
    unfold specMean
    rw [hcast]
    exact div_nonneg hsum hNpos.le
  have hlo : (priceOption m draws params).confidence_interval_lower =
      (priceOption m draws params).option_price -
        1.96 * (priceOption m draws params).standard_error := rfl
  have hhi : (priceOption m draws params).confidence_interval_upper =
      (priceOption m draws params).option_price +
        1.96 * (priceOption m draws params).standard_error := rfl
  have hm : 0 ≤ (1.96 : α) * (priceOption m draws params).standard_error :=
    mul_nonneg (by norm_num) hse0
  refine ⟨hlen, hprice, hse, hlo, hhi, hp0, ?_, ?_⟩
  · rw [hlo]
    linarith
  · rw [hhi]
    linarith

/-- Two one-step paths with all draws zero satisfy the hypotheses of
`priceOption_estimator` over the reals. -/
theorem priceOption_estimator_witness :
    (2 : Int) ≤ 2 ∧ (∀ x, 0 ≤ realLibm.exp x) ∧ (∀ x, 0 ≤ realLibm.sqrt x) ∧
    0 ≤ (priceOption realLibm (fun _ => 0) ⟨100, 100, 1, 0.05, 0.2, true, 2, 1⟩).option_price :=
  ⟨le_refl _, fun x => (Real.exp_pos x).le, fun x => Real.sqrt_nonneg x,
    (priceOption_estimator realLibm (fun _ => 0) ⟨100, 100, 1, 0.05, 0.2, true, 2, 1⟩
      (le_refl _) (fun x => (Real.exp_pos x).le) (fun x => Real.sqrt_nonneg x)).2.2.2.2.2.1⟩

/-! ## The exits of the bisection loop -/

end options

namespace risk

variable {α : Type} [LinearOrderedField α]

/-! ## The index of the quantile -/

theorem truncToInt_mono [FloorRing α] {x y : α} (h : x ≤ y) :
    options.truncToInt x ≤ options.truncToInt y := by
  unfold options.truncToInt
  by_cases hx : 0 ≤ x
  · rw [if_pos hx, if_pos (le_trans hx h)]
    exact Int.floor_le_floor h
  · rw [if_neg hx]
    by_cases hy : 0 ≤ y
    · rw [if_pos hy]
      have h1 : ⌈x⌉ ≤ 0 := by
        rw [Int.ceil_le]
        exact_mod_cast (not_le.1 hx).le
      exact le_trans h1 (Int.floor_nonneg.2 hy)
    · rw [if_neg hy]
      exact Int.ceil_le_ceil h

theorem clamp_mono {s t : Int} (M : Int) (h : s ≤ t) :
    max 0 (min s M) ≤ max 0 (min t M) := by
  omega

theorem clamp_toNat_lt (t : Int) (n : Nat) (hn : 0 < n) :
    (max 0 (min t ((n : Int) - 1))).toNat < n := by
  omega

/-! ## The ascending rearrangement -/

theorem sorted_insertionSort_le (l : List α) :
    (l.insertionSort (fun a b => a ≤ b)).Sorted (fun a b => a ≤ b) :=
  List.sorted_insertionSort (fun a b : α => a ≤ b) l

theorem sorted_getD_mono (s : List α) (hs : s.Sorted (fun a b => a ≤ b)) (i j : Nat)
    (hij : i ≤ j) (hj : j < s.length) : s.getD i 0 ≤ s.getD j 0 := by
  have hi : i < s.length := lt_of_le_of_lt hij hj
  rw [List.getD_eq_getElem _ _ hi, List.getD_eq_getElem _ _ hj]
  rcases Nat.eq_or_lt_of_le hij with e | e
  · subst e
    exact le_refl _
  · exact List.pairwise_iff_getElem.1 hs i j hi hj e

theorem sort_length (l : List α) :
    (l.insertionSort (fun a b => a ≤ b)).length = l.length :=
  List.length_insertionSort _ l

/-! ## `calculateHistoricalVaR` -/

theorem calculateHistoricalVaR_nil [FloorRing α] (p : α) :
    calculateHistoricalVaR ([] : List α) p = 0 := by
  simp only [calculateHistoricalVaR, List.isEmpty_nil, if_true]
  exact options.zero_lit

theorem calculateHistoricalVaR_eq [FloorRing α] (returns : List α) (p : α)
    (h : returns ≠ []) :
    calculateHistoricalVaR returns p =
      -((returns.insertionSort (fun a b => a ≤ b)).getD
        (max 0 (min (options.truncToInt ((1.0 - p) * (returns.length : α)))
          ((returns.length : Int) - 1))).toNat 0) := by
  unfold calculateHistoricalVaR
  rw [if_neg (by simpa using h)]
  simp only [sort_length]

/-- The historical VaR does not decrease when the confidence grows. -/
theorem calculateHistoricalVaR_mono [FloorRing α] (returns : List α) (p q : α)
    (hpq : p ≤ q) :
    calculateHistoricalVaR returns p ≤ calculateHistoricalVaR returns q := by
  by_cases h : returns = []
  · subst h
    rw [calculateHistoricalVaR_nil, calculateHistoricalVaR_nil]
  · rw [calculateHistoricalVaR_eq returns p h, calculateHistoricalVaR_eq returns q h,
      neg_le_neg_iff]
    have hlen : 0 < returns.length := List.length_pos.2 h
    apply sorted_getD_mono _ (sorted_insertionSort_le returns)
    · apply Int.toNat_le_toNat
      apply clamp_mono
      apply truncToInt_mono
      apply mul_le_mul_of_nonneg_right _ (Nat.cast_nonneg _)
      linarith
    · rw [sort_length]
      exact clamp_toNat_lt _ _ hlen

/-- For a non-empty series the historical VaR is the negation of one of the returns. -/
theorem calculateHistoricalVaR_mem [FloorRing α] (returns : List α) (p : α)
    (h : returns ≠ []) :
    ∃ x ∈ returns, calculateHistoricalVaR returns p = -x := by
  have hlen : 0 < returns.length := List.length_pos.2 h
  have hi := clamp_toNat_lt (options.truncToInt ((1.0 - p) * (returns.length : α)))
    returns.length hlen
  have hi : (max 0 (min (options.truncToInt ((1.0 - p) * (returns.length : α)))
      ((returns.length : Int) - 1))).toNat <
      (returns.insertionSort (fun a b => a ≤ b)).length := by
    rw [sort_length]
    exact hi
  refine ⟨(returns.insertionSort (fun a b => a ≤ b)).getD _ 0, ?_,
    calculateHistoricalVaR_eq returns p h⟩
  rw [List.getD_eq_getElem _ _ hi]
  exact (List.perm_insertionSort _ returns).mem_iff.1 (List.getElem_mem _)

/-! ## `calculateParametricVaR` -/

theorem calculateParametricVaR_95 (m : options.Libm α) (positions : List (Position α)) :
    calculateParametricVaR m positions 0.95 = 0 ∨
      calculateParametricVaR m positions 0.95 = 1.645 * (0.20 / m.sqrt 252) := by
  unfold calculateParametricVaR
  split
  · exact Or.inl options.zero_lit
  · simp only []
    split
    · exact Or.inl options.zero_lit
    · rename_i hv
      right
      rw [if_pos trivial]
      exact mul_div_cancel_right₀ _ hv

theorem calculateParametricVaR_99 (m : options.Libm α) (positions : List (Position α)) :
    (calculateParametricVaR m positions 0.95 = 0 ∧
      calculateParametricVaR m positions 0.99 = 0) ∨
    (calculateParametricVaR m positions 0.95 = 1.645 * (0.20 / m.sqrt 252) ∧
      calculateParametricVaR m positions 0.99 = 2.326 * (0.20 / m.sqrt 252)) := by
  unfold calculateParametricVaR
  split
  · exact Or.inl ⟨options.zero_lit, options.zero_lit⟩
  · simp only []
    split
    · exact Or.inl ⟨options.zero_lit, options.zero_lit⟩
    · rename_i hv
      right
      rw [if_pos trivial, if_neg (by norm_num), if_pos trivial]
      exact ⟨mul_div_cancel_right₀ _ hv, mul_div_cancel_right₀ _ hv⟩

/-- Claim C18, counterexample. For the one-element series `[0.01]` the historical VaR
at 95% is `-0.01`, which is negative. -/
theorem historical_var_negative :
    calculateHistoricalVaR ([0.01] : List ℚ) 0.95 = -0.01 ∧
    ¬ (0 ≤ calculateHistoricalVaR ([0.01] : List ℚ) 0.95) := by
  decide!

/-- Claim C18, amended. For every return series the historical VaR at 99% is at least
the one at 95%, and for a non-empty series each is the negation of one of the returns
(so it is nonnegative when no return is positive, and may be negative otherwise); for
every position list, with `sqrt 252` nonnegative, the parametric VaR at 99% is at least
the one at 95%, which is at least 0. -/
theorem var_monotone [FloorRing α] (m : options.Libm α) (returns : List α)
    (positions : List (Position α)) (hsqrt : 0 ≤ m.sqrt 252) :
    calculateHistoricalVaR returns 0.95 ≤ calculateHistoricalVaR returns 0.99 ∧
    (returns ≠ [] → ∃ x ∈ returns, calculateHistoricalVaR returns 0.95 = -x) ∧
    (returns ≠ [] → ∃ x ∈ returns, calculateHistoricalVaR returns 0.99 = -x) ∧
    ((∀ x ∈ returns, x ≤ 0) → 0 ≤ calculateHistoricalVaR returns 0.95) ∧
    calculateParametricVaR m positions 0.95 ≤ calculateParametricVaR m positions 0.99 ∧
    0 ≤ calculateParametricVaR m positions 0.95 := by
  have hd : (0 : α) ≤ 0.20 / m.sqrt 252 := div_nonneg (by norm_num) hsqrt
  refine ⟨calculateHistoricalVaR_mono returns 0.95 0.99 (by norm_num),
    calculateHistoricalVaR_mem returns 0.95, calculateHistoricalVaR_mem returns 0.99,
    ?_, ?_, ?_⟩
  · intro hall
    by_cases h : returns = []
    · subst h
      rw [calculateHistoricalVaR_nil]
    · obtain ⟨x, hx, e⟩ := calculateHistoricalVaR_mem returns 0.95 h
      rw [e]
      exact neg_nonneg.2 (hall x hx)
  · rcases calculateParametricVaR_99 m positions with ⟨e1, e2⟩ | ⟨e1, e2⟩
    · rw [e1, e2]
    · rw [e1, e2]
      exact mul_le_mul_of_nonneg_right (by norm_num) hd
  · rcases calculateParametricVaR_95 m positions with e | e
    · rw [e]
    · rw [e]
      exact mul_nonneg (by norm_num) hd

/-- The real square root satisfies the hypothesis of `var_monotone`. -/
theorem var_monotone_witness :
    0 ≤ options.realLibm.sqrt 252 ∧
    calculateHistoricalVaR ([-0.02, 0.01] : List ℝ) 0.95 ≤
      calculateHistoricalVaR ([-0.02, 0.01] : List ℝ) 0.99 :=
  ⟨Real.sqrt_nonneg 252,
    (var_monotone options.realLibm [-0.02, 0.01] [] (Real.sqrt_nonneg 252)).1⟩
theorem foldl_sum_map {β : Type} (f : β → α) (xs : List β) (a : α) :
    xs.foldl (fun acc x => acc + f x) a = a + (xs.map f).sum := by
  induction xs generalizing a with
  | nil => simp
  | cons x xs ih => simp [List.foldl_cons, ih, add_assoc]

/-- The P&L that the loop body computes for a position is the one of the
specification. -/
theorem positionPnl_eq (scenario : StressTestScenario α) (position : Position α) :
    positionPnl scenario position = specPositionPnl scenario position := by
  unfold positionPnl specPositionPnl specShock
  cases umapFind scenario.price_shocks position.symbol <;>
    cases position.is_option <;> simp [add_assoc]

theorem stressPosition_pnl (scenario : StressTestScenario α) (result : StressTestResult α)
    (position : Position α) :
    (stressPosition scenario result position).portfolio_pnl =
        result.portfolio_pnl + specPositionPnl scenario position ∧
    (stressPosition scenario result position).worst_position_loss =
        min result.worst_position_loss (specPositionPnl scenario position) ∧
    (stressPosition scenario result position).worst_position_symbol =
        (if specPositionPnl scenario position < result.worst_position_loss then
          position.symbol
        else result.worst_position_symbol) ∧
    (stressPosition scenario result position).scenario_name = result.scenario_name := by
  have hp := positionPnl_eq scenario position
  unfold stressPosition
  simp only [hp]
  by_cases h : specPositionPnl scenario position < result.worst_position_loss
  · simp only [if_pos h, min_eq_right h.le, and_self]
  · simp only [if_neg h, min_eq_left (not_lt.1 h), and_self]

theorem stressLoop_spec (scenario : StressTestScenario α) (positions : List (Position α))
    (result : StressTestResult α) :
    (positions.foldl (stressPosition scenario) result).portfolio_pnl =
      result.portfolio_pnl + (positions.map (specPositionPnl scenario)).sum ∧
    (positions.foldl (stressPosition scenario) result).scenario_name =
      result.scenario_name := by
  induction positions generalizing result with
  | nil => simp
  | cons p ps ih =>
    obtain ⟨h1, -, -, h4⟩ := stressPosition_pnl scenario result p
    rw [List.foldl_cons, (ih _).1, (ih _).2, h1, h4, List.map_cons, List.sum_cons, add_assoc]
    exact ⟨rfl, rfl⟩

theorem runCustomStressTest_pnl [FloorRing α] (m : options.Libm α)
    (simulated_returns : List α) (self : RiskManager α) (positions : List (Position α))
    (scenario : StressTestScenario α) :
    (runCustomStressTest m simulated_returns self positions scenario).1.portfolio_pnl =
      (positions.map (specPositionPnl scenario)).sum ∧
    (runCustomStressTest m simulated_returns self positions scenario).1.portfolio_return =
      (if specTotalValue positions = 0 then 0
       else (positions.map (specPositionPnl scenario)).sum / specTotalValue positions) := by
  have htot : positions.foldl (fun acc pos => acc + pos.market_value) (0 : α) =
      specTotalValue positions := by
    rw [foldl_sum_map, zero_add, specTotalValue]
  have hl := (stressLoop_spec scenario positions
    { scenario_name := scenario.name, portfolio_pnl := 0.0, portfolio_return := 0,
      position_pnl := [], breached_limits := [], worst_position_loss := 0.0,
      worst_position_symbol := "" }).1
  simp only [options.zero_lit, zero_add] at hl
  simp only [runCustomStressTest, options.zero_lit, htot, hl]
  refine ⟨trivial, ?_⟩
  by_cases h : specTotalValue positions = 0
  · simp [h]
  · simp [h]

/-- Claim C21. For every position list and scenario (and every manager state),
`runCustomStressTest` returns `portfolio_pnl` equal to the sum over the positions of
`market_value * shock(symbol)` (the scenario's shock of the symbol if present, `-0.05`
otherwise) plus `vega * volatility_shock + rho * interest_rate_shock` for options only,
and `portfolio_return` equal to `portfolio_pnl` over the sum of the market values, or 0
when that sum is 0. For AAPL 100000 and TSLA 100000 with shocks -0.10 and -0.45 the
P&L is -55000 and the return -0.275. -/
theorem stress_test_pnl [FloorRing α] (m : options.Libm α) (simulated_returns : List α)
    (self : RiskManager α) (positions : List (Position α))
    (scenario : StressTestScenario α) :
    (runCustomStressTest m simulated_returns self positions scenario).1.portfolio_pnl =
      (positions.map (fun position =>
        position.market_value *
            (match umapFind scenario.price_shocks position.symbol with
              | some shock => shock
              | none => -0.05) +
          (if position.is_option then
            position.vega * scenario.volatility_shock +
              position.rho * scenario.interest_rate_shock
          else 0))).sum ∧
    (runCustomStressTest m simulated_returns self positions scenario).1.portfolio_return =
      (if (positions.map (fun pos => pos.market_value)).sum = 0 then 0
       else (runCustomStressTest m simulated_returns self positions scenario).1.portfolio_pnl /
        (positions.map (fun pos => pos.market_value)).sum) ∧
    (runCustomStressTest m simulated_returns self
        [⟨"AAPL", 1000, 100000, 0, 0, 0, 0, 0, 0, false, "", 0⟩,
         ⟨"TSLA", 500, 100000, 0, 0, 0, 0, 0, 0, false, "", 0⟩]
        ⟨"crash", "", [("AAPL", -0.10), ("TSLA", -0.45)], 0, 0, 0⟩).1.portfolio_pnl =
      -55000 ∧
    (runCustomStressTest m simulated_returns self
        [⟨"AAPL", 1000, 100000, 0, 0, 0, 0, 0, 0, false, "", 0⟩,
         ⟨"TSLA", 500, 100000, 0, 0, 0, 0, 0, 0, false, "", 0⟩]
        ⟨"crash", "", [("AAPL", -0.10), ("TSLA", -0.45)], 0, 0, 0⟩).1.portfolio_return =
      -0.275 := by
  have hspec : ∀ (sc : StressTestScenario α) (position : Position α),
      position.market_value *
            (match umapFind sc.price_shocks position.symbol with
              | some shock => shock
              | none => -0.05) +
          (if position.is_option then
            position.vega * sc.volatility_shock + position.rho * sc.interest_rate_shock
          else 0) = specPositionPnl sc position := by
    intro sc position
    unfold specPositionPnl specShock
    cases umapFind sc.price_shocks position.symbol <;> rfl
  simp only [hspec]
  have h := runCustomStressTest_pnl m simulated_returns self positions scenario
  have hex := runCustomStressTest_pnl m simulated_returns self
    [⟨"AAPL", 1000, 100000, 0, 0, 0, 0, 0, 0, false, "", 0⟩,
     ⟨"TSLA", 500, 100000, 0, 0, 0, 0, 0, 0, false, "", 0⟩]
    ⟨"crash", "", [("AAPL", -0.10), ("TSLA", -0.45)], 0, 0, 0⟩
  refine ⟨h.1, ?_, ?_, ?_⟩
  · rw [h.2, h.1]
    rfl
  · rw [hex.1]
    simp [specPositionPnl, specShock, umapFind]
    norm_num
  · rw [hex.2]
    simp [specPositionPnl, specShock, umapFind, specTotalValue]
    norm_num

/-! ## The worst position of a stress test -/

theorem stressLoop_worst (scenario : StressTestScenario α) (positions : List (Position α))
    (result : StressTestResult α) :
    (positions.foldl (stressPosition scenario) result).worst_position_loss ≤
        result.worst_position_loss ∧
    (∀ pos ∈ positions,
      (positions.foldl (stressPosition scenario) result).worst_position_loss ≤
        specPositionPnl scenario pos) ∧
    (((positions.foldl (stressPosition scenario) result).worst_position_loss =
          result.worst_position_loss ∧
        (positions.foldl (stressPosition scenario) result).worst_position_symbol =
          result.worst_position_symbol) ∨
      ∃ pos ∈ positions,
        specPositionPnl scenario pos =
          (positions.foldl (stressPosition scenario) result).worst_position_loss ∧
        (positions.foldl (stressPosition scenario) result).worst_position_symbol =
          pos.symbol ∧
        (positions.foldl (stressPosition scenario) result).worst_position_loss <
          result.worst_position_loss) := by
  induction positions generalizing result with
  | nil => simp
  | cons p ps ih =>
    obtain ⟨-, h2, h3, -⟩ := stressPosition_pnl scenario result p
    obtain ⟨i1, i2, i3⟩ := ih (stressPosition scenario result p)
    rw [List.foldl_cons]
    rw [h2] at i1 i3
    rw [h3] at i3
    refine ⟨le_trans i1 (min_le_left _ _), ?_, ?_⟩
    · intro pos hpos
      rcases List.mem_cons.1 hpos with rfl | hmem
      · exact le_trans i1 (min_le_right _ _)
      · exact i2 pos hmem
    · rcases i3 with ⟨e1, e2⟩ | ⟨pos, hpos, e1, e2, e3⟩
      · by_cases hlt : specPositionPnl scenario p < result.worst_position_loss
        · right
          rw [if_pos hlt] at e2
          rw [min_eq_right hlt.le] at e1
          exact ⟨p, List.mem_cons_self _ _, e1.symm, e2, by rw [e1]; exact hlt⟩
        · left
          rw [if_neg hlt] at e2
          rw [min_eq_left (not_lt.1 hlt)] at e1
          exact ⟨e1, e2⟩
      · right
        exact ⟨pos, List.mem_cons_of_mem _ hpos, e1, e2,
          lt_of_lt_of_le e3 (min_le_left _ _)⟩

theorem runCustomStressTest_worst [FloorRing α] (m : options.Libm α)
    (simulated_returns : List α) (self : RiskManager α) (positions : List (Position α))
    (scenario : StressTestScenario α) :
    (runCustomStressTest m simulated_returns self positions scenario).1.worst_position_loss
        ≤ 0 ∧
    (∀ pos ∈ positions,
      (runCustomStressTest m simulated_returns self positions
        scenario).1.worst_position_loss ≤ specPositionPnl scenario pos) ∧
    (((runCustomStressTest m simulated_returns self positions
          scenario).1.worst_position_loss = 0 ∧
        (runCustomStressTest m simulated_returns self positions
          scenario).1.worst_position_symbol = "") ∨
      ∃ pos ∈ positions,
        specPositionPnl scenario pos =
          (runCustomStressTest m simulated_returns self positions
            scenario).1.worst_position_loss ∧
        (runCustomStressTest m simulated_returns self positions
          scenario).1.worst_position_symbol = pos.symbol ∧
        (runCustomStressTest m simulated_returns self positions
          scenario).1.worst_position_loss < 0) := by
  have h := stressLoop_worst scenario positions
    { scenario_name := scenario.name, portfolio_pnl := 0.0, portfolio_return := 0,
      position_pnl := [], breached_limits := [], worst_position_loss := 0.0,
      worst_position_symbol := "" }
  simp only [options.zero_lit] at h
  simpa only [runCustomStressTest, options.zero_lit] using h

/-- Claim C22 fails as stated. For the single position AAPL 100000 and a scenario that
shocks AAPL by +0.10 the stressed P&L of the position is 10000, the minimum over the
positions, while the result has `worst_position_loss = 0` and an empty
`worst_position_symbol`. -/
theorem worst_position_not_argmin :
    specPositionPnl (⟨"rally", "", [("AAPL", 0.10)], 0, 0, 0⟩ : StressTestScenario ℝ)
      ⟨"AAPL", 1000, 100000, 0, 0, 0, 0, 0, 0, false, "", 0⟩ = 10000 ∧
    (runCustomStressTest options.realLibm [] RiskManager.init
      [⟨"AAPL", 1000, 100000, 0, 0, 0, 0, 0, 0, false, "", 0⟩]
      ⟨"rally", "", [("AAPL", 0.10)], 0, 0, 0⟩).1.worst_position_loss = 0 ∧
    (runCustomStressTest options.realLibm [] RiskManager.init
      [⟨"AAPL", 1000, 100000, 0, 0, 0, 0, 0, 0, false, "", 0⟩]
      ⟨"rally", "", [("AAPL", 0.10)], 0, 0, 0⟩).1.worst_position_symbol = "" := by
  have hp : specPositionPnl (⟨"rally", "", [("AAPL", 0.10)], 0, 0, 0⟩ : StressTestScenario ℝ)
      ⟨"AAPL", 1000, 100000, 0, 0, 0, 0, 0, 0, false, "", 0⟩ = 10000 := by
    simp [specPositionPnl, specShock, umapFind]
    norm_num
  obtain ⟨h1, h2, h3⟩ := runCustomStressTest_worst options.realLibm [] RiskManager.init
    [⟨"AAPL", 1000, 100000, 0, 0, 0, 0, 0, 0, false, "", 0⟩]
    (⟨"rally", "", [("AAPL", 0.10)], 0, 0, 0⟩ : StressTestScenario ℝ)
  refine ⟨hp, ?_⟩
  rcases h3 with h | ⟨pos, hpos, e1, -, e3⟩
  · exact h
  · exfalso
    rw [List.mem_singleton] at hpos
    subst hpos
    rw [hp] at e1
    rw [← e1] at e3
    norm_num at e3

/-- Claim C22, amended. For every position list and scenario, `worst_position_loss` is
the smallest stressed P&L of a position when that is negative, and
`worst_position_symbol` is the symbol of a position with that P&L; when no position
has a negative stressed P&L (in particular for an empty list), `worst_position_loss`
is 0 and `worst_position_symbol` is empty. For AAPL -10000 and TSLA -45000 the worst
symbol is TSLA and the worst loss -45000. -/
theorem worst_position_of_losses [FloorRing α] (m : options.Libm α)
    (simulated_returns : List α) (self : RiskManager α) (positions : List (Position α))
    (scenario : StressTestScenario α) :
    (∀ pos ∈ positions,
      (runCustomStressTest m simulated_returns self positions
        scenario).1.worst_position_loss ≤ specPositionPnl scenario pos) ∧
    ((∃ pos ∈ positions, specPositionPnl scenario pos < 0) →
      ∃ pos ∈ positions,
        specPositionPnl scenario pos =
          (runCustomStressTest m simulated_returns self positions
            scenario).1.worst_position_loss ∧
        (runCustomStressTest m simulated_returns self positions
          scenario).1.worst_position_symbol = pos.symbol) ∧
    ((∀ pos ∈ positions, 0 ≤ specPositionPnl scenario pos) →
      (runCustomStressTest m simulated_returns self positions
          scenario).1.worst_position_loss = 0 ∧
        (runCustomStressTest m simulated_returns self positions
          scenario).1.worst_position_symbol = "") ∧
    (runCustomStressTest m simulated_returns self
        [⟨"AAPL", 1000, 100000, 0, 0, 0, 0, 0, 0, false, "", 0⟩,
         ⟨"TSLA", 500, 100000, 0, 0, 0, 0, 0, 0, false, "", 0⟩]
        ⟨"crash", "", [("AAPL", -0.10), ("TSLA", -0.45)], 0, 0, 0⟩).1.worst_position_loss =
      -45000 ∧
    (runCustomStressTest m simulated_returns self
        [⟨"AAPL", 1000, 100000, 0, 0, 0, 0, 0, 0, false, "", 0⟩,
         ⟨"TSLA", 500, 100000, 0, 0, 0, 0, 0, 0, false, "", 0⟩]
        ⟨"crash", "", [("AAPL", -0.10), ("TSLA", -0.45)], 0, 0, 0⟩).1.worst_position_symbol =
      "TSLA" := by
  obtain ⟨h1, h2, h3⟩ := runCustomStressTest_worst m simulated_returns self positions scenario
  have hA : specPositionPnl
      (⟨"crash", "", [("AAPL", -0.10), ("TSLA", -0.45)], 0, 0, 0⟩ : StressTestScenario α)
      ⟨"AAPL", 1000, 100000, 0, 0, 0, 0, 0, 0, false, "", 0⟩ = -10000 := by
    simp [specPositionPnl, specShock, umapFind]
    norm_num
  have hT : specPositionPnl
      (⟨"crash", "", [("AAPL", -0.10), ("TSLA", -0.45)], 0, 0, 0⟩ : StressTestScenario α)
      ⟨"TSLA", 500, 100000, 0, 0, 0, 0, 0, 0, false, "", 0⟩ = -45000 := by
    simp [specPositionPnl, specShock, umapFind]
    norm_num
  obtain ⟨-, g2, g3⟩ := runCustomStressTest_worst m simulated_returns self
    [⟨"AAPL", 1000, 100000, 0, 0, 0, 0, 0, 0, false, "", 0⟩,
     ⟨"TSLA", 500, 100000, 0, 0, 0, 0, 0, 0, false, "", 0⟩]
    (⟨"crash", "", [("AAPL", -0.10), ("TSLA", -0.45)], 0, 0, 0⟩ : StressTestScenario α)
  have gT := g2 _ (List.mem_cons_of_mem _ (List.mem_singleton_self _))
  rw [hT] at gT
  have hex : (runCustomStressTest m simulated_returns self
        [⟨"AAPL", 1000, 100000, 0, 0, 0, 0, 0, 0, false, "", 0⟩,
         ⟨"TSLA", 500, 100000, 0, 0, 0, 0, 0, 0, false, "", 0⟩]
        ⟨"crash", "", [("AAPL", -0.10), ("TSLA", -0.45)], 0, 0, 0⟩).1.worst_position_loss =
        -45000 ∧
      (runCustomStressTest m simulated_returns self
        [⟨"AAPL", 1000, 100000, 0, 0, 0, 0, 0, 0, false, "", 0⟩,
         ⟨"TSLA", 500, 100000, 0, 0, 0, 0, 0, 0, false, "", 0⟩]
        ⟨"crash", "", [("AAPL", -0.10), ("TSLA", -0.45)], 0, 0, 0⟩).1.worst_position_symbol =
        "TSLA" := by
    rcases g3 with ⟨e, -⟩ | ⟨pos, hpos, e1, e2, -⟩
    · rw [e] at gT
      norm_num at gT
    · rcases List.mem_cons.1 hpos with rfl | hpos
      · rw [hA] at e1
        rw [← e1] at gT
        norm_num at gT
      · rw [List.mem_singleton] at hpos
        subst hpos
        rw [hT] at e1
        exact ⟨e1.symm, e2⟩
  refine ⟨h2, ?_, ?_, hex.1, hex.2⟩
  · rintro ⟨pos, hpos, hneg⟩
    rcases h3 with ⟨e, -⟩ | ⟨q, hq, e1, e2, -⟩
    · have := h2 pos hpos
      rw [e] at this
      exact absurd hneg (not_lt.2 this)
    · exact ⟨q, hq, e1, e2⟩
  · intro hall
    rcases h3 with h | ⟨q, hq, e1, -, e3⟩
    · exact h
    · have := hall q hq
      rw [e1] at this
      exact absurd e3 (not_lt.2 this)

/-! ## `checkRiskLimits` -/

theorem checkRiskLimitsLoop_eq (metrics : RiskMetrics α) (positions : List (Position α))
    (limits breached : List (RiskLimit α)) :
    checkRiskLimitsLoop metrics positions limits breached =
      (breached ++ (limits.map (checkLimit metrics positions)).filter (fun l => l.is_breached),
        limits.map (checkLimit metrics positions)) := by
  induction limits generalizing breached with
  | nil => simp [checkRiskLimitsLoop]
  | cons l ls ih =>
    rw [checkRiskLimitsLoop]
    simp only [ih, List.map_cons, List.filter_cons]
    by_cases hb : (checkLimit metrics positions l).is_breached = true
    · simp [hb]
    · simp [hb]

theorem checkRiskLimits_eq [FloorRing α] (m : options.Libm α) (simulated_returns : List α)
    (self : RiskManager α) (positions : List (Position α)) :
    (checkRiskLimits m simulated_returns self positions).1 =
      ((checkRiskLimits m simulated_returns self positions).2.risk_limits_).filter
        (fun l => l.is_breached) ∧
    (checkRiskLimits m simulated_returns self positions).2.risk_limits_ =
      self.risk_limits_.map
        (checkLimit (calculatePortfolioRisk m simulated_returns positions) positions) := by
  simp only [checkRiskLimits, checkRiskLimitsLoop_eq, List.nil_append, and_self]

theorem checkLimit_type (metrics : RiskMetrics α) (positions : List (Position α))
    (limit : RiskLimit α) :
    (checkLimit metrics positions limit).limit_type = limit.limit_type ∧
    (checkLimit metrics positions limit).limit_value = limit.limit_value ∧
    (checkLimit metrics positions limit).symbol = limit.symbol ∧
    (checkLimit metrics positions limit).description = limit.description := by
  unfold checkLimit
  split_ifs <;> exact ⟨rfl, rfl, rfl, rfl⟩

/-- The update of a limit does not depend on the values that an earlier update left. -/
theorem checkLimit_checkLimit (metrics metrics2 : RiskMetrics α)
    (positions positions2 : List (Position α)) (limit : RiskLimit α) :
    checkLimit metrics positions (checkLimit metrics2 positions2 limit) =
      checkLimit metrics positions limit := by
  unfold checkLimit
  split_ifs <;> simp_all

theorem portfolio_value_eq [FloorRing α] (m : options.Libm α) (simulated_returns : List α)
    (positions : List (Position α)) :
    (calculatePortfolioRisk m simulated_returns positions).portfolio_value =
      specTotalValue positions := by
  simp only [calculatePortfolioRisk, foldl_sum_map, options.zero_lit, zero_add, specTotalValue]

theorem leverage_eq [FloorRing α] (m : options.Libm α) (simulated_returns : List α)
    (positions : List (Position α)) :
    (calculatePortfolioRisk m simulated_returns positions).leverage =
      (if specTotalValue positions = 0 then 0 else specLeverage positions) := by
  simp only [calculatePortfolioRisk, foldl_sum_map, options.zero_lit, zero_add, specTotalValue,
    specLeverage]
  by_cases h : (positions.map (fun pos => pos.market_value)).sum = 0
  · simp [h]
  · simp [h]

theorem foldl_stdMax_spec {β : Type} (f : β → α) (xs : List β) (a : α) :
    a ≤ xs.foldl (fun acc x => options.stdMax acc (f x)) a ∧
    (∀ x ∈ xs, f x ≤ xs.foldl (fun acc x => options.stdMax acc (f x)) a) ∧
    (xs.foldl (fun acc x => options.stdMax acc (f x)) a = a ∨
      ∃ x ∈ xs, xs.foldl (fun acc x => options.stdMax acc (f x)) a = f x) := by
  induction xs generalizing a with
  | nil => simp
  | cons y ys ih =>
    obtain ⟨i1, i2, i3⟩ := ih (options.stdMax a (f y))
    rw [List.foldl_cons]
    rw [options.stdMax_eq_max] at i1 i2 i3 ⊢
    refine ⟨le_trans (le_max_left _ _) i1, ?_, ?_⟩
    · intro x hx
      rcases List.mem_cons.1 hx with rfl | hm
      · exact le_trans (le_max_right _ _) i1
      · exact i2 x hm
    · rcases i3 with e | ⟨x, hx, e⟩
      · rcases le_total a (f y) with h | h
        · right
          exact ⟨y, List.mem_cons_self _ _, by rw [e, max_eq_right h]⟩
        · left
          rw [e, max_eq_left h]
      · right
        exact ⟨x, List.mem_cons_of_mem _ hx, e⟩

/-- The value of `max_concentration` at the end of its loop. -/
theorem max_concentration_spec (positions : List (Position α)) (pv : α) :
    0 ≤ positions.foldl (fun max_concentration pos =>
        options.stdMax max_concentration (|pos.market_value| / pv)) 0.0 ∧
    (∀ pos ∈ positions, |pos.market_value| / pv ≤
      positions.foldl (fun max_concentration pos =>
        options.stdMax max_concentration (|pos.market_value| / pv)) 0.0) ∧
    (positions.foldl (fun max_concentration pos =>
        options.stdMax max_concentration (|pos.market_value| / pv)) 0.0 = 0 ∨
      ∃ pos ∈ positions, positions.foldl (fun max_concentration pos =>
        options.stdMax max_concentration (|pos.market_value| / pv)) 0.0 =
          |pos.market_value| / pv) := by
  have h := foldl_stdMax_spec (fun pos : Position α => |pos.market_value| / pv) positions 0.0
  rw [options.zero_lit] at h ⊢
  exact h

/-- The limits after `checkRiskLimits` on a manager with the built-in limits. -/
theorem checkRiskLimits_builtin [FloorRing α] (m : options.Libm α)
    (simulated_returns : List α) (self : RiskManager α) (positions : List (Position α))
    (h : HasBuiltinLimits self.risk_limits_) :
    ∃ v l c : RiskLimit α,
      (checkRiskLimits m simulated_returns self positions).2.risk_limits_ = [v, l, c] ∧
      (v.limit_type = "PORTFOLIO_VAR" ∧ v.limit_value = 0.02 ∧
        v.current_value = calculateParametricVaR m positions 0.95 ∧
        v.utilization_pct = v.current_value / v.limit_value * 100 ∧
        v.is_breached = decide (v.current_value > v.limit_value)) ∧
      (l.limit_type = "LEVERAGE" ∧ l.limit_value = 3.0 ∧
        l.current_value =
          (if specTotalValue positions = 0 then 0 else specLeverage positions) ∧
        l.utilization_pct = l.current_value / l.limit_value * 100 ∧
        l.is_breached = decide (l.current_value > l.limit_value)) ∧
      (c.limit_type = "CONCENTRATION" ∧ c.limit_value = 0.10 ∧
        c.current_value = positions.foldl (fun max_concentration pos =>
          options.stdMax max_concentration
            (|pos.market_value| / specTotalValue positions)) 0.0 ∧
        c.utilization_pct = c.current_value / c.limit_value * 100 ∧
        c.is_breached = decide (c.current_value > c.limit_value)) := by
  unfold HasBuiltinLimits at h
  have hlen : self.risk_limits_.length = 3 := by
    have := congrArg List.length h
    simpa using this
  obtain ⟨v0, l0, c0, hl⟩ := List.length_eq_three.1 hlen
  rw [hl] at h
  simp only [List.map_cons, List.map_nil, List.cons.injEq, Prod.mk.injEq, and_true] at h
  obtain ⟨⟨hv1, hv2⟩, ⟨hl1, hl2⟩, hc1, hc2⟩ := h
  refine ⟨checkLimit (calculatePortfolioRisk m simulated_returns positions) positions v0,
    checkLimit (calculatePortfolioRisk m simulated_returns positions) positions l0,
    checkLimit (calculatePortfolioRisk m simulated_returns positions) positions c0, ?_, ?_, ?_, ?_⟩
  · rw [(checkRiskLimits_eq m simulated_returns self positions).2, hl]
    rfl
  · unfold checkLimit
    rw [if_pos hv1]
    exact ⟨hv1, hv2, rfl, rfl, rfl⟩
  · unfold checkLimit
    rw [if_neg (by rw [hl1]; decide), if_pos hl1]
    exact ⟨hl1, hl2, leverage_eq m simulated_returns positions, rfl, rfl⟩
  · unfold checkLimit
    rw [if_neg (by rw [hc1]; decide), if_neg (by rw [hc1]; decide), if_pos hc1]
    refine ⟨hc1, hc2, ?_, rfl, rfl⟩
    simp only [portfolio_value_eq]

theorem checkLimit_simulated [FloorRing α] (m : options.Libm α)
    (simulated_returns simulated_returns2 : List α) (positions : List (Position α))
    (limit : RiskLimit α) :
    checkLimit (calculatePortfolioRisk m simulated_returns2 positions) positions limit =
      checkLimit (calculatePortfolioRisk m simulated_returns positions) positions limit :=
  rfl

theorem checkRiskLimits_again [FloorRing α] (m : options.Libm α)
    (simulated_returns simulated_returns2 : List α) (self : RiskManager α)
    (positions : List (Position α)) :
    (checkRiskLimits m simulated_returns2
        (checkRiskLimits m simulated_returns self positions).2 positions).1 =
      (checkRiskLimits m simulated_returns self positions).1 := by
  have e1 := checkRiskLimits_eq m simulated_returns self positions
  have e2 := checkRiskLimits_eq m simulated_returns2
    (checkRiskLimits m simulated_returns self positions).2 positions
  rw [e2.1, e2.2, e1.1, e1.2, List.map_map]
  congr 1
  apply List.map_congr_left
  intro l _
  simp only [Function.comp, checkLimit_checkLimit]
  exact checkLimit_simulated m simulated_returns simulated_returns2 positions l

/-- The parametric VaR of a portfolio with a nonzero value. -/
theorem calculateParametricVaR_of_ne (m : options.Libm α) (positions : List (Position α))
    (h : specTotalValue positions ≠ 0) :
    calculateParametricVaR m positions 0.95 = 1.645 * (0.20 / m.sqrt 252) := by
  have hne : positions ≠ [] := by
    rintro rfl
    exact h rfl
  have hpv : positions.foldl (fun acc pos => acc + pos.market_value) (0.0 : α) ≠ 0 := by
    rw [foldl_sum_map, options.zero_lit, zero_add]
    exact h
  unfold calculateParametricVaR
  rw [if_neg (by simpa using hne)]
  simp only []
  rw [if_neg hpv, if_pos trivial]
  exact mul_div_cancel_right₀ _ hpv

theorem real_var_breached : (1.645 : ℝ) * (0.20 / options.realLibm.sqrt 252) > 0.02 := by
  have h1 : Real.sqrt 252 < 16 := by
    rw [Real.sqrt_lt' (by norm_num)]
    norm_num
  have h0 : 0 < Real.sqrt 252 := Real.sqrt_pos.2 (by norm_num)
  show (0.02 : ℝ) < 1.645 * (0.20 / Real.sqrt 252)
  rw [← mul_div_assoc, lt_div_iff₀ h0]
  norm_num
  linarith

/-- Claim C23 fails as stated. For AAPL 100 long and TSLA 50 short, leverage
150/50 = 3 does not exceed the limit 3, and the stress test with AAPL shocked by -0.10
reports the breaches PORTFOLIO_VAR and CONCENTRATION; the stressed portfolio (AAPL 90,
TSLA -47.5) has leverage 137.5/42.5 > 3, so `checkRiskLimits` applied to it reports
PORTFOLIO_VAR, LEVERAGE and CONCENTRATION. -/
theorem stressed_limits_differ :
    ((runCustomStressTest options.realLibm [] RiskManager.init
        [⟨"AAPL", 1, 100, 0, 0, 0, 0, 0, 0, false, "", 0⟩,
         ⟨"TSLA", -1, -50, 0, 0, 0, 0, 0, 0, false, "", 0⟩]
        ⟨"shock", "", [("AAPL", -0.10)], 0, 0, 0⟩).1.breached_limits.map
          (fun l => l.limit_type)) = ["PORTFOLIO_VAR", "CONCENTRATION"] ∧
    ((checkRiskLimits options.realLibm [] RiskManager.init
        (specStressedPositions ⟨"shock", "", [("AAPL", -0.10)], 0, 0, 0⟩
          [⟨"AAPL", 1, 100, 0, 0, 0, 0, 0, 0, false, "", 0⟩,
           ⟨"TSLA", -1, -50, 0, 0, 0, 0, 0, 0, false, "", 0⟩])).1.map
          (fun l => l.limit_type)) = ["PORTFOLIO_VAR", "LEVERAGE", "CONCENTRATION"] := by
  have hb : HasBuiltinLimits (RiskManager.init : RiskManager ℝ).risk_limits_ := rfl
  constructor
  · show ((checkRiskLimits options.realLibm [] RiskManager.init
        [⟨"AAPL", 1, 100, 0, 0, 0, 0, 0, 0, false, "", 0⟩,
         ⟨"TSLA", -1, -50, 0, 0, 0, 0, 0, 0, false, "", 0⟩]).1.map
          (fun l => l.limit_type)) = ["PORTFOLIO_VAR", "CONCENTRATION"]
    obtain ⟨v, l, c, e, ⟨hv1, hv2, hv3, -, hv5⟩, ⟨hl1, hl2, hl3, -, hl5⟩, hc1, hc2, hc3, -, hc5⟩ :=
      checkRiskLimits_builtin options.realLibm [] RiskManager.init
        [⟨"AAPL", 1, 100, 0, 0, 0, 0, 0, 0, false, "", 0⟩,
         ⟨"TSLA", -1, -50, 0, 0, 0, 0, 0, 0, false, "", 0⟩] hb
    have ht : specTotalValue ([⟨"AAPL", 1, 100, 0, 0, 0, 0, 0, 0, false, "", 0⟩,
        ⟨"TSLA", -1, -50, 0, 0, 0, 0, 0, 0, false, "", 0⟩] : List (Position ℝ)) = 50 := by
      simp [specTotalValue]
      norm_num
    have hvb : v.is_breached = true := by
      rw [hv5, hv3, hv2, calculateParametricVaR_of_ne _ _ (by rw [ht]; norm_num)]
      exact decide_eq_true real_var_breached
    have hlb : l.is_breached = false := by
      rw [hl5, hl3, hl2, ht, if_neg (by norm_num)]
      apply decide_eq_false
      simp [specLeverage, ht]
      norm_num [abs_of_pos, abs_of_neg]
    have hcb : c.is_breached = true := by
      rw [hc5, hc3, hc2, ht]
      apply decide_eq_true
      simp [List.foldl, options.stdMax_eq_max]
      norm_num [abs_of_pos, abs_of_neg]
    rw [(checkRiskLimits_eq _ _ _ _).1, e]
    simp [List.filter, hvb, hlb, hcb, hv1, hc1]
  · obtain ⟨v, l, c, e, ⟨hv1, hv2, hv3, -, hv5⟩, ⟨hl1, hl2, hl3, -, hl5⟩, hc1, hc2, hc3, -, hc5⟩ :=
      checkRiskLimits_builtin options.realLibm [] RiskManager.init
        (specStressedPositions ⟨"shock", "", [("AAPL", -0.10)], 0, 0, 0⟩
          [⟨"AAPL", 1, 100, 0, 0, 0, 0, 0, 0, false, "", 0⟩,
           ⟨"TSLA", -1, -50, 0, 0, 0, 0, 0, 0, false, "", 0⟩]) hb
    have hs : specStressedPositions
        (⟨"shock", "", [("AAPL", -0.10)], 0, 0, 0⟩ : StressTestScenario ℝ)
        [⟨"AAPL", 1, 100, 0, 0, 0, 0, 0, 0, false, "", 0⟩,
         ⟨"TSLA", -1, -50, 0, 0, 0, 0, 0, 0, false, "", 0⟩] =
        [⟨"AAPL", 1, 90, 0, 0, 0, 0, 0, 0, false, "", 0⟩,
         ⟨"TSLA", -1, -47.5, 0, 0, 0, 0, 0, 0, false, "", 0⟩] := by
      simp [specStressedPositions, specPositionPnl, specShock, umapFind]
      constructor <;> norm_num
    rw [hs] at e hv3 hl3 hc3
    have ht : specTotalValue ([⟨"AAPL", 1, 90, 0, 0, 0, 0, 0, 0, false, "", 0⟩,
        ⟨"TSLA", -1, -47.5, 0, 0, 0, 0, 0, 0, false, "", 0⟩] : List (Position ℝ)) = 42.5 := by
      simp [specTotalValue]
      norm_num
    have hvb : v.is_breached = true := by
      rw [hv5, hv3, hv2, calculateParametricVaR_of_ne _ _ (by rw [ht]; norm_num)]
      exact decide_eq_true real_var_breached
    have hlb : l.is_breached = true := by
      rw [hl5, hl3, hl2, ht, if_neg (by norm_num)]
      apply decide_eq_true
      simp [specLeverage, ht]
      norm_num [abs_of_pos, abs_of_neg]
    have hcb : c.is_breached = true := by
      rw [hc5, hc3, hc2, ht]
      apply decide_eq_true
      simp [List.foldl, options.stdMax_eq_max]
      norm_num [abs_of_pos, abs_of_neg]
    rw [(checkRiskLimits_eq _ _ _ _).1, hs, e]
    simp [List.filter, hvb, hlb, hcb, hv1, hl1, hc1]

/-- Claim C23, amended. The `breached_limits` of a stress-test result are the limits
breached by the unstressed portfolio: they equal `checkRiskLimits` applied to the
positions as given, the manager after the stress test is the manager after that
`checkRiskLimits`, and therefore the `breached_limits` are the same for every scenario
run on the same positions, on the same manager or one after the other. -/
theorem stress_limits_unstressed [FloorRing α] (m : options.Libm α)
    (simulated_returns : List α) (self : RiskManager α) (positions : List (Position α))
    (scenario : StressTestScenario α) :
    (runCustomStressTest m simulated_returns self positions scenario).1.breached_limits =
      (checkRiskLimits m simulated_returns self positions).1 ∧
    (runCustomStressTest m simulated_returns self positions scenario).2 =
      (checkRiskLimits m simulated_returns self positions).2 ∧
    ∀ (scenario2 : StressTestScenario α) (simulated_returns2 : List α),
      (runCustomStressTest m simulated_returns self positions scenario2).1.breached_limits =
        (runCustomStressTest m simulated_returns self positions scenario).1.breached_limits ∧
      (runCustomStressTest m simulated_returns2
          (runCustomStressTest m simulated_returns self positions scenario).2 positions
          scenario2).1.breached_limits =
        (runCustomStressTest m simulated_returns self positions scenario).1.breached_limits :=
  ⟨rfl, rfl, fun _ simulated_returns2 =>
    ⟨rfl, checkRiskLimits_again m simulated_returns simulated_returns2 self positions⟩⟩

/-- Claim C24 fails as stated. For the single short position TSLA -100 the only
concentration `|market_value| / sum of market values` is -1, so that is the maximum
over the positions, while `checkRiskLimits` leaves `current_value = 0` in the
CONCENTRATION limit. -/
theorem concentration_floor_zero :
    (([⟨"TSLA", -1, -100, 0, 0, 0, 0, 0, 0, false, "", 0⟩] : List (Position ℝ)).map
      (specConcentration [⟨"TSLA", -1, -100, 0, 0, 0, 0, 0, 0, false, "", 0⟩])) = [-1] ∧
    (((checkRiskLimits options.realLibm [] RiskManager.init
        [⟨"TSLA", -1, -100, 0, 0, 0, 0, 0, 0, false, "", 0⟩]).2.risk_limits_.filter
          (fun l => l.limit_type = "CONCENTRATION")).map (fun l => l.current_value)) =
      [0] := by
  have hb : HasBuiltinLimits (RiskManager.init : RiskManager ℝ).risk_limits_ := rfl
  constructor
  · simp [specConcentration, specTotalValue]
  · obtain ⟨v, l, c, e, ⟨hv1, -⟩, ⟨hl1, -⟩, hc1, -, hc3, -⟩ :=
      checkRiskLimits_builtin options.realLibm [] RiskManager.init
        [⟨"TSLA", -1, -100, 0, 0, 0, 0, 0, 0, false, "", 0⟩] hb
    have hc : c.current_value = 0 := by
      rw [hc3]
      simp [List.foldl, options.stdMax_eq_max, specTotalValue]
      norm_num [abs_of_neg]
    rw [e]
    simp [List.filter, hv1, hl1, hc1, hc]

/-- Claim C24, amended. After `checkRiskLimits(positions)` on a manager with the
built-in limits, the limits are still the built-in ones, in the order VaR, leverage,
concentration, with `current_value` recomputed: PORTFOLIO_VAR is the parametric 95%
VaR; LEVERAGE is the sum of `|market_value|` over the sum of the market values, or 0
when that sum is 0; CONCENTRATION (sum of market values not 0) is the largest of 0 and
the `|market_value| / sum` of the positions, so the maximum over the positions when the
sum is positive and there is a position. For each, `utilization_pct` is
`current_value / limit_value * 100` and `is_breached` holds iff
`current_value > limit_value`; the returned list consists of exactly the breached
limits, in that order. -/
theorem risk_limits_recomputed [FloorRing α] (m : options.Libm α)
    (simulated_returns : List α) (self : RiskManager α) (positions : List (Position α))
    (h : HasBuiltinLimits self.risk_limits_) :
    ∃ v l c : RiskLimit α,
      (checkRiskLimits m simulated_returns self positions).2.risk_limits_ = [v, l, c] ∧
      HasBuiltinLimits [v, l, c] ∧
      v.current_value = calculateParametricVaR m positions 0.95 ∧
      l.current_value =
        (if specTotalValue positions = 0 then 0 else specLeverage positions) ∧
      (specTotalValue positions ≠ 0 →
        0 ≤ c.current_value ∧
        (∀ pos ∈ positions, specConcentration positions pos ≤ c.current_value) ∧
        (c.current_value = 0 ∨
          ∃ pos ∈ positions, c.current_value = specConcentration positions pos)) ∧
      (0 < specTotalValue positions → positions ≠ [] →
        ∃ pos ∈ positions, c.current_value = specConcentration positions pos) ∧
      (∀ x ∈ [v, l, c],
        x.utilization_pct = x.current_value / x.limit_value * 100 ∧
        (x.is_breached = true ↔ x.current_value > x.limit_value)) ∧
      (checkRiskLimits m simulated_returns self positions).1 =
        [v, l, c].filter (fun x => x.is_breached) := by
  obtain ⟨v, l, c, e, ⟨hv1, hv2, hv3, hv4, hv5⟩, ⟨hl1, hl2, hl3, hl4, hl5⟩,
    hc1, hc2, hc3, hc4, hc5⟩ := checkRiskLimits_builtin m simulated_returns self positions h
  obtain ⟨m1, m2, m3⟩ := max_concentration_spec positions (specTotalValue positions)
  rw [← hc3] at m1 m2 m3
  refine ⟨v, l, c, e, ?_, hv3, hl3, fun _ => ⟨m1, m2, m3⟩, ?_, ?_, ?_⟩
  · unfold HasBuiltinLimits
    simp only [List.map_cons, List.map_nil, hv1, hv2, hl1, hl2, hc1, hc2]
  · intro hpos hne
    rcases m3 with e0 | hex
    · obtain ⟨p, ps, rfl⟩ := List.exists_cons_of_ne_nil hne
      refine ⟨p, List.mem_cons_self _ _, ?_⟩
      have h1 := m2 p (List.mem_cons_self _ _)
      have h2 : 0 ≤ specConcentration (p :: ps) p :=
        div_nonneg (abs_nonneg _) hpos.le
      rw [e0] at h1 ⊢
      exact le_antisymm h2 h1
    · exact hex
  · intro x hx
    simp only [List.mem_cons, List.mem_singleton, List.not_mem_nil, or_false] at hx
    rcases hx with rfl | rfl | rfl
    · exact ⟨hv4, by rw [hv5, decide_eq_true_iff]⟩
    · exact ⟨hl4, by rw [hl5, decide_eq_true_iff]⟩
    · exact ⟨hc4, by rw [hc5, decide_eq_true_iff]⟩
  · rw [(checkRiskLimits_eq m simulated_returns self positions).1, e]

/-- The manager as constructed has the built-in limits. -/
theorem risk_limits_recomputed_witness :
    HasBuiltinLimits (RiskManager.init : RiskManager ℝ).risk_limits_ ∧
    ∃ v l c : RiskLimit ℝ,
      (checkRiskLimits options.realLibm [] RiskManager.init
        [⟨"AAPL", 1, 100, 0, 0, 0, 0, 0, 0, false, "", 0⟩]).2.risk_limits_ = [v, l, c] ∧
      HasBuiltinLimits [v, l, c] :=
  ⟨rfl,
    (risk_limits_recomputed options.realLibm [] RiskManager.init
      [⟨"AAPL", 1, 100, 0, 0, 0, 0, 0, 0, false, "", 0⟩] rfl).imp
      fun _ hv => hv.imp fun _ hl => hl.imp fun _ hc => ⟨hc.1, hc.2.1⟩⟩

theorem foldl_option_sum {β : Type} (c : β → Bool) (f : β → α) (xs : List β) (a : α) :
    xs.foldl (fun acc x => if c x then acc + f x else acc) a =
      a + ((xs.filter c).map f).sum := by
  induction xs generalizing a with
  | nil => simp
  | cons x xs ih =>
    rw [List.foldl_cons, ih]
    cases hc : c x
    · simp [List.filter_cons, hc]
    · simp [List.filter_cons, hc, add_assoc]

theorem foldl_delta_sum (xs : List (Position α)) (a : α) :
    xs.foldl (fun total_delta pos =>
        if pos.is_option then total_delta + pos.delta * pos.quantity
        else total_delta + pos.quantity) a =
      a + ((xs.filter (fun pos => pos.is_option)).map (fun pos => pos.delta * pos.quantity)).sum +
        ((xs.filter (fun pos => !pos.is_option)).map (fun pos => pos.quantity)).sum := by
  induction xs generalizing a with
  | nil => simp
  | cons x xs ih =>
    rw [List.foldl_cons, ih]
    cases hc : x.is_option
    · simp [List.filter_cons, hc]
      ring
    · simp [List.filter_cons, hc]
      ring

theorem scaled_option_sum (f : Position α → α)
    (hf : ∀ (p : Position α) (q : α), f { p with quantity := q } = f p) (k : α)
    (xs : List (Position α)) :
    (((xs.map (fun pos => { pos with quantity := k * pos.quantity })).filter
        (fun pos => pos.is_option)).map (fun pos => f pos * pos.quantity)).sum =
      k * (((xs.filter (fun pos => pos.is_option)).map
        (fun pos => f pos * pos.quantity)).sum) := by
  induction xs with
  | nil => simp
  | cons x xs ih =>
    rw [List.map_cons]
    by_cases hc : x.is_option = true
    · rw [List.filter_cons_of_pos (by simp [hc]), List.filter_cons_of_pos (by simp [hc]),
        List.map_cons, List.sum_cons, List.map_cons, List.sum_cons, ih, hf]
      ring
    · rw [List.filter_cons_of_neg (by simp [hc]), List.filter_cons_of_neg (by simp [hc])]
      exact ih

theorem scaled_stock_sum (k : α) (xs : List (Position α)) :
    (((xs.map (fun pos => { pos with quantity := k * pos.quantity })).filter
        (fun pos => !pos.is_option)).map (fun pos => pos.quantity)).sum =
      k * (((xs.filter (fun pos => !pos.is_option)).map (fun pos => pos.quantity)).sum) := by
  induction xs with
  | nil => simp
  | cons x xs ih =>
    rw [List.map_cons]
    by_cases hc : x.is_option = true
    · rw [List.filter_cons_of_neg (by simp [hc]), List.filter_cons_of_neg (by simp [hc])]
      exact ih
    · rw [List.filter_cons_of_pos (by simp [hc]), List.filter_cons_of_pos (by simp [hc]),
        List.map_cons, List.sum_cons, List.map_cons, List.sum_cons, ih]
      ring

theorem calculatePortfolioDelta_eq (positions : List (Position α)) :
    calculatePortfolioDelta positions =
      ((positions.filter (fun pos => pos.is_option)).map
          (fun pos => pos.delta * pos.quantity)).sum +
        ((positions.filter (fun pos => !pos.is_option)).map (fun pos => pos.quantity)).sum := by
  rw [calculatePortfolioDelta, foldl_delta_sum, options.zero_lit, zero_add]

theorem calculatePortfolioGamma_eq (positions : List (Position α)) :
    calculatePortfolioGamma positions =
      ((positions.filter (fun pos => pos.is_option)).map
        (fun pos => pos.gamma * pos.quantity)).sum := by
  exact (foldl_option_sum (fun pos : Position α => pos.is_option)
    (fun pos => pos.gamma * pos.quantity) positions 0.0).trans
    (by rw [options.zero_lit, zero_add])

theorem calculatePortfolioTheta_eq (positions : List (Position α)) :
    calculatePortfolioTheta positions =
      ((positions.filter (fun pos => pos.is_option)).map
        (fun pos => pos.theta * pos.quantity)).sum := by
  exact (foldl_option_sum (fun pos : Position α => pos.is_option)
    (fun pos => pos.theta * pos.quantity) positions 0.0).trans
    (by rw [options.zero_lit, zero_add])

theorem calculatePortfolioVega_eq (positions : List (Position α)) :
    calculatePortfolioVega positions =
      ((positions.filter (fun pos => pos.is_option)).map
        (fun pos => pos.vega * pos.quantity)).sum := by
  exact (foldl_option_sum (fun pos : Position α => pos.is_option)
    (fun pos => pos.vega * pos.quantity) positions 0.0).trans
    (by rw [options.zero_lit, zero_add])

/-- Claim C26. `calculatePortfolioDelta` is the sum of `delta * quantity` over the
option positions plus the sum of `quantity` over the other positions, and
`calculatePortfolioGamma`, `Theta` and `Vega` are the sums of `gamma * quantity`,
`theta * quantity` and `vega * quantity` over the option positions only. Each of the
four is additive over the concatenation of position lists and is multiplied by `k`
when every quantity is multiplied by `k`. -/
theorem greeks_linear (positions positions2 : List (Position α)) (k : α) :
    (calculatePortfolioDelta positions =
        ((positions.filter (fun pos => pos.is_option)).map
            (fun pos => pos.delta * pos.quantity)).sum +
          ((positions.filter (fun pos => !pos.is_option)).map
            (fun pos => pos.quantity)).sum ∧
      calculatePortfolioGamma positions =
        ((positions.filter (fun pos => pos.is_option)).map
          (fun pos => pos.gamma * pos.quantity)).sum ∧
      calculatePortfolioTheta positions =
        ((positions.filter (fun pos => pos.is_option)).map
          (fun pos => pos.theta * pos.quantity)).sum ∧
      calculatePortfolioVega positions =
        ((positions.filter (fun pos => pos.is_option)).map
          (fun pos => pos.vega * pos.quantity)).sum) ∧
    (calculatePortfolioDelta (positions ++ positions2) =
        calculatePortfolioDelta positions + calculatePortfolioDelta positions2 ∧
      calculatePortfolioGamma (positions ++ positions2) =
        calculatePortfolioGamma positions + calculatePortfolioGamma positions2 ∧
      calculatePortfolioTheta (positions ++ positions2) =
        calculatePortfolioTheta positions + calculatePortfolioTheta positions2 ∧
      calculatePortfolioVega (positions ++ positions2) =
        calculatePortfolioVega positions + calculatePortfolioVega positions2) ∧
    (calculatePortfolioDelta
          (positions.map (fun pos => { pos with quantity := k * pos.quantity })) =
        k * calculatePortfolioDelta positions ∧
      calculatePortfolioGamma
          (positions.map (fun pos => { pos with quantity := k * pos.quantity })) =
        k * calculatePortfolioGamma positions ∧
      calculatePortfolioTheta
          (positions.map (fun pos => { pos with quantity := k * pos.quantity })) =
        k * calculatePortfolioTheta positions ∧
      calculatePortfolioVega
          (positions.map (fun pos => { pos with quantity := k * pos.quantity })) =
        k * calculatePortfolioVega positions) := by
  refine ⟨⟨calculatePortfolioDelta_eq _, calculatePortfolioGamma_eq _,
    calculatePortfolioTheta_eq _, calculatePortfolioVega_eq _⟩, ⟨?_, ?_, ?_, ?_⟩,
    ⟨?_, ?_, ?_, ?_⟩⟩
  · simp only [calculatePortfolioDelta_eq, List.filter_append, List.map_append,
      List.sum_append]
    ring
  · simp only [calculatePortfolioGamma_eq, List.filter_append, List.map_append,
      List.sum_append]
  · simp only [calculatePortfolioTheta_eq, List.filter_append, List.map_append,
      List.sum_append]
  · simp only [calculatePortfolioVega_eq, List.filter_append, List.map_append,
      List.sum_append]
  · rw [calculatePortfolioDelta_eq, calculatePortfolioDelta_eq,
      scaled_option_sum (fun pos => pos.delta) (fun _ _ => rfl), scaled_stock_sum]
    ring
  · rw [calculatePortfolioGamma_eq, calculatePortfolioGamma_eq,
      scaled_option_sum (fun pos => pos.gamma) (fun _ _ => rfl)]
  · rw [calculatePortfolioTheta_eq, calculatePortfolioTheta_eq,
      scaled_option_sum (fun pos => pos.theta) (fun _ _ => rfl)]
  · rw [calculatePortfolioVega_eq, calculatePortfolioVega_eq,
      scaled_option_sum (fun pos => pos.vega) (fun _ _ => rfl)]

/-! ## The parametric VaR against the limit and the alert threshold -/

theorem var_value_bounds (m : options.Libm α) (hpos : 0 < m.sqrt 252)
    (hsq : m.sqrt 252 * m.sqrt 252 = 252) :
    (0.02 : α) < 1.645 * 0.20 / m.sqrt 252 ∧ (0.015 : α) < 1.645 * 0.20 / m.sqrt 252 := by
  have h16 : m.sqrt 252 < 16 := by
    by_contra hge
    have h := not_lt.1 hge
    have : (16 : α) * 16 ≤ m.sqrt 252 * m.sqrt 252 :=
      mul_le_mul h h (by norm_num) hpos.le
    rw [hsq] at this
    norm_num at this
  constructor
  · rw [lt_div_iff₀ hpos]
    norm_num
    linarith
  · rw [lt_div_iff₀ hpos]
    norm_num
    linarith

theorem checkRiskAlerts_var (to_string : α → String) (self : RiskManager α)
    (metrics : RiskMetrics α) (maximum_drawdown threshold : α)
    (hth : umapFind self.risk_alerts_ "VAR_BREACH" = some threshold)
    (h : metrics.var_1day_95 > threshold) :
    "VaR breach detected: " ++ to_string (metrics.var_1day_95 * 100) ++ "%" ∈
      (checkRiskAlerts to_string self metrics maximum_drawdown).1 := by
  unfold checkRiskAlerts
  simp only [umapIndex, hth, if_pos h, List.nil_append]
  split_ifs <;> simp

/-- Claim C39. With `sqrt(252)` the positive square root of 252, for every non-empty
position list with non-zero total market value `calculateParametricVaR(positions, 0.95)`
is `1.645 * 0.20 / sqrt(252)` whatever the positions, which is above the built-in
PORTFOLIO_VAR limit 0.02 and the VAR_BREACH threshold 0.015; hence `checkRiskLimits` on
a manager with the built-in limits returns the PORTFOLIO_VAR limit as breached, and
`checkRiskAlerts` on the metrics of the portfolio, with the threshold of the
constructor, raises the VaR alert. -/
theorem var_limit_always_breached [FloorRing α] (m : options.Libm α)
    (simulated_returns : List α) (positions : List (Position α))
    (hsqrt : 0 < m.sqrt 252) (hsq : m.sqrt 252 * m.sqrt 252 = 252)
    (_hne : positions ≠ []) (hpv : specTotalValue positions ≠ 0) :
    calculateParametricVaR m positions 0.95 = 1.645 * 0.20 / m.sqrt 252 ∧
    (0.02 : α) < calculateParametricVaR m positions 0.95 ∧
    (0.015 : α) < calculateParametricVaR m positions 0.95 ∧
    (∀ self : RiskManager α, HasBuiltinLimits self.risk_limits_ →
      ∃ l ∈ (checkRiskLimits m simulated_returns self positions).1,
        l.limit_type = "PORTFOLIO_VAR" ∧ l.is_breached = true ∧
        l.current_value = 1.645 * 0.20 / m.sqrt 252) ∧
    (∀ (to_string : α → String) (maximum_drawdown : α) (self : RiskManager α),
      umapFind self.risk_alerts_ "VAR_BREACH" = some 0.015 →
      "VaR breach detected: " ++ to_string (1.645 * 0.20 / m.sqrt 252 * 100) ++ "%" ∈
        (checkRiskAlerts to_string self
          (calculatePortfolioRisk m simulated_returns positions) maximum_drawdown).1) := by
  have hv : calculateParametricVaR m positions 0.95 = 1.645 * 0.20 / m.sqrt 252 := by
    rw [calculateParametricVaR_of_ne m positions hpv, mul_div_assoc]
  obtain ⟨b1, b2⟩ := var_value_bounds m hsqrt hsq
  refine ⟨hv, by rw [hv]; exact b1, by rw [hv]; exact b2, ?_, ?_⟩
  · intro self hb
    obtain ⟨v, l, c, e, ⟨hv1, hv2, hv3, -, hv5⟩, -, -⟩ :=
      checkRiskLimits_builtin m simulated_returns self positions hb
    have hbr : v.is_breached = true := by
      rw [hv5, decide_eq_true_iff, hv3, hv2, hv]
      exact b1
    refine ⟨v, ?_, hv1, hbr, by rw [hv3, hv]⟩
    rw [(checkRiskLimits_eq m simulated_returns self positions).1, e]
    simp [List.filter, hbr]
  · intro to_string maximum_drawdown self hth
    have h := checkRiskAlerts_var to_string self
      (calculatePortfolioRisk m simulated_returns positions) maximum_drawdown 0.015 hth
      (by
        show calculateParametricVaR m positions 0.95 > 0.015
        rw [hv]
        exact b2)
    have e : (calculatePortfolioRisk m simulated_returns positions).var_1day_95 =
        1.645 * 0.20 / m.sqrt 252 := hv
    rw [e] at h
    exact h

/-- The real square root and the single position AAPL 100 satisfy the hypotheses of
`var_limit_always_breached`; the manager as constructed has the threshold 0.015. -/
theorem var_limit_always_breached_witness :
    0 < options.realLibm.sqrt 252 ∧
    options.realLibm.sqrt 252 * options.realLibm.sqrt 252 = 252 ∧
    umapFind (RiskManager.init : RiskManager ℝ).risk_alerts_ "VAR_BREACH" = some 0.015 ∧
    (0.02 : ℝ) < calculateParametricVaR options.realLibm
      [⟨"AAPL", 1, 100, 0, 0, 0, 0, 0, 0, false, "", 0⟩] 0.95 := by
  have h0 : 0 < options.realLibm.sqrt 252 := Real.sqrt_pos.2 (by norm_num)
  have h1 : options.realLibm.sqrt 252 * options.realLibm.sqrt 252 = 252 :=
    Real.mul_self_sqrt (by norm_num)
  refine ⟨h0, h1, by simp [RiskManager.init, umapFind, umapAssign], ?_⟩
  exact (var_limit_always_breached options.realLibm []
    [⟨"AAPL", 1, 100, 0, 0, 0, 0, 0, 0, false, "", 0⟩] h0 h1 (by simp)
    (by simp [specTotalValue])).2.1

end risk

namespace backtesting

variable {α : Type} [LinearOrderedField α]

/-! ## `calculateRSI` -/

end backtesting

namespace algo

variable {α : Type} [LinearOrderedField α]

/-! ## `validateSignal` and `processSignal` -/

theorem validateSignal_iff (self : AlgorithmicEngine α) (signal : TradingSignal α) :
    validateSignal self signal = true ↔
      signal.price * signal.quantity / self.current_portfolio_value_ ≤
          self.max_portfolio_risk_ ∧
        signal.confidence ≥ 0.6 := by
  unfold validateSignal
  simp only []
  split_ifs with h1 h2
  · simp only [Bool.false_eq_true, false_iff, not_and]
    intro h
    exact absurd h1 (not_lt.2 h)
  · simp only [Bool.false_eq_true, false_iff, not_and]
    intro _
    exact not_le.2 h2
  · simp only [true_iff]
    exact ⟨not_lt.1 h1, not_lt.1 h2⟩

/-- Claim C27. `validateSignal` returns true iff
`price * quantity / portfolio_value ≤ max_portfolio_risk` and `confidence ≥ 0.6`;
`processSignal` leaves the engine, so its position set, unchanged whenever
`price * quantity / portfolio_value > max_portfolio_risk` or `confidence < 0.6`, and
otherwise executes the signal; with the engine as constructed (portfolio value
1,000,000, max risk 0.02) the signal is valid iff `price * quantity ≤ 20,000` and
`confidence ≥ 0.6`. -/
theorem signal_validation (indeterminate : α) (self : AlgorithmicEngine α)
    (signal : TradingSignal α) :
    (validateSignal self signal = true ↔
      signal.price * signal.quantity / self.current_portfolio_value_ ≤
          self.max_portfolio_risk_ ∧
        signal.confidence ≥ 0.6) ∧
    ((signal.price * signal.quantity / self.current_portfolio_value_ >
          self.max_portfolio_risk_ ∨ signal.confidence < 0.6) →
      processSignal indeterminate self signal = self ∧
        (processSignal indeterminate self signal).positions_ = self.positions_) ∧
    ((signal.price * signal.quantity / self.current_portfolio_value_ ≤
          self.max_portfolio_risk_ ∧ signal.confidence ≥ 0.6) →
      processSignal indeterminate self signal = executeSignal indeterminate self signal) ∧
    (validateSignal (AlgorithmicEngine.init : AlgorithmicEngine α) signal = true ↔
      signal.price * signal.quantity ≤ 20000 ∧ signal.confidence ≥ 0.6) := by
  have hv := validateSignal_iff self signal
  refine ⟨hv, ?_, ?_, ?_⟩
  · intro h
    have hf : validateSignal self signal = false := by
      rw [← Bool.not_eq_true, hv, not_and_or, not_le, ge_iff_le, not_le]
      exact h
    have : processSignal indeterminate self signal = self := by
      unfold processSignal
      rw [hf]
      rfl
    exact ⟨this, by rw [this]⟩
  · intro h
    have ht : validateSignal self signal = true := hv.2 h
    unfold processSignal
    rw [ht]
    rfl
  · rw [validateSignal_iff]
    have h1 : (AlgorithmicEngine.init : AlgorithmicEngine α).current_portfolio_value_ =
        1000000 := by
      show (1000000.0 : α) = 1000000
      norm_num
    have h2 : (AlgorithmicEngine.init : AlgorithmicEngine α).max_portfolio_risk_ = 0.02 := rfl
    rw [h1, h2, div_le_iff₀ (by norm_num)]
    norm_num

/-! ## `executeSignal` -/

theorem closePosition_none {β : Type} (symbol : String) (positions : List (Position β))
    (h : ∀ p ∈ positions, p.symbol ≠ symbol) : closePosition symbol positions = positions := by
  induction positions with
  | nil => rfl
  | cons p ps ih =>
    rw [closePosition, if_neg (h p (List.mem_cons_self _ _)),
      ih (fun q hq => h q (List.mem_cons_of_mem _ hq))]

theorem closePosition_first {β : Type} (symbol : String) (l1 l2 : List (Position β))
    (p : Position β) (hp : p.symbol = symbol) (h : ∀ q ∈ l1, q.symbol ≠ symbol) :
    closePosition symbol (l1 ++ p :: l2) = l1 ++ l2 := by
  induction l1 with
  | nil => simp [closePosition, hp]
  | cons q qs ih =>
    rw [List.cons_append, closePosition, if_neg (h q (List.mem_cons_self _ _)),
      ih (fun r hr => h r (List.mem_cons_of_mem _ hr))]
    rfl

/-- Claim C29 fails as stated. With the positions AAPL stock and AAPL call 150 expiring
2025-01-17 (in this order), a CLOSE_POSITION signal for the AAPL call 150 expiring
2025-01-17 removes the stock position and leaves the call position that matches the
signal. -/
theorem close_ignores_option_key :
    ((executeSignal 0
        (executeSignal 0
          (executeSignal 0 (AlgorithmicEngine.init : AlgorithmicEngine ℚ)
            ⟨"s", "AAPL", SignalType.BUY, 100, 10, 0.9, "", 0, 0, "", true⟩)
          ⟨"s", "AAPL", SignalType.BUY_CALL, 5, 1, 0.9, "", 1, 150, "2025-01-17", true⟩)
        ⟨"s", "AAPL", SignalType.CLOSE_POSITION, 5, 1, 0.9, "", 2, 150, "2025-01-17",
          true⟩).positions_.map specKey) =
      [("AAPL", some (150, "2025-01-17", true))] ∧
    specSignalKey (⟨"s", "AAPL", SignalType.CLOSE_POSITION, 5, 1, 0.9, "", 2, 150,
      "2025-01-17", true⟩ : TradingSignal ℚ) = ("AAPL", some (150, "2025-01-17", true)) := by
  decide!

/-- Claim C29, amended. Executing a CLOSE_POSITION signal removes the first position, in
the order of the list, whose symbol is the signal's symbol, whatever its option key,
and leaves every other position unchanged and in place, and the rest of the engine
unchanged; when no position has the symbol, and for every HOLD signal, the engine is
unchanged. -/
theorem close_position_by_symbol (indeterminate : α) (self : AlgorithmicEngine α)
    (signal : TradingSignal α) :
    (signal.signal_type = SignalType.CLOSE_POSITION →
      ((∀ p ∈ self.positions_, p.symbol ≠ signal.symbol) →
        executeSignal indeterminate self signal = self) ∧
      (∀ (l1 l2 : List (Position α)) (p : Position α),
        self.positions_ = l1 ++ p :: l2 → p.symbol = signal.symbol →
        (∀ q ∈ l1, q.symbol ≠ signal.symbol) →
        executeSignal indeterminate self signal = { self with positions_ := l1 ++ l2 })) ∧
    (signal.signal_type = SignalType.HOLD →
      executeSignal indeterminate self signal = self) := by
  constructor
  · intro hs
    have e : executeSignal indeterminate self signal =
        { self with positions_ := closePosition signal.symbol self.positions_ } := by
      unfold executeSignal
      rw [hs]
    constructor
    · intro hno
      rw [e, closePosition_none _ _ hno]
    · intro l1 l2 p hl hp hq
      rw [e, hl, closePosition_first _ _ _ _ hp hq]
  · intro hs
    unfold executeSignal
    rw [hs]

/-! ## The momentum strategy -/

theorem umapFind_umapAssign_self {β : Type} (mp : List (String × β)) (key : String) (v : β) :
    umapFind (umapAssign mp key v) key = some v := by
  induction mp with
  | nil => simp [umapAssign, umapFind]
  | cons kv mp ih =>
    obtain ⟨k, w⟩ := kv
    by_cases h : k = key
    · simp [umapAssign, umapFind, h]
    · simp [umapAssign, umapFind, h, ih]

theorem stdMin_eq_min_algo (a b : α) : stdMin a b = min a b := by
  unfold stdMin
  rcases lt_or_le b a with h | h
  · rw [if_pos h, min_eq_right h.le]
  · rw [if_neg (not_lt.2 h), min_eq_left h]

/-- The entry of the symbol after the update of the price history: its prices end with
the price of the tick. -/
theorem updateHistory_find {β : Type} (self : MomentumStrategy β) (data : MarketData β) :
    ∃ it : PriceHistory β, ∃ pre : List β,
      umapFind (updateHistory self data).price_history_ data.symbol = some it ∧
      it.prices = pre ++ [data.price] ∧
      historyPrices (updateHistory self data) data.symbol = it.prices ∧
      (updateHistory self data).config_ = self.config_ := by
  have key : ∀ old : List β, ∃ pre : List β,
      (if (old ++ [data.price]).length > MAX_HISTORY then (old ++ [data.price]).tail
        else old ++ [data.price]) = pre ++ [data.price] := by
    intro old
    split_ifs with h
    · cases old with
      | nil => simp [MAX_HISTORY] at h
      | cons a old2 => exact ⟨old2, rfl⟩
    · exact ⟨old, rfl⟩
  obtain ⟨pre, hpre⟩ := key ((umapFind self.price_history_ data.symbol).getD ⟨[], []⟩).prices
  refine ⟨_, pre, umapFind_umapAssign_self _ _ _, ?_, ?_, rfl⟩
  · rw [← hpre]
    split_ifs <;> rfl
  · unfold historyPrices
    rw [show umapFind (updateHistory self data).price_history_ data.symbol = some _ from
      umapFind_umapAssign_self _ _ _]

theorem calculateMomentum_eq (self : MomentumStrategy α) (symbol : String) (n : Nat)
    (it : PriceHistory α) (pre : List α) (price : α)
    (hf : umapFind self.price_history_ symbol = some it) (hp : it.prices = pre ++ [price])
    (hlen : n + 1 ≤ it.prices.length) :
    calculateMomentum self symbol n =
      (price - it.prices.getD (it.prices.length - n - 1) 0) /
        it.prices.getD (it.prices.length - n - 1) 0 := by
  unfold calculateMomentum
  rw [hf]
  simp only []
  rw [if_neg (by omega)]
  have hl : it.prices.getD (it.prices.length - 1) 0 = price := by
    rw [hp]
    simp
  rw [hl]

/-- Claim C30. For every tick `data` after which the history of its symbol holds at
least 21 prices, with the thresholds `M` and `V` in the parameters: if
`short_momentum = (p_t - p_{t-5}) / p_{t-5} > M`,
`long_momentum = (p_t - p_{t-20}) / p_{t-20} > 0`, the volatility is below `V` and the
RSI below 70, then the loop body of `generateSignals` appends exactly one signal for
the tick, a BUY for the symbol at the tick price with confidence
`min(0.95, 0.5 + 10 * short_momentum)` and quantity `max_position_size`; so
`generateSignals` on that tick alone returns exactly this signal. -/
theorem momentum_buy_signal (m : options.Libm α) (now : Int) (self : MomentumStrategy α)
    (signals : List (TradingSignal α)) (data : MarketData α) (M V : α)
    (hM : umapFind self.config_.parameters "momentum_threshold" = some M)
    (hV : umapFind self.config_.parameters "volatility_threshold" = some V)
    (hlen : 21 ≤ (historyPrices (updateHistory self data) data.symbol).length)
    (hshort : (data.price - (historyPrices (updateHistory self data) data.symbol).getD
        ((historyPrices (updateHistory self data) data.symbol).length - 6) 0) /
      (historyPrices (updateHistory self data) data.symbol).getD
        ((historyPrices (updateHistory self data) data.symbol).length - 6) 0 > M)
    (hlong : (data.price - (historyPrices (updateHistory self data) data.symbol).getD
        ((historyPrices (updateHistory self data) data.symbol).length - 21) 0) /
      (historyPrices (updateHistory self data) data.symbol).getD
        ((historyPrices (updateHistory self data) data.symbol).length - 21) 0 > 0)
    (hvol : calculateVolatility m (updateHistory self data) data.symbol 20 < V)
    (hrsi : data.rsi < 70) :
    ∃ signal : TradingSignal α,
      generateSignalsStep m now self signals data =
        some (updateHistory self data, signals ++ [signal]) ∧
      generateSignals m now self [data] = some (updateHistory self data, [signal]) ∧
      signal.signal_type = SignalType.BUY ∧ signal.symbol = data.symbol ∧
      signal.price = data.price ∧
      signal.confidence = min 0.95 (0.5 + 10 *
        ((data.price - (historyPrices (updateHistory self data) data.symbol).getD
          ((historyPrices (updateHistory self data) data.symbol).length - 6) 0) /
        (historyPrices (updateHistory self data) data.symbol).getD
          ((historyPrices (updateHistory self data) data.symbol).length - 6) 0)) ∧
      signal.quantity = self.config_.max_position_size := by
  obtain ⟨it, pre, hf, hp, hh, hc⟩ := updateHistory_find self data
  rw [hh] at hlen hshort hlong ⊢
  have e5 := calculateMomentum_eq (updateHistory self data) data.symbol 5 it pre data.price
    hf hp (by omega)
  have e20 := calculateMomentum_eq (updateHistory self data) data.symbol 20 it pre data.price
    hf hp (by omega)
  have i5 : it.prices.length - 5 - 1 = it.prices.length - 6 := by omega
  have i20 : it.prices.length - 20 - 1 = it.prices.length - 21 := by omega
  rw [i5] at e5
  rw [i20] at e20
  have hstep : ∀ sigs : List (TradingSignal α),
      generateSignalsStep m now self sigs data =
        some (updateHistory self data, sigs ++
          [createSignal now (updateHistory self data) data.symbol SignalType.BUY data.price
            (stdMin 0.95 (0.5 + (calculateMomentum (updateHistory self data) data.symbol 5 *
              10))) "Strong upward momentum detected"]) := by
    intro sigs
    unfold generateSignalsStep
    simp only []
    rw [if_neg (by rw [hh]; omega), hc, hM, hV]
    simp only []
    rw [if_pos ⟨by rw [e5]; exact hshort, by rw [e20]; exact hlong, hvol⟩, if_pos hrsi]
  refine ⟨_, hstep signals, ?_, rfl, rfl, rfl, ?_, ?_⟩
  · unfold generateSignals
    rw [generateSignalsLoop, hstep []]
    rfl
  · show stdMin 0.95 _ = _
    rw [stdMin_eq_min_algo, e5, mul_comm]
  · show (updateHistory self data).config_.max_position_size = _
    rw [hc]

theorem real_history_example :
    historyPrices
      (updateHistory
        (⟨⟨StrategyType.MOMENTUM, "momentum",
            [("momentum_threshold", 0.02), ("volatility_threshold", 0.03)],
            ["AAPL"], true, 100, 0.05, 0.10⟩, [],
          [("AAPL", ⟨[100, 100, 100, 100, 100, 100, 100, 100, 100, 100, 100, 100, 100, 100,
              100, 100, 100, 100, 100, 100, 103, 106.09, 109.2727, 112.550881],
            [0, 1, 2, 3, 4, 5, 6, 7, 8, 9, 10, 11, 12, 13, 14, 15, 16, 17, 18, 19, 20, 21,
              22, 23]⟩)]⟩ : MomentumStrategy ℝ)
        ⟨"AAPL", 115.92740743, 5000, 115.9, 116, 24, 0, 0, 50, 0, 0, 0, 0⟩) "AAPL" =
      [100, 100, 100, 100, 100, 100, 100, 100, 100, 100, 100, 100, 100, 100,
        100, 100, 100, 100, 100, 100, 103, 106.09, 109.2727, 112.550881, 115.92740743] := by
  simp [historyPrices, updateHistory, umapFind, umapAssign, MAX_HISTORY]

theorem real_volatility_example :
    calculateVolatility options.realLibm
      (updateHistory
        (⟨⟨StrategyType.MOMENTUM, "momentum",
            [("momentum_threshold", 0.02), ("volatility_threshold", 0.03)],
            ["AAPL"], true, 100, 0.05, 0.10⟩, [],
          [("AAPL", ⟨[100, 100, 100, 100, 100, 100, 100, 100, 100, 100, 100, 100, 100, 100,
              100, 100, 100, 100, 100, 100, 103, 106.09, 109.2727, 112.550881],
            [0, 1, 2, 3, 4, 5, 6, 7, 8, 9, 10, 11, 12, 13, 14, 15, 16, 17, 18, 19, 20, 21,
              22, 23]⟩)]⟩ : MomentumStrategy ℝ)
        ⟨"AAPL", 115.92740743, 5000, 115.9, 116, 24, 0, 0, 50, 0, 0, 0, 0⟩) "AAPL" 20 <
      0.03 := by
  have hr : List.range' 5 19 =
      [5, 6, 7, 8, 9, 10, 11, 12, 13, 14, 15, 16, 17, 18, 19, 20, 21, 22, 23] := by decide
  simp only [calculateVolatility, updateHistory, umapFind, umapAssign, MAX_HISTORY,
    Option.getD, List.length_append, List.length_cons, List.length_nil, if_true,
    List.cons_append, List.nil_append]
  norm_num [hr, List.getD_cons_succ, List.getD_cons_zero]
  show Real.sqrt (63 / 361000) < 3 / 100
  rw [Real.sqrt_lt' (by norm_num)]
  norm_num

/-- The example of the claim: 24 prices of AAPL in the history, 100 twenty times and
then a rise of 3 percent per tick, and the tick 115.92740743 with RSI 50, with
thresholds 0.02 and 0.03. The hypotheses of `momentum_buy_signal` hold over the reals,
and the one signal is a BUY with confidence at least 0.8. -/
theorem momentum_buy_signal_witness :
    ∃ signal : TradingSignal ℝ,
      generateSignals options.realLibm 0
        (⟨⟨StrategyType.MOMENTUM, "momentum",
            [("momentum_threshold", 0.02), ("volatility_threshold", 0.03)],
              ["AAPL"], true, 100, 0.05, 0.10⟩, [],
            [("AAPL", ⟨[100, 100, 100, 100, 100, 100, 100, 100, 100, 100, 100, 100, 100, 100,
                100, 100, 100, 100, 100, 100, 103, 106.09, 109.2727, 112.550881],
              [0, 1, 2, 3, 4, 5, 6, 7, 8, 9, 10, 11, 12, 13, 14, 15, 16, 17, 18, 19, 20, 21,
                22, 23]⟩)]⟩ : MomentumStrategy ℝ)
        [⟨"AAPL", 115.92740743, 5000, 115.9, 116, 24, 0, 0, 50, 0, 0, 0, 0⟩] =
        some (updateHistory
          (⟨⟨StrategyType.MOMENTUM, "momentum",
            [("momentum_threshold", 0.02), ("volatility_threshold", 0.03)],
                ["AAPL"], true, 100, 0.05, 0.10⟩, [],
              [("AAPL", ⟨[100, 100, 100, 100, 100, 100, 100, 100, 100, 100, 100, 100, 100, 100,
                  100, 100, 100, 100, 100, 100, 103, 106.09, 109.2727, 112.550881],
                [0, 1, 2, 3, 4, 5, 6, 7, 8, 9, 10, 11, 12, 13, 14, 15, 16, 17, 18, 19, 20, 21,
                  22, 23]⟩)]⟩ : MomentumStrategy ℝ)
          ⟨"AAPL", 115.92740743, 5000, 115.9, 116, 24, 0, 0, 50, 0, 0, 0, 0⟩, [signal]) ∧
      signal.signal_type = SignalType.BUY ∧ signal.confidence ≥ 0.8 := by
  have hh := real_history_example
  obtain ⟨signal, -, h2, h3, -, -, h6, -⟩ := momentum_buy_signal options.realLibm 0
    (⟨⟨StrategyType.MOMENTUM, "momentum",
            [("momentum_threshold", 0.02), ("volatility_threshold", 0.03)],
            ["AAPL"], true, 100, 0.05, 0.10⟩, [],
          [("AAPL", ⟨[100, 100, 100, 100, 100, 100, 100, 100, 100, 100, 100, 100, 100, 100,
              100, 100, 100, 100, 100, 100, 103, 106.09, 109.2727, 112.550881],
            [0, 1, 2, 3, 4, 5, 6, 7, 8, 9, 10, 11, 12, 13, 14, 15, 16, 17, 18, 19, 20, 21,
              22, 23]⟩)]⟩ : MomentumStrategy ℝ)
    [] ⟨"AAPL", 115.92740743, 5000, 115.9, 116, 24, 0, 0, 50, 0, 0, 0, 0⟩ 0.02 0.03
    (by simp [umapFind]) (by simp [umapFind])
    (by rw [hh]; simp)
    (by rw [hh]; norm_num [List.getD_cons_succ, List.getD_cons_zero])
    (by rw [hh]; norm_num [List.getD_cons_succ, List.getD_cons_zero])
    real_volatility_example (by norm_num)
  refine ⟨signal, h2, h3, ?_⟩
  rw [h6, hh]
  norm_num [List.getD_cons_succ, List.getD_cons_zero]

/-! ## The decision table of the momentum strategy -/

theorem isBreakout_upper (data : MarketData α)
    (hprice : data.price > data.bollinger_upper)
    (hband : data.bollinger_upper > data.bollinger_lower) (hvolume : data.volume > 1000) :
    isBreakout data = true := by
  have hbw : 0 < data.bollinger_upper - data.bollinger_lower := by linarith
  have hpp : (data.price - data.bollinger_lower) /
      (data.bollinger_upper - data.bollinger_lower) > 1.0 := by
    have one : (1.0 : α) = 1 := by norm_num
    rw [one, gt_iff_lt, lt_div_iff₀ hbw]
    linarith
  unfold isBreakout
  simp only [decide_eq_true hpp, decide_eq_true hvolume, Bool.true_or, Bool.and_self]

/-- The loop body of `generateSignals` once the history is long enough and the
thresholds are read. -/
theorem generateSignalsStep_rows (m : options.Libm α) (now : Int)
    (self : MomentumStrategy α) (signals : List (TradingSignal α)) (data : MarketData α)
    (M V : α)
    (hM : umapFind self.config_.parameters "momentum_threshold" = some M)
    (hV : umapFind self.config_.parameters "volatility_threshold" = some V)
    (hlen : 20 ≤ (historyPrices (updateHistory self data) data.symbol).length) :
    ((calculateMomentum (updateHistory self data) data.symbol 5 > M ∧
        calculateMomentum (updateHistory self data) data.symbol 20 > 0 ∧
        calculateVolatility m (updateHistory self data) data.symbol 20 < V) →
      ¬ data.rsi < 70 →
      generateSignalsStep m now self signals data =
        some (updateHistory self data, signals)) ∧
    ((calculateMomentum (updateHistory self data) data.symbol 5 < -M ∧
        calculateMomentum (updateHistory self data) data.symbol 20 < 0 ∧
        calculateVolatility m (updateHistory self data) data.symbol 20 < V) →
      ¬ (calculateMomentum (updateHistory self data) data.symbol 5 > M ∧
        calculateMomentum (updateHistory self data) data.symbol 20 > 0 ∧
        calculateVolatility m (updateHistory self data) data.symbol 20 < V) →
      ¬ data.rsi > 30 →
      generateSignalsStep m now self signals data =
        some (updateHistory self data, signals)) ∧
    (¬ (calculateMomentum (updateHistory self data) data.symbol 5 > M ∧
        calculateMomentum (updateHistory self data) data.symbol 20 > 0 ∧
        calculateVolatility m (updateHistory self data) data.symbol 20 < V) →
      ¬ (calculateMomentum (updateHistory self data) data.symbol 5 < -M ∧
        calculateMomentum (updateHistory self data) data.symbol 20 < 0 ∧
        calculateVolatility m (updateHistory self data) data.symbol 20 < V) →
      isBreakout data = true → data.price > data.bollinger_upper →
      generateSignalsStep m now self signals data =
        some (updateHistory self data, signals ++
          [createSignal now (updateHistory self data) data.symbol SignalType.BUY data.price
            0.75 "Bollinger Band breakout (upper)"])) := by
  have hc : (updateHistory self data).config_ = self.config_ := rfl
  refine ⟨?_, ?_, ?_⟩
  · intro h1 hrsi
    unfold generateSignalsStep
    simp only []
    rw [if_neg (by omega), hc, hM, hV]
    simp only []
    rw [if_pos h1, if_neg hrsi]
  · intro h2 h1 hrsi
    unfold generateSignalsStep
    simp only []
    rw [if_neg (by omega), hc, hM, hV]
    simp only []
    rw [if_neg h1, if_pos h2, if_neg hrsi]
  · intro h1 h2 hb hp
    unfold generateSignalsStep
    simp only []
    rw [if_neg (by omega), hc, hM, hV]
    simp only []
    rw [if_neg h1, if_neg h2, if_pos hb, if_pos hp]

/-- Claim C31, amended. For every tick after which the history holds at least 20 prices
(thresholds `M` and `V` in the parameters): when neither momentum row's momentum and
volatility condition holds (row 1: short > M, long > 0, vol < V; row 2: short < -M,
long < 0, vol < V), whatever the RSI, and `price > bollinger_upper > bollinger_lower`
and `volume > 1000`, the loop body of `generateSignals` appends exactly one signal, a
BUY at the tick price with confidence 0.75. When row 1's momentum and volatility
condition holds and the RSI is not below 70, or row 2's holds and the RSI is not above
30, no signal is appended for the tick, breakout or not. -/
theorem breakout_after_momentum_rows (m : options.Libm α) (now : Int)
    (self : MomentumStrategy α) (signals : List (TradingSignal α)) (data : MarketData α)
    (M V : α)
    (hM : umapFind self.config_.parameters "momentum_threshold" = some M)
    (hV : umapFind self.config_.parameters "volatility_threshold" = some V)
    (hlen : 20 ≤ (historyPrices (updateHistory self data) data.symbol).length) :
    (¬ (calculateMomentum (updateHistory self data) data.symbol 5 > M ∧
        calculateMomentum (updateHistory self data) data.symbol 20 > 0 ∧
        calculateVolatility m (updateHistory self data) data.symbol 20 < V) →
      ¬ (calculateMomentum (updateHistory self data) data.symbol 5 < -M ∧
        calculateMomentum (updateHistory self data) data.symbol 20 < 0 ∧
        calculateVolatility m (updateHistory self data) data.symbol 20 < V) →
      data.price > data.bollinger_upper → data.bollinger_upper > data.bollinger_lower →
      data.volume > 1000 →
      ∃ signal : TradingSignal α,
        generateSignalsStep m now self signals data =
          some (updateHistory self data, signals ++ [signal]) ∧
        generateSignals m now self [data] = some (updateHistory self data, [signal]) ∧
        signal.signal_type = SignalType.BUY ∧ signal.confidence = 0.75 ∧
        signal.price = data.price ∧ signal.symbol = data.symbol) ∧
    ((calculateMomentum (updateHistory self data) data.symbol 5 > M ∧
        calculateMomentum (updateHistory self data) data.symbol 20 > 0 ∧
        calculateVolatility m (updateHistory self data) data.symbol 20 < V) →
      ¬ data.rsi < 70 →
      generateSignalsStep m now self signals data =
        some (updateHistory self data, signals)) ∧
    ((calculateMomentum (updateHistory self data) data.symbol 5 < -M ∧
        calculateMomentum (updateHistory self data) data.symbol 20 < 0 ∧
        calculateVolatility m (updateHistory self data) data.symbol 20 < V) →
      ¬ (calculateMomentum (updateHistory self data) data.symbol 5 > M ∧
        calculateMomentum (updateHistory self data) data.symbol 20 > 0 ∧
        calculateVolatility m (updateHistory self data) data.symbol 20 < V) →
      ¬ data.rsi > 30 →
      generateSignalsStep m now self signals data =
        some (updateHistory self data, signals)) := by
  obtain ⟨r1, r2, r3⟩ := generateSignalsStep_rows m now self signals data M V hM hV hlen
  refine ⟨?_, r1, r2⟩
  intro h1 h2 hp hband hvol
  have hb := isBreakout_upper data hp hband hvol
  refine ⟨_, r3 h1 h2 hb hp, ?_, rfl, rfl, rfl, rfl⟩
  unfold generateSignals
  rw [generateSignalsLoop,
    (generateSignalsStep_rows m now self [] data M V hM hV hlen).2.2 h1 h2 hb hp]
  rfl

theorem real_momentum_example :
    calculateMomentum
      (updateHistory
        (⟨⟨StrategyType.MOMENTUM, "momentum",
            [("momentum_threshold", 0.02), ("volatility_threshold", 0.03)],
            ["AAPL"], true, 100, 0.05, 0.10⟩, [],
          [("AAPL", ⟨[100, 100, 100, 100, 100, 100, 100, 100, 100, 100, 100, 100, 100, 100,
              100, 100, 100, 100, 100, 100, 103, 106.09, 109.2727, 112.550881],
            [0, 1, 2, 3, 4, 5, 6, 7, 8, 9, 10, 11, 12, 13, 14, 15, 16, 17, 18, 19, 20, 21,
              22, 23]⟩)]⟩ : MomentumStrategy ℝ)
        ⟨"AAPL", 115.92740743, 5000, 115.9, 116, 24, 0, 0, 50, 0, 0, 0, 0⟩) "AAPL" 5 > 0.02 ∧
    calculateMomentum
      (updateHistory
        (⟨⟨StrategyType.MOMENTUM, "momentum",
            [("momentum_threshold", 0.02), ("volatility_threshold", 0.03)],
            ["AAPL"], true, 100, 0.05, 0.10⟩, [],
          [("AAPL", ⟨[100, 100, 100, 100, 100, 100, 100, 100, 100, 100, 100, 100, 100, 100,
              100, 100, 100, 100, 100, 100, 103, 106.09, 109.2727, 112.550881],
            [0, 1, 2, 3, 4, 5, 6, 7, 8, 9, 10, 11, 12, 13, 14, 15, 16, 17, 18, 19, 20, 21,
              22, 23]⟩)]⟩ : MomentumStrategy ℝ)
        ⟨"AAPL", 115.92740743, 5000, 115.9, 116, 24, 0, 0, 50, 0, 0, 0, 0⟩) "AAPL" 20 > 0 := by
  constructor
  · simp only [calculateMomentum, updateHistory, umapFind, umapAssign, MAX_HISTORY,
      Option.getD, List.length_append, List.length_cons, List.length_nil, if_true,
      List.cons_append, List.nil_append]
    norm_num [List.getD_cons_succ, List.getD_cons_zero]
  · simp only [calculateMomentum, updateHistory, umapFind, umapAssign, MAX_HISTORY,
      Option.getD, List.length_append, List.length_cons, List.length_nil, if_true,
      List.cons_append, List.nil_append]
    norm_num [List.getD_cons_succ, List.getD_cons_zero]

/-- Claim C31 fails as stated. In the example of the momentum trigger (24 prices, 100
twenty times and then a rise of 3 percent per tick; thresholds 0.02 and 0.03) the tick
115.92740743 with RSI 75, Bollinger bands 110 and 90 and volume 5000 has 25 history
points; row 1's full trigger fails (RSI not below 70), row 2's fails (the short
momentum is positive), the price is above the upper band and the volume above 1000,
and `generateSignals` emits no signal for the tick. -/
theorem overbought_blocks_breakout :
    ¬ ((75 : ℝ) < 70) ∧
    ¬ (calculateMomentum
        (updateHistory
          (⟨⟨StrategyType.MOMENTUM, "momentum",
              [("momentum_threshold", 0.02), ("volatility_threshold", 0.03)],
              ["AAPL"], true, 100, 0.05, 0.10⟩, [],
            [("AAPL", ⟨[100, 100, 100, 100, 100, 100, 100, 100, 100, 100, 100, 100, 100, 100,
                100, 100, 100, 100, 100, 100, 103, 106.09, 109.2727, 112.550881],
              [0, 1, 2, 3, 4, 5, 6, 7, 8, 9, 10, 11, 12, 13, 14, 15, 16, 17, 18, 19, 20, 21,
                22, 23]⟩)]⟩ : MomentumStrategy ℝ)
          ⟨"AAPL", 115.92740743, 5000, 115.9, 116, 24, 0, 0, 75, 110, 90, 0, 0⟩) "AAPL" 5 < -0.02) ∧
    (115.92740743 : ℝ) > 110 ∧ (110 : ℝ) > 90 ∧ (5000 : ℝ) > 1000 ∧
    20 ≤ (historyPrices
        (updateHistory
          (⟨⟨StrategyType.MOMENTUM, "momentum",
              [("momentum_threshold", 0.02), ("volatility_threshold", 0.03)],
              ["AAPL"], true, 100, 0.05, 0.10⟩, [],
            [("AAPL", ⟨[100, 100, 100, 100, 100, 100, 100, 100, 100, 100, 100, 100, 100, 100,
                100, 100, 100, 100, 100, 100, 103, 106.09, 109.2727, 112.550881],
              [0, 1, 2, 3, 4, 5, 6, 7, 8, 9, 10, 11, 12, 13, 14, 15, 16, 17, 18, 19, 20, 21,
                22, 23]⟩)]⟩ : MomentumStrategy ℝ)
          ⟨"AAPL", 115.92740743, 5000, 115.9, 116, 24, 0, 0, 75, 110, 90, 0, 0⟩) "AAPL").length ∧
    generateSignals options.realLibm 0
        (⟨⟨StrategyType.MOMENTUM, "momentum",
            [("momentum_threshold", 0.02), ("volatility_threshold", 0.03)],
            ["AAPL"], true, 100, 0.05, 0.10⟩, [],
          [("AAPL", ⟨[100, 100, 100, 100, 100, 100, 100, 100, 100, 100, 100, 100, 100, 100,
              100, 100, 100, 100, 100, 100, 103, 106.09, 109.2727, 112.550881],
            [0, 1, 2, 3, 4, 5, 6, 7, 8, 9, 10, 11, 12, 13, 14, 15, 16, 17, 18, 19, 20, 21,
              22, 23]⟩)]⟩ : MomentumStrategy ℝ)
        [⟨"AAPL", 115.92740743, 5000, 115.9, 116, 24, 0, 0, 75, 110, 90, 0, 0⟩] =
      some (updateHistory
        (⟨⟨StrategyType.MOMENTUM, "momentum",
            [("momentum_threshold", 0.02), ("volatility_threshold", 0.03)],
            ["AAPL"], true, 100, 0.05, 0.10⟩, [],
          [("AAPL", ⟨[100, 100, 100, 100, 100, 100, 100, 100, 100, 100, 100, 100, 100, 100,
              100, 100, 100, 100, 100, 100, 103, 106.09, 109.2727, 112.550881],
            [0, 1, 2, 3, 4, 5, 6, 7, 8, 9, 10, 11, 12, 13, 14, 15, 16, 17, 18, 19, 20, 21,
              22, 23]⟩)]⟩ : MomentumStrategy ℝ)
        ⟨"AAPL", 115.92740743, 5000, 115.9, 116, 24, 0, 0, 75, 110, 90, 0, 0⟩, []) := by
  have hh : historyPrices
      (updateHistory
        (⟨⟨StrategyType.MOMENTUM, "momentum",
            [("momentum_threshold", 0.02), ("volatility_threshold", 0.03)],
            ["AAPL"], true, 100, 0.05, 0.10⟩, [],
          [("AAPL", ⟨[100, 100, 100, 100, 100, 100, 100, 100, 100, 100, 100, 100, 100, 100,
              100, 100, 100, 100, 100, 100, 103, 106.09, 109.2727, 112.550881],
            [0, 1, 2, 3, 4, 5, 6, 7, 8, 9, 10, 11, 12, 13, 14, 15, 16, 17, 18, 19, 20, 21,
              22, 23]⟩)]⟩ : MomentumStrategy ℝ)
        ⟨"AAPL", 115.92740743, 5000, 115.9, 116, 24, 0, 0, 75, 110, 90, 0, 0⟩) "AAPL" = _ := real_history_example
  have hm : calculateMomentum
      (updateHistory
        (⟨⟨StrategyType.MOMENTUM, "momentum",
            [("momentum_threshold", 0.02), ("volatility_threshold", 0.03)],
            ["AAPL"], true, 100, 0.05, 0.10⟩, [],
          [("AAPL", ⟨[100, 100, 100, 100, 100, 100, 100, 100, 100, 100, 100, 100, 100, 100,
              100, 100, 100, 100, 100, 100, 103, 106.09, 109.2727, 112.550881],
            [0, 1, 2, 3, 4, 5, 6, 7, 8, 9, 10, 11, 12, 13, 14, 15, 16, 17, 18, 19, 20, 21,
              22, 23]⟩)]⟩ : MomentumStrategy ℝ)
        ⟨"AAPL", 115.92740743, 5000, 115.9, 116, 24, 0, 0, 75, 110, 90, 0, 0⟩) "AAPL" 5 > 0.02 ∧ _ := real_momentum_example
  have hv : calculateVolatility options.realLibm
      (updateHistory
        (⟨⟨StrategyType.MOMENTUM, "momentum",
            [("momentum_threshold", 0.02), ("volatility_threshold", 0.03)],
            ["AAPL"], true, 100, 0.05, 0.10⟩, [],
          [("AAPL", ⟨[100, 100, 100, 100, 100, 100, 100, 100, 100, 100, 100, 100, 100, 100,
              100, 100, 100, 100, 100, 100, 103, 106.09, 109.2727, 112.550881],
            [0, 1, 2, 3, 4, 5, 6, 7, 8, 9, 10, 11, 12, 13, 14, 15, 16, 17, 18, 19, 20, 21,
              22, 23]⟩)]⟩ : MomentumStrategy ℝ)
        ⟨"AAPL", 115.92740743, 5000, 115.9, 116, 24, 0, 0, 75, 110, 90, 0, 0⟩) "AAPL" 20 < 0.03 := real_volatility_example
  have hlen : 20 ≤ (historyPrices
      (updateHistory
        (⟨⟨StrategyType.MOMENTUM, "momentum",
            [("momentum_threshold", 0.02), ("volatility_threshold", 0.03)],
            ["AAPL"], true, 100, 0.05, 0.10⟩, [],
          [("AAPL", ⟨[100, 100, 100, 100, 100, 100, 100, 100, 100, 100, 100, 100, 100, 100,
              100, 100, 100, 100, 100, 100, 103, 106.09, 109.2727, 112.550881],
            [0, 1, 2, 3, 4, 5, 6, 7, 8, 9, 10, 11, 12, 13, 14, 15, 16, 17, 18, 19, 20, 21,
              22, 23]⟩)]⟩ : MomentumStrategy ℝ)
        ⟨"AAPL", 115.92740743, 5000, 115.9, 116, 24, 0, 0, 75, 110, 90, 0, 0⟩) "AAPL").length := by
    rw [hh]
    simp
  refine ⟨by norm_num, ?_, by norm_num, by norm_num, by norm_num, hlen, ?_⟩
  · have := hm.1
    intro hneg
    linarith
  · have hstep := (generateSignalsStep_rows options.realLibm 0
      (⟨⟨StrategyType.MOMENTUM, "momentum",
            [("momentum_threshold", 0.02), ("volatility_threshold", 0.03)],
            ["AAPL"], true, 100, 0.05, 0.10⟩, [],
          [("AAPL", ⟨[100, 100, 100, 100, 100, 100, 100, 100, 100, 100, 100, 100, 100, 100,
              100, 100, 100, 100, 100, 100, 103, 106.09, 109.2727, 112.550881],
            [0, 1, 2, 3, 4, 5, 6, 7, 8, 9, 10, 11, 12, 13, 14, 15, 16, 17, 18, 19, 20, 21,
              22, 23]⟩)]⟩ : MomentumStrategy ℝ)
      [] ⟨"AAPL", 115.92740743, 5000, 115.9, 116, 24, 0, 0, 75, 110, 90, 0, 0⟩ 0.02 0.03
      (by simp [umapFind]) (by simp [umapFind]) hlen).1 ⟨hm.1, hm.2, hv⟩ (by norm_num)
    unfold generateSignals
    rw [generateSignalsLoop, hstep]
    rfl

/-- The example of the momentum trigger with the tick 115.92740743 satisfies the
hypotheses of `breakout_after_momentum_rows`; row 1's condition holds there, so with
RSI 75 no signal is appended. -/
theorem breakout_after_momentum_rows_witness :
    umapFind
      (⟨⟨StrategyType.MOMENTUM, "momentum",
            [("momentum_threshold", 0.02), ("volatility_threshold", 0.03)],
            ["AAPL"], true, 100, 0.05, 0.10⟩, [],
          [("AAPL", ⟨[100, 100, 100, 100, 100, 100, 100, 100, 100, 100, 100, 100, 100, 100,
              100, 100, 100, 100, 100, 100, 103, 106.09, 109.2727, 112.550881],
            [0, 1, 2, 3, 4, 5, 6, 7, 8, 9, 10, 11, 12, 13, 14, 15, 16, 17, 18, 19, 20, 21,
              22, 23]⟩)]⟩ : MomentumStrategy ℝ).config_.parameters
      "momentum_threshold" = some 0.02 ∧
    generateSignalsStep options.realLibm 0
        (⟨⟨StrategyType.MOMENTUM, "momentum",
            [("momentum_threshold", 0.02), ("volatility_threshold", 0.03)],
            ["AAPL"], true, 100, 0.05, 0.10⟩, [],
          [("AAPL", ⟨[100, 100, 100, 100, 100, 100, 100, 100, 100, 100, 100, 100, 100, 100,
              100, 100, 100, 100, 100, 100, 103, 106.09, 109.2727, 112.550881],
            [0, 1, 2, 3, 4, 5, 6, 7, 8, 9, 10, 11, 12, 13, 14, 15, 16, 17, 18, 19, 20, 21,
              22, 23]⟩)]⟩ : MomentumStrategy ℝ)
        [] ⟨"AAPL", 115.92740743, 5000, 115.9, 116, 24, 0, 0, 75, 110, 90, 0, 0⟩ =
      some (updateHistory
        (⟨⟨StrategyType.MOMENTUM, "momentum",
            [("momentum_threshold", 0.02), ("volatility_threshold", 0.03)],
            ["AAPL"], true, 100, 0.05, 0.10⟩, [],
          [("AAPL", ⟨[100, 100, 100, 100, 100, 100, 100, 100, 100, 100, 100, 100, 100, 100,
              100, 100, 100, 100, 100, 100, 103, 106.09, 109.2727, 112.550881],
            [0, 1, 2, 3, 4, 5, 6, 7, 8, 9, 10, 11, 12, 13, 14, 15, 16, 17, 18, 19, 20, 21,
              22, 23]⟩)]⟩ : MomentumStrategy ℝ)
        ⟨"AAPL", 115.92740743, 5000, 115.9, 116, 24, 0, 0, 75, 110, 90, 0, 0⟩, []) := by
  have hh : historyPrices
      (updateHistory
        (⟨⟨StrategyType.MOMENTUM, "momentum",
            [("momentum_threshold", 0.02), ("volatility_threshold", 0.03)],
            ["AAPL"], true, 100, 0.05, 0.10⟩, [],
          [("AAPL", ⟨[100, 100, 100, 100, 100, 100, 100, 100, 100, 100, 100, 100, 100, 100,
              100, 100, 100, 100, 100, 100, 103, 106.09, 109.2727, 112.550881],
            [0, 1, 2, 3, 4, 5, 6, 7, 8, 9, 10, 11, 12, 13, 14, 15, 16, 17, 18, 19, 20, 21,
              22, 23]⟩)]⟩ : MomentumStrategy ℝ)
        ⟨"AAPL", 115.92740743, 5000, 115.9, 116, 24, 0, 0, 75, 110, 90, 0, 0⟩) "AAPL" = _ := real_history_example
  have hm : calculateMomentum
      (updateHistory
        (⟨⟨StrategyType.MOMENTUM, "momentum",
            [("momentum_threshold", 0.02), ("volatility_threshold", 0.03)],
            ["AAPL"], true, 100, 0.05, 0.10⟩, [],
          [("AAPL", ⟨[100, 100, 100, 100, 100, 100, 100, 100, 100, 100, 100, 100, 100, 100,
              100, 100, 100, 100, 100, 100, 103, 106.09, 109.2727, 112.550881],
            [0, 1, 2, 3, 4, 5, 6, 7, 8, 9, 10, 11, 12, 13, 14, 15, 16, 17, 18, 19, 20, 21,
              22, 23]⟩)]⟩ : MomentumStrategy ℝ)
        ⟨"AAPL", 115.92740743, 5000, 115.9, 116, 24, 0, 0, 75, 110, 90, 0, 0⟩) "AAPL" 5 > 0.02 ∧ _ := real_momentum_example
  have hv : calculateVolatility options.realLibm
      (updateHistory
        (⟨⟨StrategyType.MOMENTUM, "momentum",
            [("momentum_threshold", 0.02), ("volatility_threshold", 0.03)],
            ["AAPL"], true, 100, 0.05, 0.10⟩, [],
          [("AAPL", ⟨[100, 100, 100, 100, 100, 100, 100, 100, 100, 100, 100, 100, 100, 100,
              100, 100, 100, 100, 100, 100, 103, 106.09, 109.2727, 112.550881],
            [0, 1, 2, 3, 4, 5, 6, 7, 8, 9, 10, 11, 12, 13, 14, 15, 16, 17, 18, 19, 20, 21,
              22, 23]⟩)]⟩ : MomentumStrategy ℝ)
        ⟨"AAPL", 115.92740743, 5000, 115.9, 116, 24, 0, 0, 75, 110, 90, 0, 0⟩) "AAPL" 20 < 0.03 := real_volatility_example
  refine ⟨by simp [umapFind], ?_⟩
  exact (breakout_after_momentum_rows options.realLibm 0
    (⟨⟨StrategyType.MOMENTUM, "momentum",
            [("momentum_threshold", 0.02), ("volatility_threshold", 0.03)],
            ["AAPL"], true, 100, 0.05, 0.10⟩, [],
          [("AAPL", ⟨[100, 100, 100, 100, 100, 100, 100, 100, 100, 100, 100, 100, 100, 100,
              100, 100, 100, 100, 100, 100, 103, 106.09, 109.2727, 112.550881],
            [0, 1, 2, 3, 4, 5, 6, 7, 8, 9, 10, 11, 12, 13, 14, 15, 16, 17, 18, 19, 20, 21,
              22, 23]⟩)]⟩ : MomentumStrategy ℝ)
    [] ⟨"AAPL", 115.92740743, 5000, 115.9, 116, 24, 0, 0, 75, 110, 90, 0, 0⟩ 0.02 0.03
    (by simp [umapFind]) (by simp [umapFind])
    (by rw [hh]; simp)).2.1 ⟨hm.1, hm.2, hv⟩ (by norm_num)

/-! ## `calculateVolatility` -/

theorem drop_range_eq (n k : Nat) : (List.range n).drop k = List.range' k (n - k) := by
  apply List.ext_getElem?
  intro i
  rw [List.getElem?_drop]
  by_cases h : k + i < n
  · rw [List.getElem?_range h, List.getElem?_eq_getElem (by simp; omega)]
    simp
  · rw [List.getElem?_eq_none (by simp; omega), List.getElem?_eq_none (by simp; omega)]

theorem getD_drop_eq {β : Type} (xs : List β) (k i : Nat) (d : β) :
    (xs.drop k).getD i d = xs.getD (k + i) d := by
  rw [List.getD_eq_getElem?_getD, List.getD_eq_getElem?_getD, List.getElem?_drop]

theorem foldl_plus_sum_algo (xs : List α) (a : α) :
    xs.foldl (fun acc x => acc + x) a = a + xs.sum := by
  induction xs generalizing a with
  | nil => simp
  | cons x xs ih => simp [List.foldl_cons, ih, add_assoc]

theorem foldl_sq_sum (c : α) (xs : List α) (a : α) :
    xs.foldl (fun variance ret => variance + (ret - c) * (ret - c)) a =
      a + (xs.map (fun x => (x - c) ^ 2)).sum := by
  induction xs generalizing a with
  | nil => simp
  | cons x xs ih =>
    rw [List.foldl_cons, ih, List.map_cons, List.sum_cons]
    ring

/-- The returns that the loop of `calculateVolatility` collects: the last
`lookback_periods - 1` returns of the series. -/
theorem volatility_returns (prices : List α) (n : Nat) (hn : 1 ≤ n)
    (hlen : n ≤ prices.length) :
    (List.range' (prices.length - n) (prices.length - 1 - (prices.length - n))).map
        (fun i => (prices.getD (i + 1) 0 - prices.getD i 0) / prices.getD i 0) =
      specLast (n - 1) (specReturns prices) ∧
    (specLast (n - 1) (specReturns prices)).length = n - 1 ∧
    specLast (n - 1) (specReturns prices) = specReturns (specLast n prices) := by
  have hlr : (specReturns prices).length = prices.length - 1 := by simp [specReturns]
  have e1 : specLast (n - 1) (specReturns prices) =
      (List.range' (prices.length - n) (n - 1)).map
        (fun i => (prices.getD (i + 1) 0 - prices.getD i 0) / prices.getD i 0) := by
    unfold specLast
    rw [hlr]
    unfold specReturns
    rw [← List.map_drop, drop_range_eq]
    congr 2 <;> omega
  refine ⟨?_, ?_, ?_⟩
  · rw [e1]
    congr 2
    omega
  · rw [e1, List.length_map, List.length_range']
  · rw [e1]
    unfold specReturns specLast
    rw [List.length_drop, List.range'_eq_map_range, List.map_map]
    have hc : prices.length - (prices.length - n) - 1 = n - 1 := by omega
    rw [hc]
    apply List.map_congr_left
    intro i _
    simp only [Function.comp, getD_drop_eq]
    rw [show prices.length - n + i + 1 = prices.length - n + (i + 1) by omega]

theorem calculateVolatility_eq (m : options.Libm α) (self : MomentumStrategy α)
    (symbol : String) (it : PriceHistory α)
    (hf : umapFind self.price_history_ symbol = some it) (n : Nat) (hn : 2 ≤ n)
    (hlen : n ≤ it.prices.length) :
    calculateVolatility m self symbol n =
      m.sqrt (specPopVariance (specLast (n - 1) (specReturns it.prices))) := by
  obtain ⟨r1, r2, -⟩ := volatility_returns it.prices n (by omega) hlen
  unfold calculateVolatility
  rw [hf]
  simp only []
  rw [if_neg (by omega), r1]
  have hne : (specLast (n - 1) (specReturns it.prices)).isEmpty = false := by
    cases hq : specLast (n - 1) (specReturns it.prices) with
    | nil =>
      rw [hq, List.length_nil] at r2
      omega
    | cons a as => rfl
  rw [hne]
  simp only [Bool.false_eq_true, if_false, foldl_plus_sum_algo, foldl_sq_sum]
  have z : (0.0 : α) = 0 := by norm_num
  rw [z, zero_add, zero_add]
  rfl

theorem real_returns_example :
    specReturns ([1, 2, 2, 2, 2, 2, 2, 2, 2, 2, 2, 2, 2, 2, 2, 2, 2, 2, 2, 2, 2] : List ℝ) =
      [1, 0, 0, 0, 0, 0, 0, 0, 0, 0, 0, 0, 0, 0, 0, 0, 0, 0, 0, 0] := by
  have hr : List.range 20 =
      [0, 1, 2, 3, 4, 5, 6, 7, 8, 9, 10, 11, 12, 13, 14, 15, 16, 17, 18, 19] := by decide
  simp only [specReturns, List.length_cons, List.length_nil]
  norm_num [hr, List.getD_cons_succ, List.getD_cons_zero]

/-- Claim C32 fails as stated. For the 21 prices 1, 2, 2, ..., 2 (all non-zero) the last
20 returns are 1 and nineteen times 0, with population variance 19/400, so their
standard deviation is not 0; `calculateVolatility(symbol, 20)` uses the last 19
returns only, all 0, and returns 0. -/
theorem volatility_uses_19_returns :
    specLast 20 (specReturns ([1, 2, 2, 2, 2, 2, 2, 2, 2, 2, 2, 2, 2, 2, 2, 2, 2, 2, 2, 2, 2] : List ℝ)) =
      [1, 0, 0, 0, 0, 0, 0, 0, 0, 0, 0, 0, 0, 0, 0, 0, 0, 0, 0, 0] ∧
    options.realLibm.sqrt (specPopVariance (specLast 20
      (specReturns ([1, 2, 2, 2, 2, 2, 2, 2, 2, 2, 2, 2, 2, 2, 2, 2, 2, 2, 2, 2, 2] : List ℝ)))) ≠ 0 ∧
    calculateVolatility options.realLibm
      (⟨⟨StrategyType.MOMENTUM, "momentum", [], ["AAPL"], true, 100, 0.05, 0.10⟩, [],
        [("AAPL", ⟨[1, 2, 2, 2, 2, 2, 2, 2, 2, 2, 2, 2, 2, 2, 2, 2, 2, 2, 2, 2, 2], []⟩)]⟩ :
        MomentumStrategy ℝ) "AAPL" 20 = 0 := by
  have h20 : specLast 20 (specReturns ([1, 2, 2, 2, 2, 2, 2, 2, 2, 2, 2, 2, 2, 2, 2, 2, 2, 2, 2, 2, 2] : List ℝ)) =
      [1, 0, 0, 0, 0, 0, 0, 0, 0, 0, 0, 0, 0, 0, 0, 0, 0, 0, 0, 0] := by
    rw [real_returns_example]
    rfl
  have h19 : specLast 19 (specReturns ([1, 2, 2, 2, 2, 2, 2, 2, 2, 2, 2, 2, 2, 2, 2, 2, 2, 2, 2, 2, 2] : List ℝ)) =
      [0, 0, 0, 0, 0, 0, 0, 0, 0, 0, 0, 0, 0, 0, 0, 0, 0, 0, 0] := by
    rw [real_returns_example]
    rfl
  refine ⟨h20, ?_, ?_⟩
  · rw [h20]
    show Real.sqrt _ ≠ 0
    rw [Real.sqrt_ne_zero']
    simp only [specPopVariance, List.map_cons, List.map_nil, List.sum_cons, List.sum_nil,
      List.length_cons, List.length_nil]
    norm_num
  · rw [calculateVolatility_eq options.realLibm _ "AAPL"
      ⟨[1, 2, 2, 2, 2, 2, 2, 2, 2, 2, 2, 2, 2, 2, 2, 2, 2, 2, 2, 2, 2], []⟩ (by simp [umapFind]) 20 (by norm_num) (by simp)]
    show Real.sqrt (specPopVariance (specLast 19 (specReturns
      ([1, 2, 2, 2, 2, 2, 2, 2, 2, 2, 2, 2, 2, 2, 2, 2, 2, 2, 2, 2, 2] : List ℝ)))) = 0
    rw [h19]
    simp [specPopVariance]

/-- Claim C32, amended. For every symbol whose history holds at least 20 prices (so also
with at least 21 prices, all non-zero), `calculateVolatility(symbol, 20)` is the
population standard deviation (the square root of the population variance) of the
last 19 arithmetic returns `(p_{i+1} - p_i) / p_i`, which are the returns over the last
20 prices. -/
theorem volatility_last_returns (m : options.Libm α) (self : MomentumStrategy α)
    (symbol : String) (it : PriceHistory α)
    (hf : umapFind self.price_history_ symbol = some it) (hlen : 20 ≤ it.prices.length)
    (_hnz : ∀ p ∈ it.prices, p ≠ 0) :
    calculateVolatility m self symbol 20 =
      m.sqrt (specPopVariance (specLast 19 (specReturns it.prices))) ∧
    (specLast 19 (specReturns it.prices)).length = 19 ∧
    specLast 19 (specReturns it.prices) = specReturns (specLast 20 it.prices) := by
  obtain ⟨-, r2, r3⟩ := volatility_returns it.prices 20 (by norm_num) hlen
  exact ⟨calculateVolatility_eq m self symbol it hf 20 (by norm_num) hlen, r2, r3⟩

/-- The 21 prices 1, 2, ..., 2 of AAPL satisfy the hypotheses of
`volatility_last_returns`. -/
theorem volatility_last_returns_witness :
    (∀ p ∈ ([1, 2, 2, 2, 2, 2, 2, 2, 2, 2, 2, 2, 2, 2, 2, 2, 2, 2, 2, 2, 2] : List ℝ), p ≠ 0) ∧
    (specLast 19 (specReturns ([1, 2, 2, 2, 2, 2, 2, 2, 2, 2, 2, 2, 2, 2, 2, 2, 2, 2, 2, 2, 2] : List ℝ))).length = 19 := by
  have hnz : ∀ p ∈ ([1, 2, 2, 2, 2, 2, 2, 2, 2, 2, 2, 2, 2, 2, 2, 2, 2, 2, 2, 2, 2] : List ℝ), p ≠ 0 := by
    intro p hp
    simp only [List.mem_cons, List.mem_singleton, List.not_mem_nil, or_false] at hp
    rcases hp with rfl | hp
    · norm_num
    · have : p = 2 := by tauto
      rw [this]
      norm_num
  exact ⟨hnz, (volatility_last_returns options.realLibm
    (⟨⟨StrategyType.MOMENTUM, "momentum", [], ["AAPL"], true, 100, 0.05, 0.10⟩, [],
        [("AAPL", ⟨[1, 2, 2, 2, 2, 2, 2, 2, 2, 2, 2, 2, 2, 2, 2, 2, 2, 2, 2, 2, 2], []⟩)]⟩ :
        MomentumStrategy ℝ) "AAPL"
    ⟨[1, 2, 2, 2, 2, 2, 2, 2, 2, 2, 2, 2, 2, 2, 2, 2, 2, 2, 2, 2, 2], []⟩ (by simp [umapFind]) (by simp) hnz).2.1⟩

/-! ## The options chains of the constructor -/

theorem umapFind_umapAssign_ne {β : Type} (mp : List (String × β)) (key key2 : String)
    (v : β) (h : key2 ≠ key) : umapFind (umapAssign mp key v) key2 = umapFind mp key2 := by
  induction mp with
  | nil => simp [umapAssign, umapFind, h.symm]
  | cons kv mp ih =>
    obtain ⟨k, w⟩ := kv
    by_cases hk : k = key
    · subst hk
      simp [umapAssign, umapFind, h.symm]
    · by_cases hk2 : k = key2
      · subst hk2
        simp [umapAssign, umapFind, hk]
      · simp [umapAssign, umapFind, hk, hk2, ih]

theorem dmapAssign_fresh (mp : List (α × α)) (k v : α) (h : ∀ kv ∈ mp, kv.1 ≠ k) :
    dmapAssign mp k v = mp ++ [(k, v)] := by
  induction mp with
  | nil => rfl
  | cons kv mp ih =>
    obtain ⟨k1, w⟩ := kv
    rw [dmapAssign, if_neg (h (k1, w) (List.mem_cons_self _ _)),
      ih (fun kv hkv => h kv (List.mem_cons_of_mem _ hkv))]
    rfl

theorem strike_injective (i j : Int) (h : (150.0 : α) + (i : α) * 5.0 = 150.0 + (j : α) * 5.0) :
    i = j := by
  have h5 : (5.0 : α) ≠ 0 := by norm_num
  have := mul_right_cancel₀ h5 (add_left_cancel h)
  exact_mod_cast this

/-- The strikes and implied volatilities after the inner loop of the constructor. -/
theorem chainLoop_spec (is : List Int) (chain : OptionsChain α) (hnd : is.Nodup)
    (hfresh : ∀ i ∈ is, ∀ kv ∈ chain.implied_vols, kv.1 ≠ (150.0 : α) + (i : α) * 5.0) :
    (chainLoop 150.0 is chain).strike_prices =
      chain.strike_prices ++ is.map (fun (i : Int) => (150.0 : α) + (i : α) * 5.0) ∧
    (chainLoop 150.0 is chain).implied_vols =
      chain.implied_vols ++ is.map (fun (i : Int) => ((150.0 : α) + (i : α) * 5.0,
        0.20 + (|(150.0 : α) + (i : α) * 5.0 - 150.0| / 150.0) * 0.1)) := by
  induction is generalizing chain with
  | nil => simp [chainLoop]
  | cons i rest ih =>
    rw [List.nodup_cons] at hnd
    rw [chainLoop]
    have hf := dmapAssign_fresh chain.implied_vols ((150.0 : α) + (i : α) * 5.0)
      (0.20 + (|(150.0 : α) + (i : α) * 5.0 - 150.0| / 150.0) * 0.1)
      (hfresh i (List.mem_cons_self _ _))
    have h := ih
      { chain with
        strike_prices := chain.strike_prices ++ [(150.0 : α) + (i : α) * 5.0],
        call_prices := dmapAssign chain.call_prices ((150.0 : α) + (i : α) * 5.0)
          (options.stdMax 0.1 (150.0 - ((150.0 : α) + (i : α) * 5.0) + 5.0)),
        put_prices := dmapAssign chain.put_prices ((150.0 : α) + (i : α) * 5.0)
          (options.stdMax 0.1 ((150.0 : α) + (i : α) * 5.0 - 150.0 + 5.0)),
        implied_vols := dmapAssign chain.implied_vols ((150.0 : α) + (i : α) * 5.0)
          (0.20 + (|(150.0 : α) + (i : α) * 5.0 - 150.0| / 150.0) * 0.1) }
      hnd.2 (by
        intro j hj kv hkv
        have hkv2 : kv ∈ dmapAssign chain.implied_vols ((150.0 : α) + (i : α) * 5.0)
            (0.20 + (|(150.0 : α) + (i : α) * 5.0 - 150.0| / 150.0) * 0.1) := hkv
        rw [hf] at hkv2
        rcases List.mem_append.1 hkv2 with e | e
        · exact hfresh j (List.mem_cons_of_mem _ hj) kv e
        · rw [List.mem_singleton] at e
          rw [e]
          intro heq
          have := strike_injective i j heq
          exact hnd.1 (this ▸ hj))
    refine ⟨h.1.trans ?_, h.2.trans ?_⟩
    · simp
    · show dmapAssign chain.implied_vols _ _ ++ _ = _
      rw [hf]
      simp

theorem sampleChain_spec (symbol : String) :
    (sampleChain symbol : OptionsChain α).strike_prices =
      ((List.range 21).map (fun (k : Nat) => (k : Int) - 10)).map
        (fun (i : Int) => (150.0 : α) + (i : α) * 5.0) ∧
    (sampleChain symbol : OptionsChain α).implied_vols =
      ((List.range 21).map (fun (k : Nat) => (k : Int) - 10)).map
        (fun (i : Int) => ((150.0 : α) + (i : α) * 5.0,
          0.20 + (|(150.0 : α) + (i : α) * 5.0 - 150.0| / 150.0) * 0.1)) := by
  have hnd : ((List.range 21).map (fun (k : Nat) => (k : Int) - 10)).Nodup := by decide
  have h := @chainLoop_spec α _ ((List.range 21).map (fun (k : Nat) => (k : Int) - 10))
    { underlying_symbol := symbol, strike_prices := [], expiration_date := "2024-03-15",
      call_prices := [], put_prices := [], implied_vols := [] } hnd
    (fun _ _ kv hkv => absurd hkv (List.not_mem_nil kv))
  simpa [sampleChain] using h

/-- The mean implied volatility of the chain of the constructor is 137/630. -/
theorem sampleChain_mean_iv (symbol : String) :
    (sampleChain symbol : OptionsChain α).implied_vols.foldl
        (fun avg_iv kv => avg_iv + kv.2) 0.0 /
      ((sampleChain symbol : OptionsChain α).implied_vols.length : α) = 137 / 630 := by
  have hr : (List.range 21).map (fun (k : Nat) => (k : Int) - 10) =
      [-10, -9, -8, -7, -6, -5, -4, -3, -2, -1, 0, 1, 2, 3, 4, 5, 6, 7, 8, 9, 10] := by decide
  rw [(sampleChain_spec symbol).2, hr]
  simp only [List.map_cons, List.map_nil, List.foldl_cons, List.foldl_nil, List.length_cons,
    List.length_nil]
  norm_num [abs_of_pos, abs_of_neg]

/-! ## The options strategy -/

theorem chains_foldl_find (symbols : List String) (init : List (String × OptionsChain α))
    (k : String) :
    umapFind (symbols.foldl
        (fun chains symbol => umapAssign chains symbol (sampleChain symbol)) init) k =
      if k ∈ symbols then some (sampleChain k) else umapFind init k := by
  induction symbols generalizing init with
  | nil => simp
  | cons s rest ih =>
    rw [List.foldl_cons, ih]
    by_cases hr : k ∈ rest
    · simp [hr]
    · by_cases hs : k = s
      · subst hs
        simp [hr, umapFind_umapAssign_self]
      · simp [hr, hs, umapFind_umapAssign_ne _ _ _ _ hs]

/-- The chains after the constructor: one `sampleChain` per configured symbol. -/
theorem init_chain_find (config : StrategyConfig α) (k : String) :
    umapFind (OptionsStrategy.init config).options_chains_ k =
      if k ∈ config.symbols then some (sampleChain k) else none := by
  simp only [OptionsStrategy.init]
  rw [chains_foldl_find]
  rfl

theorem isHighVolatility_of_init (self : OptionsStrategy α)
    (hch : self.options_chains_ = (OptionsStrategy.init self.config_).options_chains_)
    (symbol : String) : isHighVolatility self symbol = false := by
  unfold isHighVolatility
  rw [hch, init_chain_find]
  by_cases h : symbol ∈ self.config_.symbols
  · rw [if_pos h]
    show decide ((sampleChain symbol : OptionsChain α).implied_vols.foldl
        (fun avg_iv kv => avg_iv + kv.2) 0.0 /
      ((sampleChain symbol : OptionsChain α).implied_vols.length : α) > 0.25) = false
    rw [sampleChain_mean_iv, decide_eq_false_iff_not]
    norm_num
  · rw [if_neg h]

theorem isHighVolatility_no_chain (self : OptionsStrategy α) (symbol : String)
    (h : umapFind self.options_chains_ symbol = none) :
    isHighVolatility self symbol = false := by
  unfold isHighVolatility
  rw [h]

theorem foldl_append_init {β γ : Type} (f : γ → List β) (l : List γ) (init : List β) :
    l.foldl (fun signals data => signals ++ f data) init =
      init ++ l.foldl (fun signals data => signals ++ f data) [] := by
  induction l generalizing init with
  | nil => simp
  | cons d rest ih =>
    rw [List.foldl_cons, List.foldl_cons, ih (init ++ f d), ih ([] ++ f d)]
    simp

theorem generateSignals_cons (m : options.Libm α) (now : Int) (self : OptionsStrategy α)
    (data : MarketData α) (post : List (MarketData α)) :
    OptionsStrategy.generateSignals m now self (data :: post) =
      optionsSignalsFor m now self data ++ OptionsStrategy.generateSignals m now self post := by
  unfold OptionsStrategy.generateSignals
  rw [List.foldl_cons, foldl_append_init]
  rfl

theorem generateSignals_append (m : options.Libm α) (now : Int) (self : OptionsStrategy α)
    (pre post : List (MarketData α)) :
    OptionsStrategy.generateSignals m now self (pre ++ post) =
      OptionsStrategy.generateSignals m now self pre ++
        OptionsStrategy.generateSignals m now self post := by
  induction pre with
  | nil => rfl
  | cons d rest ih =>
    rw [List.cons_append, generateSignals_cons, generateSignals_cons, ih, List.append_assoc]

theorem mem_generateSignals (m : options.Libm α) (now : Int) (self : OptionsStrategy α)
    (market_data : List (MarketData α)) (s : TradingSignal α)
    (hs : s ∈ OptionsStrategy.generateSignals m now self market_data) :
    ∃ data ∈ market_data, s ∈ optionsSignalsFor m now self data := by
  induction market_data with
  | nil => exact absurd hs (List.not_mem_nil s)
  | cons d rest ih =>
    rw [generateSignals_cons, List.mem_append] at hs
    rcases hs with h | h
    · exact ⟨d, List.mem_cons_self _ _, h⟩
    · obtain ⟨data, hd, hm⟩ := ih h
      exact ⟨data, List.mem_cons_of_mem _ hd, hm⟩

/-- The result of `std::min_element` with the comparison of `getATMStrikes`. -/
theorem closest_foldl (spot : α) (rest : List α) (acc : α) :
    rest.foldl (fun smallest x =>
        if decide (|x - spot| < |smallest - spot|) = true then x else smallest) acc ∈
      acc :: rest ∧
    |rest.foldl (fun smallest x =>
        if decide (|x - spot| < |smallest - spot|) = true then x else smallest) acc - spot| ≤
      |acc - spot| ∧
    ∀ k ∈ rest, |rest.foldl (fun smallest x =>
        if decide (|x - spot| < |smallest - spot|) = true then x else smallest) acc - spot| ≤
      |k - spot| := by
  induction rest generalizing acc with
  | nil => simp
  | cons x rest ih =>
    rw [List.foldl_cons]
    by_cases hlt : |x - spot| < |acc - spot|
    · rw [if_pos (decide_eq_true hlt)]
      obtain ⟨h1, h2, h3⟩ := ih x
      refine ⟨?_, le_trans h2 hlt.le, ?_⟩
      · exact List.mem_cons_of_mem _ h1
      · intro k hk
        rcases List.mem_cons.1 hk with rfl | hk
        · exact h2
        · exact h3 k hk
    · rw [if_neg (by simpa using hlt)]
      obtain ⟨h1, h2, h3⟩ := ih acc
      refine ⟨?_, h2, ?_⟩
      · rcases List.mem_cons.1 h1 with h | h
        · rw [h]
          exact List.mem_cons_self _ _
        · exact List.mem_cons_of_mem _ (List.mem_cons_of_mem _ h)
      · intro k hk
        rcases List.mem_cons.1 hk with rfl | hk
        · exact le_trans h2 (not_lt.1 hlt)
        · exact h3 k hk

theorem minElement_closest (spot : α) (strikes : List α) (closest : α)
    (h : minElement (fun a b => decide (|a - spot| < |b - spot|)) strikes = some closest) :
    closest ∈ strikes ∧ ∀ k ∈ strikes, |closest - spot| ≤ |k - spot| := by
  cases strikes with
  | nil => simp [minElement] at h
  | cons first rest =>
    rw [minElement] at h
    have h2 := Option.some.inj h
    obtain ⟨h1, h3, h4⟩ := closest_foldl spot rest first
    rw [← h2]
    refine ⟨h1, ?_⟩
    intro k hk
    rcases List.mem_cons.1 hk with rfl | hk
    · exact h3
    · exact h4 k hk

theorem sampleChain_strikes_ne_nil (symbol : String) :
    (sampleChain symbol : OptionsChain α).strike_prices ≠ [] := by
  rw [(sampleChain_spec symbol).1]
  intro h
  have := congrArg List.length h
  simp at this

theorem getATMStrikes_closest (self : OptionsStrategy α) (symbol : String)
    (chain : OptionsChain α) (hfind : umapFind self.options_chains_ symbol = some chain)
    (hne : chain.strike_prices ≠ []) (spot : α) :
    ∃ closest, getATMStrikes self symbol spot = [closest] ∧
      closest ∈ chain.strike_prices ∧
      ∀ k ∈ chain.strike_prices, |closest - spot| ≤ |k - spot| := by
  unfold getATMStrikes
  rw [hfind]
  obtain ⟨strikes, hst⟩ : ∃ strikes, chain.strike_prices = strikes := ⟨_, rfl⟩
  show ∃ closest, (match minElement (fun a b => decide (|a - spot| < |b - spot|))
        chain.strike_prices with
      | some closest => [closest]
      | none => []) = [closest] ∧ _
  rw [hst] at hne ⊢
  cases strikes with
  | nil => exact absurd rfl hne
  | cons first rest =>
    have hmin : minElement (fun a b => decide (|a - spot| < |b - spot|)) (first :: rest) =
        some (rest.foldl (fun smallest x =>
          if decide (|x - spot| < |smallest - spot|) = true then x else smallest) first) := rfl
    rw [hmin]
    exact ⟨_, rfl, minElement_closest spot _ _ hmin⟩

theorem getATMStrikes_of_init (self : OptionsStrategy α)
    (hch : self.options_chains_ = (OptionsStrategy.init self.config_).options_chains_)
    (symbol : String) (hsym : symbol ∈ self.config_.symbols) (spot : α) :
    ∃ closest, getATMStrikes self symbol spot = [closest] ∧
      closest ∈ (sampleChain symbol : OptionsChain α).strike_prices ∧
      ∀ k ∈ (sampleChain symbol : OptionsChain α).strike_prices,
        |closest - spot| ≤ |k - spot| := by
  have hfind : umapFind self.options_chains_ symbol = some (sampleChain symbol) := by
    rw [hch, init_chain_find, if_pos hsym]
  exact getATMStrikes_closest self symbol _ hfind (sampleChain_strikes_ne_nil symbol) spot

/-- Every signal of one tick: the confidence, quantity, expiration and flag that
`createOptionsSignal` is called with. -/
theorem optionsSignalsFor_fields (m : options.Libm α) (now : Int) (self : OptionsStrategy α)
    (data : MarketData α) (s : TradingSignal α)
    (hs : s ∈ optionsSignalsFor m now self data) :
    (0.65 : α) ≤ s.confidence ∧ s.confidence ≤ 0.85 ∧ s.quantity = 1 ∧
    s.expiration_date = "2024-03-15" ∧ s.symbol = data.symbol ∧
    (((s.signal_type = SignalType.BUY_CALL ∨ s.signal_type = SignalType.SELL_CALL) ∧
        s.is_call = true) ∨
      ((s.signal_type = SignalType.BUY_PUT ∨ s.signal_type = SignalType.SELL_PUT) ∧
        s.is_call = false)) := by
  unfold optionsSignalsFor at hs
  split at hs
  · unfold generateStraddleSignals at hs
    split at hs
    · split at hs
      · exact absurd hs (List.not_mem_nil s)
      · simp only [List.mem_cons, List.mem_singleton, List.not_mem_nil, or_false] at hs
        rcases hs with rfl | rfl <;> simp [createOptionsSignal] <;> norm_num
    · exact absurd hs (List.not_mem_nil s)
  · unfold generateStrangleSignals at hs
    split at hs
    · simp only [List.mem_cons, List.mem_singleton, List.not_mem_nil, or_false] at hs
      rcases hs with rfl | rfl <;> simp [createOptionsSignal] <;> norm_num
    · exact absurd hs (List.not_mem_nil s)
  · unfold generateCoveredCallSignals at hs
    dsimp only at hs
    split at hs
    · simp only [List.mem_cons, List.mem_singleton, List.not_mem_nil, or_false] at hs
      rw [hs]
      norm_num [createOptionsSignal]
    · exact absurd hs (List.not_mem_nil s)
  · unfold generateProtectivePutSignals at hs
    dsimp only at hs
    split at hs
    · simp only [List.mem_cons, List.mem_singleton, List.not_mem_nil, or_false] at hs
      rw [hs]
      norm_num [createOptionsSignal]
    · exact absurd hs (List.not_mem_nil s)
  · unfold generateIronCondorSignals at hs
    split at hs
    · simp only [List.mem_cons, List.mem_singleton, List.not_mem_nil, or_false] at hs
      rcases hs with rfl | rfl | rfl | rfl <;> simp [createOptionsSignal] <;> norm_num
    · exact absurd hs (List.not_mem_nil s)
  · unfold generateButterflySignals at hs
    split at hs
    · simp only [List.mem_cons, List.mem_singleton, List.not_mem_nil, or_false] at hs
      rcases hs with rfl | rfl | rfl <;> simp [createOptionsSignal] <;> norm_num
    · exact absurd hs (List.not_mem_nil s)
  · exact absurd hs (List.not_mem_nil s)

theorem generateSignals_nil_of (m : options.Libm α) (now : Int) (self : OptionsStrategy α)
    (h : ∀ data, optionsSignalsFor m now self data = [])
    (market_data : List (MarketData α)) :
    OptionsStrategy.generateSignals m now self market_data = [] := by
  induction market_data with
  | nil => rfl
  | cons d rest ih => rw [generateSignals_cons, h d, ih, List.append_nil]

/-- Claim C40. A strategy whose chains are those of its constructor (`options_chains_` and
`config_` are written by the constructor only; `positions_` is arbitrary) has no high-IV
symbol: every chain it holds has mean implied volatility 137/630, below 0.25, and a symbol
without a chain is not high-IV.  So `isLowVolatility` holds for every symbol, and a
strategy of type `IRON_CONDOR` or `PROTECTIVE_PUT` emits no signal on any input. -/
theorem constructor_never_high_volatility (m : options.Libm α) (now : Int)
    (self : OptionsStrategy α)
    (hch : self.options_chains_ = (OptionsStrategy.init self.config_).options_chains_) :
    (∀ symbol, isHighVolatility self symbol = false ∧ isLowVolatility self symbol = true) ∧
    (∀ symbol chain, umapFind self.options_chains_ symbol = some chain →
      chain.implied_vols.foldl (fun avg_iv kv => avg_iv + kv.2) 0.0 /
        (chain.implied_vols.length : α) < 0.25) ∧
    (∀ symbol, (umapFind self.options_chains_ symbol).isSome = true ↔
      symbol ∈ self.config_.symbols) ∧
    ((self.config_.type = StrategyType.IRON_CONDOR ∨
        self.config_.type = StrategyType.PROTECTIVE_PUT) →
      ∀ market_data, OptionsStrategy.generateSignals m now self market_data = []) := by
  have hhigh := isHighVolatility_of_init self hch
  refine ⟨fun symbol => ⟨hhigh symbol, ?_⟩, ?_, ?_, ?_⟩
  · unfold isLowVolatility
    rw [hhigh symbol]
    rfl
  · intro symbol chain hfind
    rw [hch, init_chain_find] at hfind
    by_cases h : symbol ∈ self.config_.symbols
    · rw [if_pos h] at hfind
      rw [← Option.some.inj hfind, sampleChain_mean_iv]
      norm_num
    · rw [if_neg h] at hfind
      exact Option.noConfusion hfind
  · intro symbol
    rw [hch, init_chain_find]
    by_cases h : symbol ∈ self.config_.symbols
    · simp [h]
    · simp [h]
  · intro htype market_data
    apply generateSignals_nil_of
    intro data
    unfold optionsSignalsFor
    rcases htype with ht | ht
    · rw [ht]
      show generateIronCondorSignals m now self data = []
      unfold generateIronCondorSignals
      rw [if_neg]
      rw [hhigh data.symbol]
      simp
    · rw [ht]
      show generateProtectivePutSignals m now self data = []
      unfold generateProtectivePutSignals
      dsimp only
      rw [if_neg]
      rw [hhigh data.symbol]
      simp

/-- The constructor's strategy for AAPL of type `IRON_CONDOR` satisfies the hypothesis of
`constructor_never_high_volatility`: it emits nothing on a neutral AAPL tick. -/
theorem constructor_never_high_volatility_witness :
    isHighVolatility (OptionsStrategy.init
        (⟨StrategyType.IRON_CONDOR, "condor", [], ["AAPL"], true, 100, 0.05, 0.10⟩ :
          StrategyConfig ℝ)) "AAPL" = false ∧
    OptionsStrategy.generateSignals options.realLibm 0 (OptionsStrategy.init
        (⟨StrategyType.IRON_CONDOR, "condor", [], ["AAPL"], true, 100, 0.05, 0.10⟩ :
          StrategyConfig ℝ))
      [⟨"AAPL", 150, 5000, 149, 151, 0, 150, 150, 50, 160, 140, 0, 0⟩] = [] :=
  ⟨((constructor_never_high_volatility options.realLibm 0 (OptionsStrategy.init
        (⟨StrategyType.IRON_CONDOR, "condor", [], ["AAPL"], true, 100, 0.05, 0.10⟩ :
          StrategyConfig ℝ)) rfl).1 "AAPL").1,
    (constructor_never_high_volatility options.realLibm 0 (OptionsStrategy.init
        (⟨StrategyType.IRON_CONDOR, "condor", [], ["AAPL"], true, 100, 0.05, 0.10⟩ :
          StrategyConfig ℝ)) rfl).2.2.2 (Or.inl rfl) _⟩

/-- Claim C33. For a strategy of type `OPTIONS_STRADDLE` whose chains are those of its
constructor, a tick `data` of a configured symbol contributes exactly two signals to the
result of `generateSignals`, wherever the tick stands in the input: a `BUY_CALL` followed
by a `BUY_PUT` for the symbol, with one common strike, which is a listed strike of the
symbol's chain and minimises the distance to the tick price over all listed strikes. -/
theorem straddle_atm_signals (m : options.Libm α) (now : Int) (self : OptionsStrategy α)
    (data : MarketData α)
    (hch : self.options_chains_ = (OptionsStrategy.init self.config_).options_chains_)
    (htype : self.config_.type = StrategyType.OPTIONS_STRADDLE)
    (hsym : data.symbol ∈ self.config_.symbols) :
    ∃ (chain : OptionsChain α) (s1 s2 : TradingSignal α),
      umapFind self.options_chains_ data.symbol = some chain ∧
      (∀ pre post : List (MarketData α),
        OptionsStrategy.generateSignals m now self (pre ++ data :: post) =
          OptionsStrategy.generateSignals m now self pre ++ [s1, s2] ++
            OptionsStrategy.generateSignals m now self post) ∧
      OptionsStrategy.generateSignals m now self [data] = [s1, s2] ∧
      s1.symbol = data.symbol ∧ s2.symbol = data.symbol ∧
      s1.signal_type = SignalType.BUY_CALL ∧ s2.signal_type = SignalType.BUY_PUT ∧
      s1.strike_price = s2.strike_price ∧
      s1.strike_price ∈ chain.strike_prices ∧
      ∀ k ∈ chain.strike_prices, |s1.strike_price - data.price| ≤ |k - data.price| := by
  have hfind : umapFind self.options_chains_ data.symbol = some (sampleChain data.symbol) := by
    rw [hch, init_chain_find, if_pos hsym]
  obtain ⟨closest, hatm, hmem, hmin⟩ :=
    getATMStrikes_of_init self hch data.symbol hsym data.price
  have hlow : isLowVolatility self data.symbol = true := by
    unfold isLowVolatility
    rw [isHighVolatility_of_init self hch]
    rfl
  have hone : optionsSignalsFor m now self data =
      [createOptionsSignal now self data.symbol SignalType.BUY_CALL closest true
          "2024-03-15" (calculateOptionPrice m data.symbol closest true "2024-03-15") 0.75
          "Long straddle - expecting volatility increase",
        createOptionsSignal now self data.symbol SignalType.BUY_PUT closest false
          "2024-03-15" (calculateOptionPrice m data.symbol closest false "2024-03-15") 0.75
          "Long straddle - expecting volatility increase"] := by
    unfold optionsSignalsFor
    rw [htype]
    show generateStraddleSignals m now self data = _
    unfold generateStraddleSignals
    rw [if_pos hlow, hatm]
  refine ⟨sampleChain data.symbol,
    createOptionsSignal now self data.symbol SignalType.BUY_CALL closest true
      "2024-03-15" (calculateOptionPrice m data.symbol closest true "2024-03-15") 0.75
      "Long straddle - expecting volatility increase",
    createOptionsSignal now self data.symbol SignalType.BUY_PUT closest false
      "2024-03-15" (calculateOptionPrice m data.symbol closest false "2024-03-15") 0.75
      "Long straddle - expecting volatility increase",
    hfind, ?_, ?_, rfl, rfl, rfl, rfl, rfl, hmem, hmin⟩
  · intro pre post
    rw [generateSignals_append, generateSignals_cons, hone, List.append_assoc]
  · rw [generateSignals_cons, hone]
    rfl

/-- The constructor's straddle strategy for AAPL and an AAPL tick at 152 satisfy the
hypotheses of `straddle_atm_signals`. -/
theorem straddle_atm_signals_witness :
    "AAPL" ∈ (["AAPL"] : List String) ∧
    ∃ (chain : OptionsChain ℝ) (s1 s2 : TradingSignal ℝ),
      umapFind (OptionsStrategy.init
        (⟨StrategyType.OPTIONS_STRADDLE, "straddle", [], ["AAPL"], true, 100, 0.05, 0.10⟩ :
          StrategyConfig ℝ)).options_chains_ "AAPL" = some chain ∧
      OptionsStrategy.generateSignals options.realLibm 0 (OptionsStrategy.init
        (⟨StrategyType.OPTIONS_STRADDLE, "straddle", [], ["AAPL"], true, 100, 0.05, 0.10⟩ :
          StrategyConfig ℝ))
        [⟨"AAPL", 152, 5000, 151, 153, 0, 150, 150, 50, 160, 140, 0, 0⟩] = [s1, s2] ∧
      s1.signal_type = SignalType.BUY_CALL ∧ s2.signal_type = SignalType.BUY_PUT ∧
      s1.strike_price = s2.strike_price ∧ s1.strike_price ∈ chain.strike_prices := by
  obtain ⟨chain, s1, s2, h1, -, h3, -, -, h6, h7, h8, h9, -⟩ :=
    straddle_atm_signals options.realLibm 0 (OptionsStrategy.init
        (⟨StrategyType.OPTIONS_STRADDLE, "straddle", [], ["AAPL"], true, 100, 0.05, 0.10⟩ :
          StrategyConfig ℝ))
      ⟨"AAPL", 152, 5000, 151, 153, 0, 150, 150, 50, 160, 140, 0, 0⟩ rfl rfl
      (List.mem_singleton.2 rfl)
  exact ⟨List.mem_singleton.2 rfl, chain, s1, s2, h1, h3, h6, h7, h8, h9⟩

/-- Claim C34. Every signal in the result of `OptionsStrategy::generateSignals`, for every
strategy state and every input, has confidence between 0.65 and 0.85, quantity 1, a
non-empty expiration date, one of the four option kinds and an `is_call` flag that agrees
with the kind; its confidence is not below 0.6, so `validateSignal` of any engine accepts
it exactly when the portfolio-risk check passes. -/
theorem option_signal_fields (m : options.Libm α) (now : Int) (self : OptionsStrategy α)
    (market_data : List (MarketData α)) (s : TradingSignal α)
    (hs : s ∈ OptionsStrategy.generateSignals m now self market_data) :
    (0.65 : α) ≤ s.confidence ∧ s.confidence ≤ 0.85 ∧ s.quantity = 1 ∧
    s.expiration_date ≠ "" ∧
    (s.signal_type = SignalType.BUY_CALL ∨ s.signal_type = SignalType.SELL_CALL ∨
      s.signal_type = SignalType.BUY_PUT ∨ s.signal_type = SignalType.SELL_PUT) ∧
    ((s.signal_type = SignalType.BUY_CALL ∨ s.signal_type = SignalType.SELL_CALL) →
      s.is_call = true) ∧
    ((s.signal_type = SignalType.BUY_PUT ∨ s.signal_type = SignalType.SELL_PUT) →
      s.is_call = false) ∧
    ¬ s.confidence < 0.6 ∧
    ∀ engine : AlgorithmicEngine α, validateSignal engine s = true ↔
      s.price * s.quantity / engine.current_portfolio_value_ ≤ engine.max_portfolio_risk_ := by
  obtain ⟨data, -, hmem⟩ := mem_generateSignals m now self market_data s hs
  obtain ⟨h1, h2, h3, h4, -, h6⟩ := optionsSignalsFor_fields m now self data s hmem
  have hconf : ¬ s.confidence < 0.6 := by
    intro h
    have : (0.6 : α) < 0.65 := by norm_num
    exact absurd (lt_of_lt_of_le this h1) (not_lt.2 h.le)
  refine ⟨h1, h2, h3, ?_, ?_, ?_, ?_, hconf, ?_⟩
  · rw [h4]
    decide
  · rcases h6 with ⟨h | h, -⟩ | ⟨h | h, -⟩
    · exact Or.inl h
    · exact Or.inr (Or.inl h)
    · exact Or.inr (Or.inr (Or.inl h))
    · exact Or.inr (Or.inr (Or.inr h))
  · intro hk
    rcases h6 with ⟨-, hc⟩ | ⟨hp, -⟩
    · exact hc
    · rcases hk with hk | hk <;> rcases hp with hp | hp <;> rw [hk] at hp <;> cases hp
  · intro hk
    rcases h6 with ⟨hc, -⟩ | ⟨-, hp⟩
    · rcases hk with hk | hk <;> rcases hc with hc | hc <;> rw [hk] at hc <;> cases hc
    · exact hp
  · intro engine
    rw [validateSignal_iff]
    exact ⟨fun h => h.1, fun h => ⟨h, not_lt.1 hconf⟩⟩

/-- The constructor's butterfly strategy for AAPL emits signals on a neutral AAPL tick, and
each of them satisfies `option_signal_fields`. -/
theorem option_signal_fields_witness :
    ∃ s : TradingSignal ℝ,
      s ∈ OptionsStrategy.generateSignals options.realLibm 0 (OptionsStrategy.init
        (⟨StrategyType.BUTTERFLY_SPREAD, "butterfly", [], ["AAPL"], true, 100, 0.05, 0.10⟩ :
          StrategyConfig ℝ))
        [⟨"AAPL", 150, 5000, 149, 151, 0, 150, 150, 50, 160, 140, 0, 0⟩] ∧
      (0.65 : ℝ) ≤ s.confidence ∧ s.confidence ≤ 0.85 ∧ s.quantity = 1 ∧
      s.expiration_date ≠ "" := by
  have hne : OptionsStrategy.generateSignals options.realLibm 0 (OptionsStrategy.init
        (⟨StrategyType.BUTTERFLY_SPREAD, "butterfly", [], ["AAPL"], true, 100, 0.05, 0.10⟩ :
          StrategyConfig ℝ))
        [⟨"AAPL", 150, 5000, 149, 151, 0, 150, 150, 50, 160, 140, 0, 0⟩] ≠ [] := by
    rw [generateSignals_cons]
    unfold optionsSignalsFor
    show generateButterflySignals _ _ _ _ ++ _ ≠ []
    unfold generateButterflySignals
    rw [if_pos (by norm_num)]
    simp
  obtain ⟨s, hs⟩ := List.exists_mem_of_ne_nil _ hne
  obtain ⟨h1, h2, h3, h4, -⟩ := option_signal_fields options.realLibm 0 _ _ s hs
  exact ⟨s, hs, h1, h2, h3, h4⟩

end algo

end hedgefund
